import Mathlib

/-!
Verification of the kaitai_struct compiler-cpp core against its
natural-language specification.

The development shallowly embeds the C++ sources:

* src/compiler-cpp/src/ir.h, ir.cpp   — IR model, textual KSIR1 serializer
  and parser, structural validator, import loader;
* src/compiler-cpp/src/codegen.cpp    — expression renderer, supportability
  gate, embedded-scope decoding and the C++ header/source emitters.

C++ strings are modelled as lists of characters, streams as explicit
suffix passing, std::map / std::set as association lists with the same
observable lookup behaviour, and fallible functions (ValidationResult /
Result) as Except carrying the error text.  Recursions that are loops in
C++ are given explicit fuel chosen large enough to never be exhausted on
the inputs the theorems speak about; the fuel-zero branches are marked
where they occur.
-/

namespace KS

/-- Character list standing for a C++ std::string. -/
abbrev Str := List Char

/-- Convenience injection of a Lean string literal into the model. -/
def str (s : String) : Str := s.data

/-- The characters std::isspace recognises in the "C" locale. -/
def isSpaceC (c : Char) : Bool :=
  c = ' ' || c = '\t' || c = '\n' || c = '\x0b' || c = '\x0c' || c = '\r'

/-- Decimal digit test, as the stream number parsers use it. -/
def isDigitC (c : Char) : Bool := '0' ≤ c && c ≤ '9'

/-- One decimal digit as a character (argument taken modulo the final
catch-all, which is only reached for 9 on the inputs used). -/
def digitChar (n : Nat) : Char :=
  match n with
  | 0 => '0' | 1 => '1' | 2 => '2' | 3 => '3' | 4 => '4'
  | 5 => '5' | 6 => '6' | 7 => '7' | 8 => '8' | _ => '9'

/-- Fuelled decimal printer for naturals; fuel bounds the digit count. -/
def natCharsAux : Nat → Nat → Str
  | 0, _ => []
  | fuel + 1, n =>
    if n < 10 then [digitChar n] else natCharsAux fuel (n / 10) ++ [digitChar (n % 10)]

/-- Decimal rendering of a natural number, as ostream operator<< prints it. -/
def natChars (n : Nat) : Str := natCharsAux (n + 1) n

/-- Decimal rendering of a signed integer, as ostream operator<< and
std::to_string print a long long. -/
def intChars (i : Int) : Str :=
  if i < 0 then '-' :: natChars i.natAbs else natChars i.toNat

/-- Value of a digit string, most significant first. -/
def natValOf (ds : Str) : Nat := ds.foldl (fun a c => a * 10 + (c.toNat - 48)) 0

/-- Drop leading whitespace, as a stream sentry does. -/
def skipWsC (cs : Str) : Str := cs.dropWhile isSpaceC

/-- Extraction of one whitespace-delimited token: the behaviour of
operator>> into a std::string.  Fails (failbit) when nothing remains. -/
def readTok (cs : Str) : Option (Str × Str) :=
  let cs := skipWsC cs
  let t := cs.takeWhile (fun c => !isSpaceC c)
  if t.isEmpty then none else some (t, cs.drop t.length)

/-- Body of a quoted string after the opening delimiter, following the
std::quoted extractor: a backslash escapes the next character, an
unescaped double quote terminates, end of input fails. -/
def quotedBody : Str → Option (Str × Str)
  | [] => none
  | c :: rest =>
    if c = '\\' then
      match rest with
      | [] => none
      | d :: rest2 => (quotedBody rest2).map (fun pr => (d :: pr.1, pr.2))
    else if c = '"' then some ([], rest)
    else (quotedBody rest).map (fun pr => (c :: pr.1, pr.2))

/-- Extraction via operator>> std::quoted(s): if the first non-blank
character is not the delimiter it degrades to a plain token read. -/
def readQuotedCore : Str → Option (Str × Str)
  | [] => none
  | c :: rest => if c = '"' then quotedBody rest else readTok (c :: rest)

/-- Extraction via operator>> std::quoted(s), after the whitespace skip
of the sentry. -/
def readQuoted (cs : Str) : Option (Str × Str) := readQuotedCore (skipWsC cs)

/-- Digit-run extraction without a whitespace skip. -/
def readNatRaw (cs : Str) : Option (Nat × Str) :=
  let ds := cs.takeWhile isDigitC
  if ds.isEmpty then none else some (natValOf ds, cs.drop ds.length)

/-- Extraction of an unsigned count via operator>> into size_t
(well-formed digit runs; other inputs fail). -/
def readNat (cs : Str) : Option (Nat × Str) := readNatRaw (skipWsC cs)

/-- Extraction of a signed integer via operator>> into long long. -/
def readIntCore : Str → Option (Int × Str)
  | [] => none
  | c :: rest =>
    if c = '-' then (readNatRaw rest).map (fun pr => (-(pr.1 : Int), pr.2))
    else if c = '+' then (readNatRaw rest).map (fun pr => ((pr.1 : Int), pr.2))
    else (readNatRaw (c :: rest)).map (fun pr => ((pr.1 : Int), pr.2))

/-- Extraction of a signed integer via operator>> into long long. -/
def readInt (cs : Str) : Option (Int × Str) := readIntCore (skipWsC cs)

/-- std::stoll on an already extracted token: sign then digit run, the
unparsed remainder ignored.  The C++ call throws when no digits are
found; the model reports that as a parse failure. -/
def stollOf (t : Str) : Option Int := (readInt t).map (fun pr => pr.1)

/-- The escaping the std::quoted inserter applies to one character. -/
def escChar (c : Char) : Str := if c = '"' || c = '\\' then ['\\', c] else [c]

/-- Escaped body of a quoted string. -/
def escBody : Str → Str
  | [] => []
  | c :: cs => escChar c ++ escBody cs

/-- Output of the std::quoted inserter: delimiters around the string with
the delimiter and escape characters escaped.  Newlines pass unescaped. -/
def quoteStr (s : Str) : Str := '"' :: (escBody s ++ ['"'])

/-- std::getline: extract characters up to (and consuming) the next
newline; fails only at end of input. -/
def getline (cs : Str) : Option (Str × Str) :=
  if cs.isEmpty then none
  else
    let line := cs.takeWhile (fun c => c ≠ '\n')
    some (line, (cs.drop line.length).drop 1)

/-- String without newline characters: such a field keeps serialized
lines intact. -/
def noNL (s : Str) : Bool := s.all (fun c => c ≠ '\n')

/-! ## IR data model (src/compiler-cpp/src/ir.h) -/

/-- Byte order (ir.h enum Endian). -/
inductive Endian
  | kLe
  | kBe
deriving DecidableEq, Repr

/-- Primitive field types (ir.h enum PrimitiveType). -/
inductive PrimitiveType
  | kU1 | kU2 | kU4 | kU8
  | kS1 | kS2 | kS4 | kS8
  | kF4 | kF8
  | kStr | kBytes
deriving DecidableEq, Repr

/-- Expression trees (ir.h struct Expr).  The C++ struct is a tagged
record built only through the Int/Bool/Name/Unary/Binary factories, so
it is embedded as an inductive with those constructors; int_value is a
long long, modelled as an unbounded integer. -/
inductive Expr
  | Int (int_value : Int)
  | Bool (bool_value : Bool)
  | Name (text : Str)
  | Unary (op : Str) (lhs : Expr)
  | Binary (op : Str) (lhs rhs : Expr)
deriving DecidableEq, Repr

/-- Type references (ir.h struct TypeRef): a primitive or a user name. -/
inductive TypeRef
  | primitive (p : PrimitiveType)
  | user (user_type : Str)
deriving DecidableEq, Repr

/-- Named type alias (ir.h struct TypeDef). -/
structure TypeDef where
  name : Str
  type : TypeRef
deriving DecidableEq, Repr

/-- Repetition kinds of an attr (ir.h Attr::RepeatKind). -/
inductive RepeatKind
  | kNone | kEos | kExpr | kUntil
deriving DecidableEq, Repr

/-- One switch case of an attr (ir.h Attr::SwitchCase); a missing
matchExpr is the else branch (C++ field match_expr). -/
structure SwitchCase where
  matchExpr : Option Expr
  type : TypeRef
deriving DecidableEq, Repr

/-- Ordered field of a spec (ir.h struct Attr). -/
structure Attr where
  id : Str
  type : TypeRef
  endian_override : Option Endian := none
  size_expr : Option Expr := none
  enum_name : Option Str := none
  encoding : Option Str := none
  if_expr : Option Expr := none
  repeatKind : RepeatKind := .kNone
  repeat_expr : Option Expr := none
  switch_on : Option Expr := none
  switch_cases : List SwitchCase := []
deriving DecidableEq, Repr

/-- One enumerator (ir.h struct EnumValue); value is a long long. -/
structure EnumValue where
  value : Int
  name : Str
deriving DecidableEq, Repr

/-- Enumeration declaration (ir.h struct EnumDef). -/
structure EnumDef where
  name : Str
  values : List EnumValue
deriving DecidableEq, Repr

/-- Derived value instance (ir.h struct Instance). -/
structure Instance where
  id : Str
  value_expr : Expr
deriving DecidableEq, Repr

/-- Field validation (ir.h struct Validation). -/
structure Validation where
  target : Str
  condition_expr : Expr
  message : Str
deriving DecidableEq, Repr

/-- Top-level format description (ir.h struct Spec). -/
structure Spec where
  name : Str
  default_endian : Endian := .kLe
  imports : List Str := []
  types : List TypeDef := []
  attrs : List Attr := []
  enums : List EnumDef := []
  instances : List Instance := []
  validations : List Validation := []
deriving DecidableEq, Repr

/-- Fallible results: ValidationResult {ok,error} with ok=true mapped to
Except.ok and ok=false to Except.error carrying the message. -/
abbrev VRes (α : Type) := Except Str α

end KS

namespace KS

/-! ## KSIR1 textual serializer and parser (src/compiler-cpp/src/ir.cpp) -/

/-- EndianToString from ir.cpp. -/
def EndianToString : Endian → Str
  | .kLe => str "le"
  | .kBe => str "be"

/-- EndianFromString from ir.cpp. -/
def EndianFromString (t : Str) : VRes Endian :=
  if t = str "le" then .ok .kLe
  else if t = str "be" then .ok .kBe
  else .error (str "invalid endian: " ++ t)

/-- PrimitiveToString from ir.cpp. -/
def PrimitiveToString : PrimitiveType → Str
  | .kU1 => str "u1" | .kU2 => str "u2" | .kU4 => str "u4" | .kU8 => str "u8"
  | .kS1 => str "s1" | .kS2 => str "s2" | .kS4 => str "s4" | .kS8 => str "s8"
  | .kF4 => str "f4" | .kF8 => str "f8"
  | .kStr => str "str" | .kBytes => str "bytes"

/-- PrimitiveFromString from ir.cpp. -/
def PrimitiveFromString (t : Str) : VRes PrimitiveType :=
  if t = str "u1" then .ok .kU1
  else if t = str "u2" then .ok .kU2
  else if t = str "u4" then .ok .kU4
  else if t = str "u8" then .ok .kU8
  else if t = str "s1" then .ok .kS1
  else if t = str "s2" then .ok .kS2
  else if t = str "s4" then .ok .kS4
  else if t = str "s8" then .ok .kS8
  else if t = str "f4" then .ok .kF4
  else if t = str "f8" then .ok .kF8
  else if t = str "str" then .ok .kStr
  else if t = str "bytes" then .ok .kBytes
  else .error (str "invalid primitive type: " ++ t)

/-- RepeatKindToString from ir.cpp. -/
def RepeatKindToString : RepeatKind → Str
  | .kNone => str "none" | .kEos => str "eos" | .kExpr => str "expr" | .kUntil => str "until"

/-- RepeatKindFromString from ir.cpp. -/
def RepeatKindFromString (t : Str) : VRes RepeatKind :=
  if t = str "none" then .ok .kNone
  else if t = str "eos" then .ok .kEos
  else if t = str "expr" then .ok .kExpr
  else if t = str "until" then .ok .kUntil
  else .error (str "invalid repeat kind: " ++ t)

/-- SerializeExpr from ir.cpp: S-expression rendering of one tree. -/
def SerializeExpr : Expr → Str
  | .Int v => str "(int " ++ intChars v ++ str ")"
  | .Bool b => str "(bool " ++ (if b then str "true" else str "false") ++ str ")"
  | .Name t => str "(name " ++ quoteStr t ++ str ")"
  | .Unary op e => str "(un " ++ quoteStr op ++ str " " ++ SerializeExpr e ++ str ")"
  | .Binary op l r =>
    str "(bin " ++ quoteStr op ++ str " " ++ SerializeExpr l ++ str " " ++ SerializeExpr r ++ str ")"

/-- ExprParser::ReadToken: whitespace skipped, token runs to whitespace
or a parenthesis; the token may come back empty. -/
def epTok (cs : Str) : Str × Str :=
  let cs := skipWsC cs
  let t := cs.takeWhile (fun c => !isSpaceC c && !(c == '(') && !(c == ')'))
  (t, cs.drop t.length)

/-- ExprParser::ReadQuoted: requires the opening delimiter after
whitespace, then the std::quoted body. -/
def epQuotedCore : Str → Option (Str × Str)
  | [] => none
  | c :: rest => if c = '"' then quotedBody rest else none

/-- ExprParser::ReadQuoted after its whitespace skip. -/
def epQuoted (cs : Str) : Option (Str × Str) := epQuotedCore (skipWsC cs)

/-- Closing step of ExprParser::Parse: whitespace then a ')'. -/
def epCloseCore (e : Expr) : Str → VRes (Expr × Str)
  | [] => .error (str "expression missing closing ')'")
  | c :: rest => if c = ')' then .ok (e, rest) else .error (str "expression missing closing ')'")

/-- Closing step of ExprParser::Parse: whitespace then a ')'. -/
def epClose (e : Expr) (cs : Str) : VRes (Expr × Str) := epCloseCore e (skipWsC cs)

/-- Dispatch of ExprParser::Parse on one node, with the recursive parse
abstracted; the input arrives with leading whitespace already skipped. -/
def parseExprStep (recur : Str → VRes (Expr × Str)) : Str → VRes (Expr × Str)
  | [] => .error (str "expression must start with '('")
  | c0 :: cs1 =>
      if c0 = '(' then
      let (tag, cs2) := epTok cs1
      if tag.isEmpty then .error (str "missing expression tag")
      else if tag = str "int" then
        let (num, cs3) := epTok cs2
        if num.isEmpty then .error (str "missing int literal")
        else
          match stollOf num with
          | none => .error (str "invalid int literal: " ++ num)
          | some v => epClose (.Int v) cs3
      else if tag = str "bool" then
        let (val, cs3) := epTok cs2
        if val.isEmpty then .error (str "missing bool literal")
        else if val = str "true" || val = str "false" then
          epClose (.Bool (val = str "true")) cs3
        else .error (str "invalid bool literal: " ++ val)
      else if tag = str "name" then
        match epQuoted cs2 with
        | none => .error (str "invalid name literal")
        | some (val, cs3) => epClose (.Name val) cs3
      else if tag = str "un" then
        match epQuoted cs2 with
        | none => .error (str "invalid unary operator")
        | some (op, cs3) =>
          match recur cs3 with
          | .error e => .error e
          | .ok (operand, cs4) => epClose (.Unary op operand) cs4
      else if tag = str "bin" then
        match epQuoted cs2 with
        | none => .error (str "invalid binary operator")
        | some (op, cs3) =>
          match recur cs3 with
          | .error e => .error e
          | .ok (l, cs4) =>
            match recur cs4 with
            | .error e => .error e
            | .ok (r, cs5) => epClose (.Binary op l r) cs5
      else .error (str "unknown expression tag: " ++ tag)
      else .error (str "expression must start with '('")

/-- ExprParser::Parse.  The C++ recursion is unbounded; the fuel only
bounds nesting depth and is chosen by ParseExprFull so that it can never
run out (each recursive call consumes at least the opening parenthesis
of its node). -/
def ParseExprAux : Nat → Str → VRes (Expr × Str)
  | 0, _ => .error (str "expression must start with '('")
  | fuel + 1, cs => parseExprStep (ParseExprAux fuel) (skipWsC cs)

/-- One full ExprParser run over a text, as the Deserialize call sites
use it: the value is kept, trailing input is ignored. -/
def ParseExprFull (t : Str) : VRes Expr :=
  (ParseExprAux (t.length + 1) t).map (fun pr => pr.1)

/-- SerializeTypeRef from ir.cpp. -/
def SerializeTypeRef : TypeRef → Str
  | .primitive p => str "primitive " ++ quoteStr (PrimitiveToString p)
  | .user u => str "user " ++ quoteStr u

/-- ParseTypeRef from ir.cpp, consuming from the remainder of a row. -/
def ParseTypeRef (cs : Str) : VRes (TypeRef × Str) :=
  match readTok cs with
  | none => .error (str "invalid type reference")
  | some (kind, r1) =>
    match readQuoted r1 with
    | none => .error (str "invalid type reference")
    | some (payload, r2) =>
      if kind = str "primitive" then
        match PrimitiveFromString payload with
        | .error e => .error e
        | .ok p => .ok (.primitive p, r2)
      else if kind = str "user" then .ok (.user payload, r2)
      else .error (str "unknown type reference kind: " ++ kind)

/-- The import row Serialize writes. -/
def importLine (imp : Str) : Str := str "import " ++ quoteStr imp

/-- The type row Serialize writes. -/
def typeLine (t : TypeDef) : Str :=
  str "type " ++ quoteStr t.name ++ str " " ++ SerializeTypeRef t.type

/-- The attr row Serialize writes: id, type reference, endian override,
size expression, enum name and encoding only. -/
def attrLine (a : Attr) : Str :=
  str "attr " ++ quoteStr a.id ++ str " " ++ SerializeTypeRef a.type ++ str " " ++
  (match a.endian_override with | some e => EndianToString e | none => str "none") ++ str " " ++
  (match a.size_expr with
   | some e => quoteStr (SerializeExpr e)
   | none => quoteStr (str "none")) ++
  str " " ++ quoteStr (a.enum_name.getD (str "none")) ++
  str " " ++ quoteStr (a.encoding.getD (str "none"))

/-- The enum_value row Serialize writes. -/
def enumValueLine (v : EnumValue) : Str :=
  str "enum_value " ++ intChars v.value ++ str " " ++ quoteStr v.name

/-- The rows Serialize writes for one enum. -/
def enumLines (e : EnumDef) : List Str :=
  (str "enum " ++ quoteStr e.name ++ str " " ++ natChars e.values.length) ::
  e.values.map enumValueLine

/-- The instance row Serialize writes. -/
def instanceLine (i : Instance) : Str :=
  str "instance " ++ quoteStr i.id ++ str " " ++ quoteStr (SerializeExpr i.value_expr)

/-- The validation row Serialize writes. -/
def validationLine (v : Validation) : Str :=
  str "validation " ++ quoteStr v.target ++ str " " ++
  quoteStr (SerializeExpr v.condition_expr) ++ str " " ++ quoteStr v.message

/-- Rows joined with the newline each ostream write appends. -/
def joinLines (ls : List Str) : Str := ls.flatMap (fun l => l ++ ['\n'])

/-- The rows of Serialize from ir.cpp, in emission order. -/
def SerializeLines (s : Spec) : List Str :=
  [str "KSIR1",
   str "name " ++ quoteStr s.name,
   str "default_endian " ++ EndianToString s.default_endian,
   str "imports " ++ natChars s.imports.length] ++
  s.imports.map importLine ++
  [str "types " ++ natChars s.types.length] ++
  s.types.map typeLine ++
  [str "attrs " ++ natChars s.attrs.length] ++
  s.attrs.map attrLine ++
  [str "enums " ++ natChars s.enums.length] ++
  s.enums.flatMap enumLines ++
  [str "instances " ++ natChars s.instances.length] ++
  s.instances.map instanceLine ++
  [str "validations " ++ natChars s.validations.length] ++
  s.validations.map validationLine ++
  [str "end"]

/-- Serialize from ir.cpp: the canonical KSIR1 text of a spec. -/
def Serialize (s : Spec) : Str := joinLines (SerializeLines s)

/-! ### Structural validator (ir.cpp Validate) -/

/-- Suffix-on-colon matching used for enum references in ir.cpp Validate
(and EnumNameMatches in codegen.cpp). -/
def enumSuffixMatches (declared refName : Str) : Bool :=
  decide (declared.length > refName.length) &&
  declared.drop (declared.length - refName.length) = refName &&
  (declared.drop (declared.length - refName.length - 1)).head? = some ':'

/-- First loop of Validate: declared type names (spec name first) and
the alias edges of user-typed typedefs, with duplicate rejection. -/
def collectDeclaredTypes :
    List TypeDef → List Str → List (Str × Str) → VRes (List Str × List (Str × Str))
  | [], declared, edges => .ok (declared, edges)
  | t :: ts, declared, edges =>
    if t.name.isEmpty then .error (str "type.name is required")
    else if declared.contains t.name then .error (str "duplicate type declaration: " ++ t.name)
    else
      match t.type with
      | .user u =>
        if u.isEmpty then .error (str "user type reference requires user_type")
        else collectDeclaredTypes ts (declared ++ [t.name]) (edges ++ [(t.name, u)])
      | .primitive _ => collectDeclaredTypes ts (declared ++ [t.name]) edges

/-- The require_known_type lambda of Validate. -/
def requireKnownType (declared : List Str) (ref : TypeRef) (context : Str) : VRes Unit :=
  match ref with
  | .primitive _ => .ok ()
  | .user u =>
    if u.isEmpty then .error (context ++ str " user type reference requires user_type")
    else if declared.contains u then .ok ()
    else .error (context ++ str " references unknown user type: " ++ u)

/-- Enum value loop of Validate. -/
def checkEnumValues (ename : Str) : List EnumValue → List Str → VRes Unit
  | [], _ => .ok ()
  | v :: vs, seen =>
    if v.name.isEmpty then .error (str "enum value name is required in enum: " ++ ename)
    else if seen.contains v.name then
      .error (str "duplicate enum value name in enum " ++ ename ++ str ": " ++ v.name)
    else checkEnumValues ename vs (seen ++ [v.name])

/-- Enum loop of Validate, accumulating the declared enum names. -/
def collectEnums : List EnumDef → List Str → VRes (List Str)
  | [], names => .ok names
  | e :: es, names =>
    if e.name.isEmpty then .error (str "enum.name is required")
    else if names.contains e.name then .error (str "duplicate enum declaration: " ++ e.name)
    else if e.values.isEmpty then .error (str "enum.values must not be empty: " ++ e.name)
    else
      match checkEnumValues e.name e.values [] with
      | .error msg => .error msg
      | .ok _ => collectEnums es (names ++ [e.name])

/-- Integer-backed primitives, as the enum_name check of Validate lists
them. -/
def isIntPrimitive : PrimitiveType → Bool
  | .kU1 | .kU2 | .kU4 | .kU8 | .kS1 | .kS2 | .kS4 | .kS8 => true
  | _ => false

/-- Switch-case loop of Validate: at most one else case, primitive case
types only. -/
def checkSwitchCasesV : List SwitchCase → Bool → VRes Unit
  | [], _ => .ok ()
  | c :: cs, hasElse =>
    match
      (match c.matchExpr with
       | none =>
         if hasElse then
           (.error (str "attr.switch_cases has duplicate switch else case") : VRes Bool)
         else .ok true
       | some _ => .ok hasElse) with
    | .error e => .error e
    | .ok he =>
      match c.type with
      | .primitive _ => checkSwitchCasesV cs he
      | .user _ =>
        .error (str "switch case user-defined types are not supported in this migration slice")

/-- Enum-name lookup of Validate: exact hit or suffix-on-colon match
against any declared enum. -/
def enumFound (names : List Str) (en : Str) : Bool :=
  names.contains en || names.any (fun nm => enumSuffixMatches nm en)

/-- The per-attr body of the attr loop in Validate. -/
def checkAttr (declared enumNames : List Str) (a : Attr) : VRes Unit :=
  if a.id.isEmpty then .error (str "attr.id is required")
  else
    match requireKnownType declared a.type (str "attr") with
    | .error e => .error e
    | .ok _ =>
    if a.encoding.isSome &&
       (match a.type with | .primitive p => p ≠ .kStr | .user _ => false) then
      .error (str "attr.encoding is only allowed for primitive str type")
    else if a.repeatKind = .kExpr && a.repeat_expr.isNone then
      .error (str "attr.repeat_expr is required when repeat=expr")
    else if a.repeatKind = .kUntil && a.repeat_expr.isNone then
      .error (str "attr.repeat_expr is required when repeat=until")
    else if (a.repeatKind = .kNone || a.repeatKind = .kEos) && a.repeat_expr.isSome then
      .error (str "attr.repeat_expr is only allowed when repeat=expr/until")
    else if !a.switch_cases.isEmpty && a.switch_on.isNone then
      .error (str "attr.switch_cases requires attr.switch_on")
    else if a.switch_on.isSome && a.switch_cases.isEmpty then
      .error (str "attr.switch_on requires at least one switch case")
    else
      match checkSwitchCasesV a.switch_cases false with
      | .error e => .error e
      | .ok _ =>
        match a.enum_name with
        | none => .ok ()
        | some en =>
          match a.type with
          | .user _ => .error (str "attr.enum_name requires primitive integer type")
          | .primitive p =>
            if !isIntPrimitive p then .error (str "attr.enum_name requires primitive integer type")
            else if enumFound enumNames en then .ok ()
            else .error (str "attr references unknown enum: " ++ en)

/-- Attr loop of Validate. -/
def checkAttrs (declared enumNames : List Str) : List Attr → VRes Unit
  | [] => .ok ()
  | a :: as_ =>
    match checkAttr declared enumNames a with
    | .error e => .error e
    | .ok _ => checkAttrs declared enumNames as_

/-- Instance loop of Validate. -/
def checkInstances : List Instance → VRes Unit
  | [] => .ok ()
  | i :: is_ =>
    if i.id.isEmpty then .error (str "instance.id is required") else checkInstances is_

/-- Validation loop of Validate. -/
def checkValidations : List Validation → VRes Unit
  | [] => .ok ()
  | v :: vs =>
    if v.target.isEmpty then .error (str "validation.target is required") else checkValidations vs

/-- The visit lambda of the alias-cycle DFS in Validate, unrolled into
chain following: a revisit on the current chain is the cycle error, an
undeclared target the unknown-type error.  The C++ memoisation of
already-completed nodes only short-circuits repeated successful visits
and cannot change whether Validate succeeds; the fuel exceeds every
chain of distinct alias names. -/
def visitAlias (declared : List Str) (edges : List (Str × Str)) :
    Nat → Str → List Str → VRes Unit
  | 0, nm, _ => .error (str "type alias cycle detected at: " ++ nm)
  | fuel + 1, nm, seen =>
    match edges.lookup nm with
    | none => .ok ()
    | some target =>
      if seen.contains nm then .error (str "type alias cycle detected at: " ++ nm)
      else if !declared.contains target then
        .error (str "type \"" ++ nm ++ str "\" references unknown user type: " ++ target)
      else visitAlias declared edges fuel target (seen ++ [nm])

/-- Final loop of Validate over the alias edges. -/
def checkAliases (declared : List Str) (edges : List (Str × Str)) :
    List (Str × Str) → VRes Unit
  | [] => .ok ()
  | (nm, _) :: rest =>
    match visitAlias declared edges (edges.length + 1) nm [] with
    | .error e => .error e
    | .ok _ => checkAliases declared edges rest

/-- Validate from ir.cpp: the structural IR validator. -/
def Validate (s : Spec) : VRes Unit :=
  if s.name.isEmpty then .error (str "spec.name is required")
  else
    match collectDeclaredTypes s.types [s.name] [] with
    | .error e => .error e
    | .ok (declared, edges) =>
    match collectEnums s.enums [] with
    | .error e => .error e
    | .ok enumNames =>
    match checkAttrs declared enumNames s.attrs with
    | .error e => .error e
    | .ok _ =>
    match checkInstances s.instances with
    | .error e => .error e
    | .ok _ =>
    match checkValidations s.validations with
    | .error e => .error e
    | .ok _ => checkAliases declared edges edges

end KS

namespace KS

/-! ### KSIR1 parser (ir.cpp Deserialize) -/

/-- The name line of Deserialize. -/
def parseNameLine (line : Str) : VRes Str :=
  match readTok line with
  | none => .error (str "invalid name line")
  | some (key, r1) =>
    match readQuoted r1 with
    | none => .error (str "invalid name line")
    | some (nm, _) => if key = str "name" then .ok nm else .error (str "invalid name line")

/-- The default_endian line of Deserialize. -/
def parseEndianLine (line : Str) : VRes Endian :=
  match readTok line with
  | none => .error (str "invalid default_endian line")
  | some (key, r1) =>
    match readTok r1 with
    | none => .error (str "invalid default_endian line")
    | some (et, _) =>
      if key = str "default_endian" then EndianFromString et
      else .error (str "invalid default_endian line")

/-- The parse_count lambda of Deserialize: one section header line. -/
def parseCount (expected : Str) (cs : Str) : VRes (Nat × Str) :=
  match getline cs with
  | none => .error (str "missing section header: " ++ expected)
  | some (line, rest) =>
    match readTok line with
    | none => .error (str "invalid section header: " ++ expected)
    | some (key, r1) =>
      match readNat r1 with
      | none => .error (str "invalid section header: " ++ expected)
      | some (n, _) =>
        if key = expected then .ok (n, rest)
        else .error (str "invalid section header: " ++ expected)

/-- Import rows of Deserialize. -/
def parseImportRows : Nat → Str → VRes (List Str × Str)
  | 0, cs => .ok ([], cs)
  | n + 1, cs =>
    match getline cs with
    | none => .error (str "truncated import section")
    | some (line, rest) =>
      match readTok line with
      | none => .error (str "invalid import row")
      | some (key, r1) =>
        match readQuoted r1 with
        | none => .error (str "invalid import row")
        | some (nm, _) =>
          if key = str "import" then
            match parseImportRows n rest with
            | .error e => .error e
            | .ok (more, cs2) => .ok (nm :: more, cs2)
          else .error (str "invalid import row")

/-- Type rows of Deserialize. -/
def parseTypeRows : Nat → Str → VRes (List TypeDef × Str)
  | 0, cs => .ok ([], cs)
  | n + 1, cs =>
    match getline cs with
    | none => .error (str "truncated type section")
    | some (line, rest) =>
      match readTok line with
      | none => .error (str "invalid type row")
      | some (key, r1) =>
        match readQuoted r1 with
        | none => .error (str "invalid type row")
        | some (nm, r2) =>
          if key = str "type" then
            match ParseTypeRef r2 with
            | .error e => .error e
            | .ok (tr, _) =>
              match parseTypeRows n rest with
              | .error e => .error e
              | .ok (more, cs2) => .ok ({ name := nm, type := tr } :: more, cs2)
          else .error (str "invalid type row")

/-- Result of the optional attr-row extension chain of Deserialize.  The
C++ code extracts the five values in one condition; variables extracted
before the first failure keep their new values, later ones keep the
"none" defaults, and the switch-case loop only runs when the whole chain
succeeded. -/
structure AttrExt where
  if_expr_text : Str := str "none"
  repeat_kind_text : Str := str "none"
  repeat_expr_text : Str := str "none"
  switch_on_text : Str := str "none"
  switch_case_count : Nat := 0
  chain_ok : Bool := false
  rest : Str

/-- The optional extension chain of an attr row. -/
def readAttrExt (r : Str) : AttrExt :=
  match readQuoted r with
  | none => { rest := r }
  | some (ifx, r1) =>
    match readTok r1 with
    | none => { if_expr_text := ifx, rest := r1 }
    | some (rk, r2) =>
      match readQuoted r2 with
      | none => { if_expr_text := ifx, repeat_kind_text := rk, rest := r2 }
      | some (re, r3) =>
        match readQuoted r3 with
        | none =>
          { if_expr_text := ifx, repeat_kind_text := rk, repeat_expr_text := re, rest := r3 }
        | some (so, r4) =>
          match readNat r4 with
          | none =>
            { if_expr_text := ifx, repeat_kind_text := rk, repeat_expr_text := re,
              switch_on_text := so, rest := r4 }
          | some (n, r5) =>
            { if_expr_text := ifx, repeat_kind_text := rk, repeat_expr_text := re,
              switch_on_text := so, switch_case_count := n, chain_ok := true, rest := r5 }

/-- Switch-case loop of an attr row in Deserialize. -/
def parseSwitchCaseRows : Nat → Str → VRes (List SwitchCase × Str)
  | 0, r => .ok ([], r)
  | n + 1, r =>
    match readQuoted r with
    | none => .error (str "invalid switch case row")
    | some (mt, r1) =>
      match ParseTypeRef r1 with
      | .error e => .error e
      | .ok (tr, r2) =>
        if mt = str "else" then
          match parseSwitchCaseRows n r2 with
          | .error e => .error e
          | .ok (more, r3) => .ok ({ matchExpr := none, type := tr } :: more, r3)
        else
          match ParseExprFull mt with
          | .error e => .error e
          | .ok ex =>
            match parseSwitchCaseRows n r2 with
            | .error e => .error e
            | .ok (more, r3) => .ok ({ matchExpr := some ex, type := tr } :: more, r3)

/-- Post-processing of the textual attr fields, in the order Deserialize
performs it (switch cases were already parsed by the caller). -/
def finishAttr (id : Str) (tref : TypeRef)
    (endian_text size_text enum_text enc_text if_text rk_text re_text so_text : Str)
    (cases : List SwitchCase) : VRes Attr :=
  match
    (if endian_text = str "none" then (.ok none : VRes (Option Endian))
     else match EndianFromString endian_text with
          | .error e => .error e
          | .ok v => .ok (some v)) with
  | .error e => .error e
  | .ok endo =>
  match
    (if size_text = str "none" then (.ok none : VRes (Option Expr))
     else match ParseExprFull size_text with
          | .error e => .error e
          | .ok v => .ok (some v)) with
  | .error e => .error e
  | .ok sz =>
  match
    (if if_text = str "none" then (.ok none : VRes (Option Expr))
     else match ParseExprFull if_text with
          | .error e => .error e
          | .ok v => .ok (some v)) with
  | .error e => .error e
  | .ok ifx =>
  match RepeatKindFromString rk_text with
  | .error e => .error e
  | .ok rk =>
  match
    (if re_text = str "none" then (.ok none : VRes (Option Expr))
     else match ParseExprFull re_text with
          | .error e => .error e
          | .ok v => .ok (some v)) with
  | .error e => .error e
  | .ok rex =>
  match
    (if so_text = str "none" then (.ok none : VRes (Option Expr))
     else match ParseExprFull so_text with
          | .error e => .error e
          | .ok v => .ok (some v)) with
  | .error e => .error e
  | .ok so =>
    .ok { id := id, type := tref, endian_override := endo, size_expr := sz,
          enum_name := (if enum_text = str "none" then none else some enum_text),
          encoding := (if enc_text = str "none" then none else some enc_text),
          if_expr := ifx, repeatKind := rk, repeat_expr := rex,
          switch_on := so, switch_cases := cases }

/-- One attr row of Deserialize. -/
def parseAttrRow (line : Str) : VRes Attr :=
  match readTok line with
  | none => .error (str "invalid attr row")
  | some (key, r1) =>
  match readQuoted r1 with
  | none => .error (str "invalid attr row")
  | some (id, r2) =>
  if key = str "attr" then
    match ParseTypeRef r2 with
    | .error e => .error e
    | .ok (tref, r3) =>
    match readTok r3 with
    | none => .error (str "invalid attr row suffix")
    | some (endian_text, r4) =>
    match readQuoted r4 with
    | none => .error (str "invalid attr row suffix")
    | some (size_text, r5) =>
    match
      (match readQuoted r5 with
       | none => none
       | some (en, r6) =>
         match readQuoted r6 with
         | none => none
         | some (enc, r7) => some (en, enc, r7)) with
    | none =>
      -- enum/encoding extraction failed: both fall back to "none" and the
      -- failed stream skips the extension chain
      finishAttr id tref endian_text size_text (str "none") (str "none")
        (str "none") (str "none") (str "none") (str "none") []
    | some (en, enc, r7) =>
      let ext := readAttrExt r7
      if ext.chain_ok then
        match parseSwitchCaseRows ext.switch_case_count ext.rest with
        | .error e => .error e
        | .ok (cases, _) =>
          finishAttr id tref endian_text size_text en enc
            ext.if_expr_text ext.repeat_kind_text ext.repeat_expr_text ext.switch_on_text cases
      else
        finishAttr id tref endian_text size_text en enc
          ext.if_expr_text ext.repeat_kind_text ext.repeat_expr_text ext.switch_on_text []
  else .error (str "invalid attr row")

/-- Attr rows of Deserialize. -/
def parseAttrRows : Nat → Str → VRes (List Attr × Str)
  | 0, cs => .ok ([], cs)
  | n + 1, cs =>
    match getline cs with
    | none => .error (str "truncated attr section")
    | some (line, rest) =>
      match parseAttrRow line with
      | .error e => .error e
      | .ok a =>
        match parseAttrRows n rest with
        | .error e => .error e
        | .ok (more, cs2) => .ok (a :: more, cs2)

/-- Enum value rows of Deserialize. -/
def parseEnumValueRows (ename : Str) : Nat → Str → VRes (List EnumValue × Str)
  | 0, cs => .ok ([], cs)
  | n + 1, cs =>
    match getline cs with
    | none => .error (str "truncated enum value section")
    | some (line, rest) =>
      match readTok line with
      | none => .error (str "invalid enum value row")
      | some (key, r1) =>
        match readInt r1 with
        | none => .error (str "invalid enum value row")
        | some (v, r2) =>
          match readQuoted r2 with
          | none => .error (str "invalid enum value row")
          | some (nm, _) =>
            if key = str "enum_value" then
              match parseEnumValueRows ename n rest with
              | .error e => .error e
              | .ok (more, cs2) => .ok ({ value := v, name := nm } :: more, cs2)
            else .error (str "invalid enum value row")

/-- Enum rows of Deserialize. -/
def parseEnumRows : Nat → Str → VRes (List EnumDef × Str)
  | 0, cs => .ok ([], cs)
  | n + 1, cs =>
    match getline cs with
    | none => .error (str "truncated enum section")
    | some (line, rest) =>
      match readTok line with
      | none => .error (str "invalid enum row")
      | some (key, r1) =>
        match readQuoted r1 with
        | none => .error (str "invalid enum row")
        | some (nm, r2) =>
          match readNat r2 with
          | none => .error (str "invalid enum row")
          | some (vc, _) =>
            if key = str "enum" then
              match parseEnumValueRows nm vc rest with
              | .error e => .error e
              | .ok (vals, cs2) =>
                match parseEnumRows n cs2 with
                | .error e => .error e
                | .ok (more, cs3) => .ok ({ name := nm, values := vals } :: more, cs3)
            else .error (str "invalid enum row")

/-- Instance rows of Deserialize. -/
def parseInstanceRows : Nat → Str → VRes (List Instance × Str)
  | 0, cs => .ok ([], cs)
  | n + 1, cs =>
    match getline cs with
    | none => .error (str "truncated instance section")
    | some (line, rest) =>
      match readTok line with
      | none => .error (str "invalid instance row")
      | some (key, r1) =>
        match readQuoted r1 with
        | none => .error (str "invalid instance row")
        | some (id, r2) =>
          match readQuoted r2 with
          | none => .error (str "invalid instance row")
          | some (et, _) =>
            if key = str "instance" then
              match ParseExprFull et with
              | .error e => .error e
              | .ok ex =>
                match parseInstanceRows n rest with
                | .error e => .error e
                | .ok (more, cs2) => .ok ({ id := id, value_expr := ex } :: more, cs2)
            else .error (str "invalid instance row")

/-- Validation rows of Deserialize. -/
def parseValidationRows : Nat → Str → VRes (List Validation × Str)
  | 0, cs => .ok ([], cs)
  | n + 1, cs =>
    match getline cs with
    | none => .error (str "truncated validation section")
    | some (line, rest) =>
      match readTok line with
      | none => .error (str "invalid validation row")
      | some (key, r1) =>
        match readQuoted r1 with
        | none => .error (str "invalid validation row")
        | some (target, r2) =>
          match readQuoted r2 with
          | none => .error (str "invalid validation row")
          | some (et, r3) =>
            match readQuoted r3 with
            | none => .error (str "invalid validation row")
            | some (msg, _) =>
              if key = str "validation" then
                match ParseExprFull et with
                | .error e => .error e
                | .ok ex =>
                  match parseValidationRows n rest with
                  | .error e => .error e
                  | .ok (more, cs2) =>
                    .ok ({ target := target, condition_expr := ex, message := msg } :: more, cs2)
              else .error (str "invalid validation row")

/-- Tail of Deserialize after the flexible imports/types header: type,
attr, enum, instance and validation sections, then the end marker and
the optional Validate run. -/
def deserializeTail (nm : Str) (de : Endian) (imports : List Str) (typeCount : Nat)
    (cs : Str) (validate : Bool) : VRes Spec :=
  match parseTypeRows typeCount cs with
  | .error e => .error e
  | .ok (types, cs1) =>
  match parseCount (str "attrs") cs1 with
  | .error e => .error e
  | .ok (ac, cs2) =>
  match parseAttrRows ac cs2 with
  | .error e => .error e
  | .ok (attrs, cs3) =>
  match parseCount (str "enums") cs3 with
  | .error e => .error e
  | .ok (ec, cs4) =>
  match parseEnumRows ec cs4 with
  | .error e => .error e
  | .ok (enums, cs5) =>
  match parseCount (str "instances") cs5 with
  | .error e => .error e
  | .ok (ic, cs6) =>
  match parseInstanceRows ic cs6 with
  | .error e => .error e
  | .ok (instances, cs7) =>
  match parseCount (str "validations") cs7 with
  | .error e => .error e
  | .ok (vc, cs8) =>
  match parseValidationRows vc cs8 with
  | .error e => .error e
  | .ok (validations, cs9) =>
  match getline cs9 with
  | none => .error (str "missing end marker")
  | some (lend, _) =>
    if lend = str "end" then
      let spec : Spec :=
        { name := nm, default_endian := de, imports := imports, types := types,
          attrs := attrs, enums := enums, instances := instances, validations := validations }
      if validate then
        match Validate spec with
        | .error e => .error e
        | .ok _ => .ok spec
      else .ok spec
    else .error (str "missing end marker")

/-- Deserialize from ir.cpp: parse KSIR1 text, optionally validating the
result.  Any input after the end marker is ignored, as in the C++. -/
def Deserialize (encoded : Str) (validate : Bool) : VRes Spec :=
  match getline encoded with
  | none => .error (str "missing KSIR1 header")
  | some (l0, cs0) =>
  if l0 = str "KSIR1" then
    match getline cs0 with
    | none => .error (str "missing spec name line")
    | some (l1, cs1) =>
    match parseNameLine l1 with
    | .error e => .error e
    | .ok nm =>
    match getline cs1 with
    | none => .error (str "missing default endian line")
    | some (l2, cs2) =>
    match parseEndianLine l2 with
    | .error e => .error e
    | .ok de =>
    match getline cs2 with
    | none => .error (str "missing section header: imports/types")
    | some (l3, cs3) =>
    match readTok l3 with
    | none => .error (str "invalid section header: imports/types")
    | some (key, r) =>
    match readNat r with
    | none => .error (str "invalid section header: imports/types")
    | some (n, _) =>
      if key = str "imports" then
        match parseImportRows n cs3 with
        | .error e => .error e
        | .ok (imports, cs4) =>
          match parseCount (str "types") cs4 with
          | .error e => .error e
          | .ok (tc, cs5) => deserializeTail nm de imports tc cs5 validate
      else if key = str "types" then deserializeTail nm de [] n cs3 validate
      else .error (str "invalid section header: imports/types")
  else .error (str "missing KSIR1 header")

end KS


namespace KS

/-! ## Token-level round-trip lemmas for the KSIR1 parser -/

/-- Truth of a predicate failing on the first character (vacuous for the
empty remainder): the condition under which a token read stops exactly
at a boundary. -/
def HeadNot (p : Char → Bool) : Str → Prop
  | [] => True
  | c :: _ => p c = false

theorem headNot_nil {p : Char → Bool} : HeadNot p [] := trivial

theorem headNot_cons {p : Char → Bool} {c : Char} {cs : Str} (h : p c = false) :
    HeadNot p (c :: cs) := h

theorem takeWhile_append_of {p : Char → Bool} {w rest : Str}
    (hw : ∀ c ∈ w, p c = true) (hrest : HeadNot p rest) :
    (w ++ rest).takeWhile p = w ∧ (w ++ rest).drop w.length = rest := by
  induction w with
  | nil =>
    refine ⟨?_, rfl⟩
    cases rest with
    | nil => rfl
    | cons c cs =>
      have h : p c = false := hrest
      simp [List.takeWhile_cons, h]
  | cons a w ih =>
    have ha : p a = true := hw a (by simp)
    have ih' := ih (fun c hc => hw c (by simp [hc]))
    refine ⟨?_, ?_⟩
    · simp [List.takeWhile_cons, ha, ih'.1]
    · simp [ha]

theorem skipWsC_cons_of {c : Char} {cs : Str} (h : isSpaceC c = false) :
    skipWsC (c :: cs) = c :: cs := by
  simp [skipWsC, List.dropWhile_cons, h]

theorem skipWsC_space (cs : Str) : skipWsC (' ' :: cs) = skipWsC cs := by
  simp only [skipWsC, List.dropWhile_cons, show isSpaceC ' ' = true from rfl, if_true]

/-- Characters acceptable inside one whitespace-delimited token. -/
def TokChars (w : Str) : Prop := w ≠ [] ∧ ∀ c ∈ w, isSpaceC c = false

/-- Remainders at which a space-delimited token read stops: nothing, or
a single space before the next field. -/
def SepSp (rest : Str) : Prop := rest = [] ∨ ∃ rs, rest = ' ' :: rs

theorem SepSp.headNot {rest : Str} (h : SepSp rest) : HeadNot (fun c => !isSpaceC c) rest := by
  rcases h with rfl | ⟨rs, rfl⟩
  · exact headNot_nil
  · exact headNot_cons (by rfl)

theorem SepSp.headNotDigit {rest : Str} (h : SepSp rest) : HeadNot isDigitC rest := by
  rcases h with rfl | ⟨rs, rfl⟩
  · exact headNot_nil
  · exact headNot_cons (by rfl)

theorem readTok_append {w rest : Str} (hw : TokChars w) (hrest : SepSp rest) :
    readTok (w ++ rest) = some (w, rest) := by
  obtain ⟨hne, hall⟩ := hw
  obtain ⟨a, w', rfl⟩ : ∃ a w', w = a :: w' := by
    cases w with
    | nil => exact absurd rfl hne
    | cons a w' => exact ⟨a, w', rfl⟩
  have split := @takeWhile_append_of (fun c => !isSpaceC c) (a :: w') rest
    (by intro c hc; simp [hall c hc]) hrest.headNot
  have hskip : skipWsC ((a :: w') ++ rest) = (a :: w') ++ rest :=
    skipWsC_cons_of (hall a (by simp))
  simp only [readTok, hskip, split.1, split.2]
  simp

theorem readNatRaw_append {w rest : Str} (hne : w ≠ []) (hall : ∀ c ∈ w, isDigitC c = true)
    (hrest : HeadNot isDigitC rest) :
    readNatRaw (w ++ rest) = some (natValOf w, rest) := by
  have split := takeWhile_append_of (p := isDigitC) hall hrest
  simp only [readNatRaw, split.1, split.2]
  simp [hne]

theorem quotedBody_cons_esc (d : Char) (cs : Str) :
    quotedBody ('\\' :: d :: cs) = (quotedBody cs).map (fun pr => (d :: pr.1, pr.2)) := by
  rw [quotedBody.eq_def]
  norm_num

theorem quotedBody_cons_quote (cs : Str) : quotedBody ('"' :: cs) = some ([], cs) := by
  rw [quotedBody.eq_def]
  norm_num
  exact fun h => absurd h (by decide)

theorem quotedBody_cons_other {c : Char} (cs : Str) (h1 : c ≠ '\\') (h2 : c ≠ '"') :
    quotedBody (c :: cs) = (quotedBody cs).map (fun pr => (c :: pr.1, pr.2)) := by
  rw [quotedBody.eq_def]
  simp [h1, h2]

theorem quotedBody_append (s rest : Str) :
    quotedBody (escBody s ++ '"' :: rest) = some (s, rest) := by
  induction s with
  | nil => simpa [escBody] using quotedBody_cons_quote rest
  | cons c s ih =>
    by_cases hq : c = '"'
    · subst hq
      simp [escBody, escChar, quotedBody_cons_esc, ih]
    · by_cases hb : c = '\\'
      · subst hb
        simp [escBody, escChar, quotedBody_cons_esc, ih]
      · simp [escBody, escChar, hq, hb, quotedBody_cons_other _ hb hq, ih]

theorem readQuoted_append (s rest : Str) :
    readQuoted (quoteStr s ++ rest) = some (s, rest) := by
  have h1 : quoteStr s ++ rest = '"' :: (escBody s ++ '"' :: rest) := by
    simp [quoteStr]
  rw [h1, readQuoted,
    show skipWsC ('"' :: (escBody s ++ '"' :: rest)) = '"' :: (escBody s ++ '"' :: rest) from
      skipWsC_cons_of (by rfl)]
  simp only [readQuotedCore, if_pos rfl]
  exact quotedBody_append s rest

theorem readTok_space (cs : Str) : readTok (' ' :: cs) = readTok cs := by
  simp [readTok, skipWsC_space]

theorem readQuoted_space (cs : Str) : readQuoted (' ' :: cs) = readQuoted cs := by
  simp only [readQuoted, skipWsC_space]

theorem readNat_space (cs : Str) : readNat (' ' :: cs) = readNat cs := by
  simp [readNat, skipWsC_space]

theorem readInt_space (cs : Str) : readInt (' ' :: cs) = readInt cs := by
  simp only [readInt, skipWsC_space]

/-! Decimal printing round trip. -/

theorem digitChar_isDigit (k : Nat) : isDigitC (digitChar k) = true := by
  rcases k with _|_|_|_|_|_|_|_|_|k <;> rfl

theorem digitChar_val {k : Nat} (h : k < 10) : (digitChar k).toNat - 48 = k := by
  interval_cases k <;> rfl

theorem natValOf_snoc (xs : Str) (d : Char) :
    natValOf (xs ++ [d]) = natValOf xs * 10 + (d.toNat - 48) := by
  simp [natValOf, List.foldl_append]

theorem natCharsAux_digits (fuel : Nat) : ∀ n, ∀ c ∈ natCharsAux fuel n, isDigitC c = true := by
  induction fuel with
  | zero => simp [natCharsAux]
  | succ fuel ih =>
    intro n c hc
    by_cases h : n < 10
    · simp [natCharsAux, h] at hc
      simpa [hc] using digitChar_isDigit n
    · simp [natCharsAux, h] at hc
      rcases hc with hc | hc
      · exact ih (n / 10) c hc
      · simpa [hc] using digitChar_isDigit (n % 10)

theorem natCharsAux_ne_nil {fuel n : Nat} (h : 0 < fuel) : natCharsAux fuel n ≠ [] := by
  cases fuel with
  | zero => omega
  | succ fuel =>
    by_cases h10 : n < 10 <;> simp [natCharsAux, h10]

theorem natCharsAux_val : ∀ fuel n, n < 10 ^ fuel → natValOf (natCharsAux fuel n) = n := by
  intro fuel
  induction fuel with
  | zero =>
    intro n hn
    interval_cases n
    simp [natCharsAux, natValOf]
  | succ fuel ih =>
    intro n hn
    by_cases h : n < 10
    · have hv : natValOf [digitChar n] = n := by
        simpa [natValOf] using digitChar_val h
      simpa [natCharsAux, h] using hv
    · have hdiv : n / 10 < 10 ^ fuel := by
        rw [Nat.div_lt_iff_lt_mul (by norm_num)]
        calc n < 10 ^ (fuel + 1) := hn
        _ = 10 ^ fuel * 10 := by ring
      have hih := ih (n / 10) hdiv
      simp only [natCharsAux, h, if_false]
      rw [natValOf_snoc, hih, digitChar_val (Nat.mod_lt n (by norm_num))]
      omega

theorem natChars_digits (n : Nat) : ∀ c ∈ natChars n, isDigitC c = true :=
  natCharsAux_digits (n + 1) n

theorem natChars_ne_nil (n : Nat) : natChars n ≠ [] :=
  natCharsAux_ne_nil (by omega)

theorem natChars_val (n : Nat) : natValOf (natChars n) = n := by
  have h : n < 10 ^ (n + 1) := by
    calc n < 10 ^ n := Nat.lt_pow_self (by norm_num) n
    _ ≤ 10 ^ (n + 1) := Nat.pow_le_pow_right (by norm_num) (by omega)
  exact natCharsAux_val (n + 1) n h

theorem isDigit_not_space {c : Char} (h : isDigitC c = true) : isSpaceC c = false := by
  by_contra hs
  have hs' : isSpaceC c = true := by simpa using hs
  have henum : ((((c = ' ' ∨ c = '\t') ∨ c = '\n') ∨ c = '\x0b') ∨ c = '\x0c') ∨ c = '\r' := by
    simpa [isSpaceC] using hs'
  rcases henum with ((((rfl|rfl)|rfl)|rfl)|rfl)|rfl <;> exact absurd h (by decide)

theorem natChars_tokChars (n : Nat) : TokChars (natChars n) :=
  ⟨natChars_ne_nil n, fun c hc => isDigit_not_space (natChars_digits n c hc)⟩

theorem readNat_natChars {rest : Str} (n : Nat) (hrest : SepSp rest) :
    readNat (natChars n ++ rest) = some (n, rest) := by
  obtain ⟨a, w', hw⟩ : ∃ a w', natChars n = a :: w' := by
    cases h : natChars n with
    | nil => exact absurd h (natChars_ne_nil n)
    | cons a w' => exact ⟨a, w', rfl⟩
  have ha : isDigitC a = true := natChars_digits n a (by simp [hw])
  have hskip : skipWsC (natChars n ++ rest) = natChars n ++ rest := by
    rw [hw]
    exact skipWsC_cons_of (isDigit_not_space ha)
  have hraw := @readNatRaw_append (natChars n) rest (natChars_ne_nil n)
    (natChars_digits n) hrest.headNotDigit
  rw [readNat, hskip, hraw, natChars_val]

theorem isDigit_ne_minus {c : Char} (h : isDigitC c = true) : c ≠ '-' := by
  rintro rfl
  exact absurd h (by decide)

theorem isDigit_ne_plus {c : Char} (h : isDigitC c = true) : c ≠ '+' := by
  rintro rfl
  exact absurd h (by decide)

theorem readIntCore_digit {a : Char} {cs : Str} (ha : isDigitC a = true) :
    readIntCore (a :: cs) = (readNatRaw (a :: cs)).map (fun pr => ((pr.1 : Int), pr.2)) := by
  simp [readIntCore, isDigit_ne_minus ha, isDigit_ne_plus ha]

theorem readInt_intChars {rest : Str} (i : Int) (hrest : SepSp rest) :
    readInt (intChars i ++ rest) = some (i, rest) := by
  have hraw : ∀ m : Nat, readNatRaw (natChars m ++ rest) = some (m, rest) := by
    intro m
    rw [readNatRaw_append (natChars_ne_nil m) (natChars_digits m) hrest.headNotDigit,
      natChars_val]
  by_cases hneg : i < 0
  · have habs : -((i.natAbs : Int)) = i := by omega
    rw [intChars, if_pos hneg, List.cons_append, readInt,
      skipWsC_cons_of (show isSpaceC '-' = false from rfl)]
    simp only [readIntCore, eq_self_iff_true, if_true, hraw i.natAbs, Option.map_some', habs]
  · have hi : ((i.toNat : Int)) = i := by omega
    obtain ⟨a, w', hw⟩ : ∃ a w', natChars i.toNat = a :: w' := by
      cases h : natChars i.toNat with
      | nil => exact absurd h (natChars_ne_nil _)
      | cons a w' => exact ⟨a, w', rfl⟩
    have ha : isDigitC a = true :=
      natChars_digits i.toNat a (by rw [hw]; exact List.mem_cons_self a w')
    rw [intChars, if_neg hneg, readInt,
      show skipWsC (natChars i.toNat ++ rest) = natChars i.toNat ++ rest by
        rw [hw]; exact skipWsC_cons_of (isDigit_not_space ha),
      hw, List.cons_append, readIntCore_digit ha, ← List.cons_append, ← hw, hraw i.toNat]
    simp only [Option.map_some', hi]

theorem stollOf_intChars (i : Int) : stollOf (intChars i) = some i := by
  have h := @readInt_intChars [] i (Or.inl rfl)
  simp only [stollOf]
  rw [show intChars i = intChars i ++ [] by simp, h]
  rfl

end KS

namespace KS

/-- Remainders at which an expression token read stops. -/
def SepE (rest : Str) : Prop :=
  rest = [] ∨ (∃ rs, rest = ' ' :: rs) ∨ (∃ rs, rest = ')' :: rs)

/-- Characters acceptable inside one expression token. -/
def ETokChars (w : Str) : Prop :=
  w ≠ [] ∧ ∀ c ∈ w, (!isSpaceC c && !(c == '(') && !(c == ')')) = true

theorem SepE.headNotE {rest : Str} (h : SepE rest) :
    HeadNot (fun c => !isSpaceC c && !(c == '(') && !(c == ')')) rest := by
  rcases h with rfl | ⟨rs, rfl⟩ | ⟨rs, rfl⟩
  · exact headNot_nil
  · exact headNot_cons (by decide)
  · exact headNot_cons (by decide)

theorem epTok_append {w rest : Str} (hw : ETokChars w) (hrest : SepE rest) :
    epTok (w ++ rest) = (w, rest) := by
  obtain ⟨hne, hall⟩ := hw
  obtain ⟨a, w', rfl⟩ : ∃ a w', w = a :: w' := by
    cases w with
    | nil => exact absurd rfl hne
    | cons a w' => exact ⟨a, w', rfl⟩
  have split := @takeWhile_append_of (fun c => !isSpaceC c && !(c == '(') && !(c == ')'))
    (a :: w') rest hall hrest.headNotE
  have hsp : isSpaceC a = false := by
    have := hall a (by simp)
    simp only [Bool.and_eq_true, Bool.not_eq_true'] at this
    exact this.1.1
  have hskip : skipWsC ((a :: w') ++ rest) = (a :: w') ++ rest := skipWsC_cons_of hsp
  rw [epTok, hskip]
  simp only [split.1, split.2]

theorem epTok_space (cs : Str) : epTok (' ' :: cs) = epTok cs := by
  simp only [epTok, skipWsC_space]

theorem epQuoted_append (s rest : Str) :
    epQuoted (quoteStr s ++ rest) = some (s, rest) := by
  have h1 : quoteStr s ++ rest = '"' :: (escBody s ++ '"' :: rest) := by
    simp [quoteStr]
  rw [h1, epQuoted,
    show skipWsC ('"' :: (escBody s ++ '"' :: rest)) = '"' :: (escBody s ++ '"' :: rest) from
      skipWsC_cons_of (by rfl)]
  simp only [epQuotedCore, if_pos rfl]
  exact quotedBody_append s rest

theorem epQuoted_space (cs : Str) : epQuoted (' ' :: cs) = epQuoted cs := by
  simp only [epQuoted, skipWsC_space]

theorem epClose_paren (e : Expr) (rest : Str) : epClose e (')' :: rest) = .ok (e, rest) := by
  rw [epClose, skipWsC_cons_of (by rfl)]
  simp [epCloseCore]

theorem isDigit_ne_lparen {c : Char} (h : isDigitC c = true) : c ≠ '(' := by
  rintro rfl
  exact absurd h (by decide)

theorem isDigit_ne_rparen {c : Char} (h : isDigitC c = true) : c ≠ ')' := by
  rintro rfl
  exact absurd h (by decide)

theorem intChars_etok (v : Int) : ETokChars (intChars v) := by
  constructor
  · by_cases hneg : v < 0 <;> simp [intChars, hneg, natChars_ne_nil]
  · intro c hc
    have hcd : isDigitC c = true ∨ c = '-' := by
      by_cases hneg : v < 0
      · simp only [intChars, hneg, if_true, List.mem_cons] at hc
        rcases hc with rfl | hc
        · exact Or.inr rfl
        · exact Or.inl (natChars_digits _ c hc)
      · simp only [intChars, hneg, if_false] at hc
        exact Or.inl (natChars_digits _ c hc)
    rcases hcd with hcd | rfl
    · simp [isDigit_not_space hcd, isDigit_ne_lparen hcd, isDigit_ne_rparen hcd]
    · decide

/-- Nesting depth of an expression: the recursion depth of
ExprParser::Parse on its serialized form. -/
def exprDepth : Expr → Nat
  | .Int _ => 1
  | .Bool _ => 1
  | .Name _ => 1
  | .Unary _ e => exprDepth e + 1
  | .Binary _ l r => max (exprDepth l) (exprDepth r) + 1

theorem exprDepth_le_len (e : Expr) : exprDepth e ≤ (SerializeExpr e).length := by
  induction e with
  | Int v => simp [exprDepth, SerializeExpr, str]
  | Bool b => by_cases hb : b <;> simp [exprDepth, SerializeExpr, hb, str]
  | Name t => simp [exprDepth, SerializeExpr, str]
  | Unary op e ih =>
    simp [exprDepth, SerializeExpr, List.length_append, str]
    omega
  | Binary op l r ihl ihr =>
    simp [exprDepth, SerializeExpr, List.length_append, str]
    omega


theorem ParseExprAux_space (fuel : Nat) (cs : Str) :
    ParseExprAux fuel (' ' :: cs) = ParseExprAux fuel cs := by
  cases fuel with
  | zero => rfl
  | succ f => rw [ParseExprAux, ParseExprAux, skipWsC_space]

theorem ParseExprAux_round :
    ∀ (e : Expr) (fuel : Nat) (rest : Str), exprDepth e ≤ fuel →
      ParseExprAux fuel (SerializeExpr e ++ rest) = .ok (e, rest) := by
  intro e
  induction e with
  | Int v =>
    intro fuel rest hfuel
    obtain ⟨f, rfl⟩ : ∃ f, fuel = f + 1 := by
      cases fuel with
      | zero => exact absurd hfuel (by simp [exprDepth])
      | succ f => exact ⟨f, rfl⟩
    have shape : SerializeExpr (.Int v) ++ rest =
        '(' :: (str "int" ++ (' ' :: (intChars v ++ (')' :: rest)))) := by
      show (str "(int " ++ intChars v ++ str ")") ++ rest = _
      rw [show str "(int " = '(' :: (str "int" ++ [' ']) from by decide,
        show str ")" = [')'] from by decide]
      simp
    have t1 : epTok (str "int" ++ (' ' :: (intChars v ++ (')' :: rest)))) =
        (str "int", ' ' :: (intChars v ++ (')' :: rest))) :=
      epTok_append ⟨by decide, by decide⟩ (Or.inr (Or.inl ⟨_, rfl⟩))
    have t2 : epTok (' ' :: (intChars v ++ (')' :: rest))) = (intChars v, ')' :: rest) := by
      rw [epTok_space]
      exact epTok_append (intChars_etok v) (Or.inr (Or.inr ⟨_, rfl⟩))
    have hnum_ne : (intChars v).isEmpty = false := by
      by_cases hneg : v < 0
      · simp [intChars, hneg]
      · simpa [intChars, hneg] using natChars_ne_nil v.toNat
    rw [ParseExprAux, shape, skipWsC_cons_of (by rfl)]
    simp only [parseExprStep, if_pos rfl, t1, t2, stollOf_intChars,
      show (str "int").isEmpty = false from by decide,
      Bool.false_eq_true, if_false, if_true, hnum_ne, epClose_paren]
  | Bool b =>
    intro fuel rest hfuel
    obtain ⟨f, rfl⟩ : ∃ f, fuel = f + 1 := by
      cases fuel with
      | zero => exact absurd hfuel (by simp [exprDepth])
      | succ f => exact ⟨f, rfl⟩
    have shape : SerializeExpr (.Bool b) ++ rest =
        '(' :: (str "bool" ++ (' ' :: ((if b then str "true" else str "false") ++ (')' :: rest)))) := by
      show (str "(bool " ++ (if b then str "true" else str "false") ++ str ")") ++ rest = _
      rw [show str "(bool " = '(' :: (str "bool" ++ [' ']) from by decide,
        show str ")" = [')'] from by decide]
      simp
    have t1 : epTok (str "bool" ++ (' ' :: ((if b then str "true" else str "false") ++ (')' :: rest)))) =
        (str "bool", ' ' :: ((if b then str "true" else str "false") ++ (')' :: rest))) :=
      epTok_append ⟨by decide, by decide⟩ (Or.inr (Or.inl ⟨_, rfl⟩))
    have t2 : epTok (' ' :: ((if b then str "true" else str "false") ++ (')' :: rest))) =
        ((if b then str "true" else str "false"), ')' :: rest) := by
      rw [epTok_space]
      exact epTok_append (by cases b <;> exact ⟨by decide, by decide⟩) (Or.inr (Or.inr ⟨_, rfl⟩))
    rw [ParseExprAux, shape, skipWsC_cons_of (by rfl)]
    cases b with
    | false =>
      simp only [if_false, Bool.false_eq_true] at t1 t2 ⊢
      simp only [parseExprStep, t1, t2, if_pos rfl, if_true, if_false, Bool.false_eq_true,
        show (str "bool").isEmpty = false from by decide,
        show (str "bool" = str "int") = False from by decide,
        show (str "false").isEmpty = false from by decide,
        show (decide (str "false" = str "true") || decide (str "false" = str "false")) = true from by decide,
        show (decide (str "false" = str "true")) = false from by decide,
        iff_false, eq_self_iff_true, epClose_paren]
      simp
    | true =>
      simp only [if_true] at t1 t2 ⊢
      simp only [parseExprStep, t1, t2, if_pos rfl, if_true, if_false, Bool.false_eq_true,
        show (str "bool").isEmpty = false from by decide,
        show (str "bool" = str "int") = False from by decide,
        show (str "true").isEmpty = false from by decide,
        show (decide (str "true" = str "true") || decide (str "true" = str "false")) = true from by decide,
        show (decide (str "true" = str "true")) = true from by decide,
        iff_false, eq_self_iff_true, epClose_paren]
      simp [show (str "true" = str "false") = False from by decide]
  | Name t =>
    intro fuel rest hfuel
    obtain ⟨f, rfl⟩ : ∃ f, fuel = f + 1 := by
      cases fuel with
      | zero => exact absurd hfuel (by simp [exprDepth])
      | succ f => exact ⟨f, rfl⟩
    have shape : SerializeExpr (.Name t) ++ rest =
        '(' :: (str "name" ++ (' ' :: (quoteStr t ++ (')' :: rest)))) := by
      show (str "(name " ++ quoteStr t ++ str ")") ++ rest = _
      rw [show str "(name " = '(' :: (str "name" ++ [' ']) from by decide,
        show str ")" = [')'] from by decide]
      simp
    have t1 : epTok (str "name" ++ (' ' :: (quoteStr t ++ (')' :: rest)))) =
        (str "name", ' ' :: (quoteStr t ++ (')' :: rest))) :=
      epTok_append ⟨by decide, by decide⟩ (Or.inr (Or.inl ⟨_, rfl⟩))
    have q1 : epQuoted (' ' :: (quoteStr t ++ (')' :: rest))) = some (t, ')' :: rest) := by
      rw [epQuoted_space]
      exact epQuoted_append t (')' :: rest)
    rw [ParseExprAux, shape, skipWsC_cons_of (by rfl)]
    simp only [parseExprStep, t1, q1, if_pos rfl, if_true, if_false, Bool.false_eq_true,
      show (str "name").isEmpty = false from by decide,
      show (str "name" = str "int") = False from by decide,
      show (str "name" = str "bool") = False from by decide,
      iff_false, eq_self_iff_true, epClose_paren]
  | Unary op e ih =>
    intro fuel rest hfuel
    obtain ⟨f, rfl⟩ : ∃ f, fuel = f + 1 := by
      cases fuel with
      | zero => exact absurd hfuel (by simp [exprDepth])
      | succ f => exact ⟨f, rfl⟩
    have hde : exprDepth e ≤ f := by
      have : exprDepth (.Unary op e) = exprDepth e + 1 := rfl
      omega
    have shape : SerializeExpr (.Unary op e) ++ rest =
        '(' :: (str "un" ++ (' ' :: (quoteStr op ++ (' ' :: (SerializeExpr e ++ (')' :: rest)))))) := by
      show (str "(un " ++ quoteStr op ++ str " " ++ SerializeExpr e ++ str ")") ++ rest = _
      rw [show str "(un " = '(' :: (str "un" ++ [' ']) from by decide,
        show str ")" = [')'] from by decide, show str " " = [' '] from by decide]
      simp
    have t1 : epTok (str "un" ++ (' ' :: (quoteStr op ++ (' ' :: (SerializeExpr e ++ (')' :: rest)))))) =
        (str "un", ' ' :: (quoteStr op ++ (' ' :: (SerializeExpr e ++ (')' :: rest))))) :=
      epTok_append ⟨by decide, by decide⟩ (Or.inr (Or.inl ⟨_, rfl⟩))
    have q1 : epQuoted (' ' :: (quoteStr op ++ (' ' :: (SerializeExpr e ++ (')' :: rest))))) =
        some (op, ' ' :: (SerializeExpr e ++ (')' :: rest))) := by
      rw [epQuoted_space]
      exact epQuoted_append op _
    have r1 : ParseExprAux f (' ' :: (SerializeExpr e ++ (')' :: rest))) =
        .ok (e, ')' :: rest) := by
      rw [ParseExprAux_space]
      exact ih f (')' :: rest) hde
    rw [ParseExprAux, shape, skipWsC_cons_of (by rfl)]
    simp only [parseExprStep, t1, q1, r1, if_pos rfl, if_true, if_false, Bool.false_eq_true,
      show (str "un").isEmpty = false from by decide,
      show (str "un" = str "int") = False from by decide,
      show (str "un" = str "bool") = False from by decide,
      show (str "un" = str "name") = False from by decide,
      iff_false, eq_self_iff_true, epClose_paren]
  | Binary op l r ihl ihr =>
    intro fuel rest hfuel
    obtain ⟨f, rfl⟩ : ∃ f, fuel = f + 1 := by
      cases fuel with
      | zero => exact absurd hfuel (by simp [exprDepth])
      | succ f => exact ⟨f, rfl⟩
    have hdl : exprDepth l ≤ f := by
      have : exprDepth (.Binary op l r) = max (exprDepth l) (exprDepth r) + 1 := rfl
      omega
    have hdr : exprDepth r ≤ f := by
      have : exprDepth (.Binary op l r) = max (exprDepth l) (exprDepth r) + 1 := rfl
      omega
    have shape : SerializeExpr (.Binary op l r) ++ rest =
        '(' :: (str "bin" ++ (' ' :: (quoteStr op ++
          (' ' :: (SerializeExpr l ++ (' ' :: (SerializeExpr r ++ (')' :: rest)))))))) := by
      show (str "(bin " ++ quoteStr op ++ str " " ++ SerializeExpr l ++ str " " ++
        SerializeExpr r ++ str ")") ++ rest = _
      rw [show str "(bin " = '(' :: (str "bin" ++ [' ']) from by decide,
        show str ")" = [')'] from by decide, show str " " = [' '] from by decide]
      simp
    have t1 : epTok (str "bin" ++ (' ' :: (quoteStr op ++
        (' ' :: (SerializeExpr l ++ (' ' :: (SerializeExpr r ++ (')' :: rest)))))))) =
        (str "bin", ' ' :: (quoteStr op ++
          (' ' :: (SerializeExpr l ++ (' ' :: (SerializeExpr r ++ (')' :: rest))))))) :=
      epTok_append ⟨by decide, by decide⟩ (Or.inr (Or.inl ⟨_, rfl⟩))
    have q1 : epQuoted (' ' :: (quoteStr op ++
        (' ' :: (SerializeExpr l ++ (' ' :: (SerializeExpr r ++ (')' :: rest))))))) =
        some (op, ' ' :: (SerializeExpr l ++ (' ' :: (SerializeExpr r ++ (')' :: rest))))) := by
      rw [epQuoted_space]
      exact epQuoted_append op _
    have r1 : ParseExprAux f (' ' :: (SerializeExpr l ++ (' ' :: (SerializeExpr r ++ (')' :: rest))))) =
        .ok (l, ' ' :: (SerializeExpr r ++ (')' :: rest))) := by
      rw [ParseExprAux_space]
      exact ihl f _ hdl
    have r2 : ParseExprAux f (' ' :: (SerializeExpr r ++ (')' :: rest))) =
        .ok (r, ')' :: rest) := by
      rw [ParseExprAux_space]
      exact ihr f _ hdr
    rw [ParseExprAux, shape, skipWsC_cons_of (by rfl)]
    simp only [parseExprStep, t1, q1, r1, r2, if_pos rfl, if_true, if_false, Bool.false_eq_true,
      show (str "bin").isEmpty = false from by decide,
      show (str "bin" = str "int") = False from by decide,
      show (str "bin" = str "bool") = False from by decide,
      show (str "bin" = str "name") = False from by decide,
      show (str "bin" = str "un") = False from by decide,
      iff_false, eq_self_iff_true, epClose_paren]


theorem ParseExprFull_round (e : Expr) : ParseExprFull (SerializeExpr e) = .ok e := by
  have h := ParseExprAux_round e ((SerializeExpr e).length + 1) []
    (by have := exprDepth_le_len e; omega)
  rw [List.append_nil] at h
  rw [ParseExprFull, h]
  rfl

end KS


namespace KS

/-! ## Newline-free fields and the normalized spec a parse round trip yields -/

/-- Newline-freedom of the texts inside an expression (the parts its
serialization quotes). -/
def exprNoNL : Expr → Bool
  | .Int _ => true
  | .Bool _ => true
  | .Name t => noNL t
  | .Unary op e => noNL op && exprNoNL e
  | .Binary op l r => noNL op && exprNoNL l && exprNoNL r

/-- Newline-freedom of an optional expression. -/
def optExprNoNL : Option Expr → Bool
  | none => true
  | some e => exprNoNL e

/-- Newline-freedom of an optional string. -/
def optNoNL : Option Str → Bool
  | none => true
  | some s => noNL s

/-- Newline-freedom of a type reference's user name. -/
def typeRefNoNL : TypeRef → Bool
  | .primitive _ => true
  | .user u => noNL u

/-- Newline-freedom of the attr fields Serialize writes. -/
def attrFieldsNoNL (a : Attr) : Bool :=
  noNL a.id && typeRefNoNL a.type && optExprNoNL a.size_expr &&
  optNoNL a.enum_name && optNoNL a.encoding

/-- Newline-freedom of an enum declaration. -/
def enumNoNL (e : EnumDef) : Bool :=
  noNL e.name && e.values.all (fun v => noNL v.name)

/-- Newline-freedom of every string field Serialize writes: under this
condition each serialized row stays on one line. -/
def specFieldsNoNL (s : Spec) : Bool :=
  noNL s.name && s.imports.all noNL &&
  s.types.all (fun t => noNL t.name && typeRefNoNL t.type) &&
  s.attrs.all attrFieldsNoNL &&
  s.enums.all enumNoNL &&
  s.instances.all (fun i => noNL i.id && exprNoNL i.value_expr) &&
  s.validations.all (fun v => noNL v.target && exprNoNL v.condition_expr && noNL v.message)

/-- The attr Deserialize reconstructs from a serialized attr row: the
six written fields survive (an enum name or encoding spelled none
collapses to absent), everything else resets to its default. -/
def normalizeAttr (a : Attr) : Attr :=
  { id := a.id, type := a.type, endian_override := a.endian_override,
    size_expr := a.size_expr,
    enum_name :=
      if a.enum_name.getD (str "none") = str "none" then none
      else some (a.enum_name.getD (str "none")),
    encoding :=
      if a.encoding.getD (str "none") = str "none" then none
      else some (a.encoding.getD (str "none")),
    if_expr := none, repeatKind := .kNone, repeat_expr := none,
    switch_on := none, switch_cases := [] }

/-- The spec Deserialize reconstructs from Serialize output. -/
def normalizeSpec (s : Spec) : Spec :=
  { s with attrs := s.attrs.map normalizeAttr }

/-! Newline-freedom of serialized fragments. -/

theorem noNL_append {a b : Str} : noNL (a ++ b) = (noNL a && noNL b) := by
  simp [noNL, List.all_append]

theorem noNL_mem {s : Str} (h : noNL s = true) : ∀ c ∈ s, ¬ c = '\n' := by
  simpa [noNL, List.all_eq_true] using h

theorem mem_noNL {s : Str} (h : ∀ c ∈ s, ¬ c = '\n') : noNL s = true := by
  simpa [noNL, List.all_eq_true] using h

theorem noNL_quoteStr {s : Str} (h : noNL s = true) : noNL (quoteStr s) = true := by
  have hbody : ∀ t : Str, noNL t = true → noNL (escBody t) = true := by
    intro t
    induction t with
    | nil => intro _; rfl
    | cons c cs ih =>
      intro hc
      simp only [noNL, List.all_cons, Bool.and_eq_true] at hc
      have h1 : noNL (escBody cs) = true := ih (by simpa [noNL] using hc.2)
      have hcn : ¬ c = '\n' := by simpa using hc.1
      simp only [escBody, noNL_append, h1, Bool.and_true]
      by_cases hq : c = '"' <;> by_cases hb : c = '\\' <;>
        simp_all [escChar, noNL]
  refine mem_noNL ?_
  intro c hc
  simp only [quoteStr, List.mem_cons, List.mem_append] at hc
  rcases hc with rfl | hc | rfl | hc
  · decide
  · exact noNL_mem (hbody s h) c hc
  · decide
  · exact absurd hc (List.not_mem_nil c)

theorem noNL_natChars (n : Nat) : noNL (natChars n) = true := by
  simp only [noNL, List.all_eq_true]
  intro c hc
  have := natChars_digits n c hc
  simp only [decide_eq_true_eq]
  intro hcc
  rw [hcc] at this
  exact absurd this (by decide)

theorem noNL_intChars (v : Int) : noNL (intChars v) = true := by
  by_cases hneg : v < 0
  · simp only [intChars, hneg, if_true]
    refine mem_noNL ?_
    intro c hc
    simp only [List.mem_cons] at hc
    rcases hc with rfl | hc
    · decide
    · exact noNL_mem (noNL_natChars v.natAbs) c hc
  · simp only [intChars, hneg, if_false]
    exact noNL_natChars v.toNat

theorem noNL_SerializeExpr {e : Expr} (h : exprNoNL e = true) :
    noNL (SerializeExpr e) = true := by
  induction e with
  | Int v =>
    simp only [SerializeExpr, noNL_append, Bool.and_eq_true]
    refine ⟨⟨by decide, ?_⟩, by decide⟩
    exact noNL_intChars v
  | Bool b => cases b <;> decide
  | Name t =>
    simp only [exprNoNL] at h
    simp only [SerializeExpr, noNL_append, Bool.and_eq_true]
    exact ⟨⟨by decide, noNL_quoteStr h⟩, by decide⟩
  | Unary op e ih =>
    simp only [exprNoNL, Bool.and_eq_true] at h
    simp only [SerializeExpr, noNL_append, Bool.and_eq_true]
    exact ⟨⟨⟨⟨by decide, noNL_quoteStr h.1⟩, by decide⟩, ih h.2⟩, by decide⟩
  | Binary op l r ihl ihr =>
    simp only [exprNoNL, Bool.and_eq_true] at h
    simp only [SerializeExpr, noNL_append, Bool.and_eq_true]
    exact ⟨⟨⟨⟨⟨⟨by decide, noNL_quoteStr h.1.1⟩, by decide⟩, ihl h.1.2⟩, by decide⟩,
      ihr h.2⟩, by decide⟩

theorem noNL_SerializeTypeRef {t : TypeRef} (h : typeRefNoNL t = true) :
    noNL (SerializeTypeRef t) = true := by
  cases t with
  | primitive p => cases p <;> rfl
  | user u =>
    simp only [typeRefNoNL] at h
    simp only [SerializeTypeRef, noNL_append, Bool.and_eq_true]
    exact ⟨by decide, noNL_quoteStr h⟩

/-! getline over joined serialized rows. -/

theorem getline_append {l : Str} (rest : Str) (h : noNL l = true) :
    getline (l ++ '\n' :: rest) = some (l, rest) := by
  have hall : ∀ c ∈ l, (fun c => (decide (c ≠ '\n'))) c = true := by
    intro c hc
    simpa using noNL_mem h c hc
  have split := takeWhile_append_of (p := fun c => (decide (c ≠ '\n'))) hall
    (@headNot_cons _ '\n' rest (by decide))
  have hne : (l ++ '\n' :: rest).isEmpty = false := by
    cases l <;> simp [List.isEmpty]
  rw [getline, if_neg (by simp [hne])]
  simp only [split.1, split.2]
  rfl

theorem joinLines_cons (l : Str) (ls : List Str) :
    joinLines (l :: ls) = l ++ '\n' :: joinLines ls := by
  simp [joinLines]

theorem getline_joinLines {l : Str} (ls : List Str) (h : noNL l = true) :
    getline (joinLines (l :: ls)) = some (l, joinLines ls) := by
  rw [joinLines_cons]
  exact getline_append _ h

end KS

namespace KS

/-! ## Per-row round trips for Deserialize on Serialize output -/

theorem parseNameLine_round (nm : Str) :
    parseNameLine (str "name " ++ quoteStr nm) = .ok nm := by
  have hsh : str "name " ++ quoteStr nm = str "name" ++ (' ' :: quoteStr nm) := by
    rw [show str "name " = str "name" ++ [' '] from by decide]
    simp
  have t1 : readTok (str "name" ++ (' ' :: quoteStr nm)) =
      some (str "name", ' ' :: quoteStr nm) :=
    readTok_append ⟨by decide, by decide⟩ (Or.inr ⟨_, rfl⟩)
  have q1 : readQuoted (' ' :: quoteStr nm) = some (nm, []) := by
    rw [readQuoted_space, show quoteStr nm = quoteStr nm ++ [] from by simp]
    exact readQuoted_append nm []
  rw [hsh]
  simp only [parseNameLine, t1, q1, eq_self_iff_true, if_true]

theorem parseEndianLine_round (e : Endian) :
    parseEndianLine (str "default_endian " ++ EndianToString e) = .ok e := by
  cases e <;> rfl

theorem parseCount_round {expected : Str} (n : Nat) (ls : List Str)
    (hexp : TokChars expected) (hnl : noNL expected = true) :
    parseCount expected (joinLines ((expected ++ (' ' :: natChars n)) :: ls)) =
      .ok (n, joinLines ls) := by
  have hline : noNL (expected ++ (' ' :: natChars n)) = true := by
    refine mem_noNL ?_
    intro c hc
    simp only [List.mem_append, List.mem_cons] at hc
    rcases hc with hc | rfl | hc
    · exact noNL_mem hnl c hc
    · decide
    · exact noNL_mem (noNL_natChars n) c hc
  have t1 : readTok (expected ++ (' ' :: natChars n)) =
      some (expected, ' ' :: natChars n) :=
    readTok_append hexp (Or.inr ⟨_, rfl⟩)
  have n1 : readNat (' ' :: natChars n) = some (n, []) := by
    rw [readNat_space, show natChars n = natChars n ++ [] from by simp]
    exact readNat_natChars n (Or.inl rfl)
  simp only [parseCount, getline_joinLines ls hline, t1, n1, eq_self_iff_true, if_true]

theorem ParseTypeRef_space (cs : Str) : ParseTypeRef (' ' :: cs) = ParseTypeRef cs := by
  simp only [ParseTypeRef, readTok_space]

theorem PrimitiveFromString_round (p : PrimitiveType) :
    PrimitiveFromString (PrimitiveToString p) = .ok p := by
  cases p <;> rfl

theorem ParseTypeRef_round (t : TypeRef) (rest : Str) (_hrest : SepSp rest) :
    ParseTypeRef (SerializeTypeRef t ++ rest) = .ok (t, rest) := by
  cases t with
  | primitive p =>
    have hsh : SerializeTypeRef (.primitive p) ++ rest =
        str "primitive" ++ (' ' :: (quoteStr (PrimitiveToString p) ++ rest)) := by
      show (str "primitive " ++ quoteStr (PrimitiveToString p)) ++ rest = _
      rw [show str "primitive " = str "primitive" ++ [' '] from by decide]
      simp
    have t1 : readTok (str "primitive" ++ (' ' :: (quoteStr (PrimitiveToString p) ++ rest))) =
        some (str "primitive", ' ' :: (quoteStr (PrimitiveToString p) ++ rest)) :=
      readTok_append ⟨by decide, by decide⟩ (Or.inr ⟨_, rfl⟩)
    have q1 : readQuoted (' ' :: (quoteStr (PrimitiveToString p) ++ rest)) =
        some (PrimitiveToString p, rest) := by
      rw [readQuoted_space]
      exact readQuoted_append _ rest
    rw [hsh]
    simp only [ParseTypeRef, t1, q1, eq_self_iff_true, if_true, PrimitiveFromString_round]
  | user u =>
    have hsh : SerializeTypeRef (.user u) ++ rest =
        str "user" ++ (' ' :: (quoteStr u ++ rest)) := by
      show (str "user " ++ quoteStr u) ++ rest = _
      rw [show str "user " = str "user" ++ [' '] from by decide]
      simp
    have t1 : readTok (str "user" ++ (' ' :: (quoteStr u ++ rest))) =
        some (str "user", ' ' :: (quoteStr u ++ rest)) :=
      readTok_append ⟨by decide, by decide⟩ (Or.inr ⟨_, rfl⟩)
    have q1 : readQuoted (' ' :: (quoteStr u ++ rest)) = some (u, rest) := by
      rw [readQuoted_space]
      exact readQuoted_append u rest
    rw [hsh]
    simp only [ParseTypeRef, t1, q1, eq_self_iff_true, if_true,
      show (str "user" = str "primitive") = False from by decide, if_false, iff_false]

theorem parseImportRows_round (imps : List Str) (ls : List Str)
    (h : ∀ i ∈ imps, noNL i = true) :
    parseImportRows imps.length (joinLines (imps.map importLine ++ ls)) =
      .ok (imps, joinLines ls) := by
  induction imps with
  | nil => simp [parseImportRows]
  | cons i imps ih =>
    have hi : noNL i = true := h i (by simp)
    have hline : noNL (importLine i) = true := by
      simp only [importLine, noNL_append, Bool.and_eq_true]
      exact ⟨by decide, noNL_quoteStr hi⟩
    have hsh : importLine i = str "import" ++ (' ' :: quoteStr i) := by
      rw [importLine, show str "import " = str "import" ++ [' '] from by decide]
      simp
    have t1 : readTok (str "import" ++ (' ' :: quoteStr i)) =
        some (str "import", ' ' :: quoteStr i) :=
      readTok_append ⟨by decide, by decide⟩ (Or.inr ⟨_, rfl⟩)
    have q1 : readQuoted (' ' :: quoteStr i) = some (i, []) := by
      rw [readQuoted_space, show quoteStr i = quoteStr i ++ [] from by simp]
      exact readQuoted_append i []
    show parseImportRows (imps.length + 1) (joinLines (importLine i :: (imps.map importLine ++ ls))) = _
    rw [hsh] at hline ⊢
    simp only [parseImportRows, getline_joinLines _ hline, t1, q1, eq_self_iff_true, if_true,
      ih (fun j hj => h j (by simp [hj]))]

theorem parseTypeRows_round (ts : List TypeDef) (ls : List Str)
    (h : ∀ t ∈ ts, noNL t.name = true ∧ typeRefNoNL t.type = true) :
    parseTypeRows ts.length (joinLines (ts.map typeLine ++ ls)) =
      .ok (ts, joinLines ls) := by
  induction ts with
  | nil => simp [parseTypeRows]
  | cons t ts ih =>
    obtain ⟨hn, hty⟩ := h t (by simp)
    have hline : noNL (typeLine t) = true := by
      simp only [typeLine, noNL_append, Bool.and_eq_true]
      exact ⟨⟨⟨by decide, noNL_quoteStr hn⟩, by decide⟩, noNL_SerializeTypeRef hty⟩
    have hsh : typeLine t =
        str "type" ++ (' ' :: (quoteStr t.name ++ (' ' :: SerializeTypeRef t.type))) := by
      rw [typeLine, show str "type " = str "type" ++ [' '] from by decide,
        show str " " = [' '] from by decide]
      simp
    have t1 : readTok (str "type" ++ (' ' :: (quoteStr t.name ++ (' ' :: SerializeTypeRef t.type)))) =
        some (str "type", ' ' :: (quoteStr t.name ++ (' ' :: SerializeTypeRef t.type))) :=
      readTok_append ⟨by decide, by decide⟩ (Or.inr ⟨_, rfl⟩)
    have q1 : readQuoted (' ' :: (quoteStr t.name ++ (' ' :: SerializeTypeRef t.type))) =
        some (t.name, ' ' :: SerializeTypeRef t.type) := by
      rw [readQuoted_space]
      exact readQuoted_append _ _
    have p1 : ParseTypeRef (' ' :: SerializeTypeRef t.type) = .ok (t.type, []) := by
      rw [ParseTypeRef_space, show SerializeTypeRef t.type = SerializeTypeRef t.type ++ [] from by simp]
      exact ParseTypeRef_round t.type [] (Or.inl rfl)
    show parseTypeRows (ts.length + 1) (joinLines (typeLine t :: (ts.map typeLine ++ ls))) = _
    rw [hsh] at hline ⊢
    simp only [parseTypeRows, getline_joinLines _ hline, t1, q1, eq_self_iff_true, if_true, p1,
      ih (fun u hu => h u (by simp [hu]))]

end KS

namespace KS

/-- The endian token an attr row carries. -/
def endTokOf (o : Option Endian) : Str :=
  match o with
  | some e => EndianToString e
  | none => str "none"

/-- The size text an attr row carries. -/
def sizeTextOf (o : Option Expr) : Str :=
  match o with
  | some e => SerializeExpr e
  | none => str "none"

theorem endTokOf_tokChars (o : Option Endian) : TokChars (endTokOf o) := by
  cases o with
  | none => exact ⟨by decide, by decide⟩
  | some e => cases e <;> exact ⟨by decide, by decide⟩

theorem endTokOf_noNL (o : Option Endian) : noNL (endTokOf o) = true := by
  cases o with
  | none => decide
  | some e => cases e <;> decide

theorem SerializeExpr_ne_none (e : Expr) : ¬ (SerializeExpr e = str "none") := by
  intro h
  have h0 : (SerializeExpr e).head? = some '(' := by
    cases e <;> rfl
  rw [h] at h0
  exact absurd h0 (by decide)

theorem readAttrExt_nil : readAttrExt [] = { rest := [] } := rfl

theorem finishAttr_round (a : Attr) :
    finishAttr a.id a.type (endTokOf a.endian_override) (sizeTextOf a.size_expr)
      (a.enum_name.getD (str "none")) (a.encoding.getD (str "none"))
      (str "none") (str "none") (str "none") (str "none") [] = .ok (normalizeAttr a) := by
  rcases a with ⟨id, ty, endo, sz, en, enc, ifx, rk, rex, so, scs⟩
  have hne : ∀ e : Expr, (SerializeExpr e = str "none") = False := fun e => by
    simpa using SerializeExpr_ne_none e
  cases sz with
  | none =>
    cases endo with
    | none => rfl
    | some ee => cases ee <;> rfl
  | some e =>
    have hp := ParseExprFull_round e
    cases endo with
    | none =>
      simp [finishAttr, endTokOf, sizeTextOf, normalizeAttr, hne e, hp,
        show RepeatKindFromString (str "none") = .ok RepeatKind.kNone from rfl]
    | some ee =>
      cases ee <;>
        simp [finishAttr, endTokOf, sizeTextOf, normalizeAttr, hne e, hp, EndianToString,
          show RepeatKindFromString (str "none") = .ok RepeatKind.kNone from rfl,
          show (str "le" = str "none") = False from by decide,
          show (str "be" = str "none") = False from by decide,
          show EndianFromString (str "le") = .ok Endian.kLe from rfl,
          show EndianFromString (str "be") = .ok Endian.kBe from rfl]

end KS

namespace KS

theorem attrLine_eq (a : Attr) :
    attrLine a =
      str "attr" ++ (' ' :: (quoteStr a.id ++ (' ' :: (SerializeTypeRef a.type ++
        (' ' :: (endTokOf a.endian_override ++ (' ' :: (quoteStr (sizeTextOf a.size_expr) ++
          (' ' :: (quoteStr (a.enum_name.getD (str "none")) ++
            (' ' :: quoteStr (a.encoding.getD (str "none"))))))))))))) := by
  rw [attrLine, show str "attr " = str "attr" ++ [' '] from by decide,
    show str " " = [' '] from by decide]
  rcases a with ⟨id, ty, endo, sz, en, enc, ifx, rk, rex, so, scs⟩
  cases sz <;> cases endo <;> simp [endTokOf, sizeTextOf]

theorem noNL_attrLine {a : Attr} (h : attrFieldsNoNL a = true) :
    noNL (attrLine a) = true := by
  simp only [attrFieldsNoNL, Bool.and_eq_true] at h
  obtain ⟨⟨⟨⟨hid, hty⟩, hsz⟩, hen⟩, henc⟩ := h
  rw [attrLine_eq]
  refine mem_noNL ?_
  intro c hc
  simp only [List.mem_append, List.mem_cons] at hc
  rcases hc with hc | rfl | hc | rfl | hc | rfl | hc | rfl | hc | rfl | hc | rfl | hc
  · revert c
    intro c hc
    exact noNL_mem (by decide) c hc
  · decide
  · exact noNL_mem (noNL_quoteStr hid) c hc
  · decide
  · exact noNL_mem (noNL_SerializeTypeRef hty) c hc
  · decide
  · exact noNL_mem (endTokOf_noNL a.endian_override) c hc
  · decide
  · refine noNL_mem (noNL_quoteStr ?_) c hc
    cases hszo : a.size_expr with
    | none => decide
    | some e =>
      rw [hszo] at hsz
      exact noNL_SerializeExpr (by simpa [optExprNoNL] using hsz)
  · decide
  · refine noNL_mem (noNL_quoteStr ?_) c hc
    cases heno : a.enum_name with
    | none => decide
    | some s =>
      rw [heno] at hen
      simpa [optNoNL] using hen
  · decide
  · refine noNL_mem (noNL_quoteStr ?_) c hc
    cases henco : a.encoding with
    | none => decide
    | some s =>
      rw [henco] at henc
      simpa [optNoNL] using henc

theorem parseAttrRow_round (a : Attr) :
    parseAttrRow (attrLine a) = .ok (normalizeAttr a) := by
  rw [attrLine_eq]
  have t1 : readTok (str "attr" ++ (' ' :: (quoteStr a.id ++ (' ' :: (SerializeTypeRef a.type ++
      (' ' :: (endTokOf a.endian_override ++ (' ' :: (quoteStr (sizeTextOf a.size_expr) ++
        (' ' :: (quoteStr (a.enum_name.getD (str "none")) ++
          (' ' :: quoteStr (a.encoding.getD (str "none")))))))))))))) =
      some (str "attr", ' ' :: (quoteStr a.id ++ (' ' :: (SerializeTypeRef a.type ++
      (' ' :: (endTokOf a.endian_override ++ (' ' :: (quoteStr (sizeTextOf a.size_expr) ++
        (' ' :: (quoteStr (a.enum_name.getD (str "none")) ++
          (' ' :: quoteStr (a.encoding.getD (str "none"))))))))))))) :=
    readTok_append ⟨by decide, by decide⟩ (Or.inr ⟨_, rfl⟩)
  have q1 : readQuoted (' ' :: (quoteStr a.id ++ (' ' :: (SerializeTypeRef a.type ++
      (' ' :: (endTokOf a.endian_override ++ (' ' :: (quoteStr (sizeTextOf a.size_expr) ++
        (' ' :: (quoteStr (a.enum_name.getD (str "none")) ++
          (' ' :: quoteStr (a.encoding.getD (str "none"))))))))))))) =
      some (a.id, ' ' :: (SerializeTypeRef a.type ++
      (' ' :: (endTokOf a.endian_override ++ (' ' :: (quoteStr (sizeTextOf a.size_expr) ++
        (' ' :: (quoteStr (a.enum_name.getD (str "none")) ++
          (' ' :: quoteStr (a.encoding.getD (str "none"))))))))))) := by
    rw [readQuoted_space]
    exact readQuoted_append _ _
  have p1 : ParseTypeRef (' ' :: (SerializeTypeRef a.type ++
      (' ' :: (endTokOf a.endian_override ++ (' ' :: (quoteStr (sizeTextOf a.size_expr) ++
        (' ' :: (quoteStr (a.enum_name.getD (str "none")) ++
          (' ' :: quoteStr (a.encoding.getD (str "none"))))))))))) =
      .ok (a.type, ' ' :: (endTokOf a.endian_override ++ (' ' :: (quoteStr (sizeTextOf a.size_expr) ++
        (' ' :: (quoteStr (a.enum_name.getD (str "none")) ++
          (' ' :: quoteStr (a.encoding.getD (str "none"))))))))) := by
    rw [ParseTypeRef_space]
    exact ParseTypeRef_round _ _ (Or.inr ⟨_, rfl⟩)
  have t2 : readTok (' ' :: (endTokOf a.endian_override ++ (' ' :: (quoteStr (sizeTextOf a.size_expr) ++
      (' ' :: (quoteStr (a.enum_name.getD (str "none")) ++
        (' ' :: quoteStr (a.encoding.getD (str "none"))))))))) =
      some (endTokOf a.endian_override, ' ' :: (quoteStr (sizeTextOf a.size_expr) ++
      (' ' :: (quoteStr (a.enum_name.getD (str "none")) ++
        (' ' :: quoteStr (a.encoding.getD (str "none"))))))) := by
    rw [readTok_space]
    exact readTok_append (endTokOf_tokChars _) (Or.inr ⟨_, rfl⟩)
  have q2 : readQuoted (' ' :: (quoteStr (sizeTextOf a.size_expr) ++
      (' ' :: (quoteStr (a.enum_name.getD (str "none")) ++
        (' ' :: quoteStr (a.encoding.getD (str "none"))))))) =
      some (sizeTextOf a.size_expr, ' ' :: (quoteStr (a.enum_name.getD (str "none")) ++
        (' ' :: quoteStr (a.encoding.getD (str "none"))))) := by
    rw [readQuoted_space]
    exact readQuoted_append _ _
  have q3 : readQuoted (' ' :: (quoteStr (a.enum_name.getD (str "none")) ++
      (' ' :: quoteStr (a.encoding.getD (str "none"))))) =
      some (a.enum_name.getD (str "none"), ' ' :: quoteStr (a.encoding.getD (str "none"))) := by
    rw [readQuoted_space]
    exact readQuoted_append _ _
  have q4 : readQuoted (' ' :: quoteStr (a.encoding.getD (str "none"))) =
      some (a.encoding.getD (str "none"), []) := by
    rw [readQuoted_space, show quoteStr (a.encoding.getD (str "none")) =
      quoteStr (a.encoding.getD (str "none")) ++ [] from by simp]
    exact readQuoted_append _ []
  simp only [parseAttrRow, t1, q1, p1, t2, q2, q3, q4, eq_self_iff_true, if_true,
    readAttrExt_nil]
  exact finishAttr_round a

end KS

namespace KS

theorem parseAttrRows_round (attrs : List Attr) (ls : List Str)
    (h : ∀ a ∈ attrs, attrFieldsNoNL a = true) :
    parseAttrRows attrs.length (joinLines (attrs.map attrLine ++ ls)) =
      .ok (attrs.map normalizeAttr, joinLines ls) := by
  induction attrs with
  | nil => simp [parseAttrRows]
  | cons a attrs ih =>
    show parseAttrRows (attrs.length + 1) (joinLines (attrLine a :: (attrs.map attrLine ++ ls))) = _
    simp only [parseAttrRows, getline_joinLines _ (noNL_attrLine (h a (by simp))),
      parseAttrRow_round a, ih (fun b hb => h b (by simp [hb])), List.map_cons]

theorem enumValueLine_eq (v : EnumValue) :
    enumValueLine v = str "enum_value" ++ (' ' :: (intChars v.value ++ (' ' :: quoteStr v.name))) := by
  rw [enumValueLine, show str "enum_value " = str "enum_value" ++ [' '] from by decide,
    show str " " = [' '] from by decide]
  simp

theorem noNL_enumValueLine {v : EnumValue} (h : noNL v.name = true) :
    noNL (enumValueLine v) = true := by
  rw [enumValueLine_eq]
  refine mem_noNL ?_
  intro c hc
  simp only [List.mem_append, List.mem_cons] at hc
  rcases hc with hc | rfl | hc | rfl | hc
  · exact noNL_mem (by decide) c hc
  · decide
  · exact noNL_mem (noNL_intChars v.value) c hc
  · decide
  · exact noNL_mem (noNL_quoteStr h) c hc

theorem parseEnumValueRows_round (ename : Str) (vals : List EnumValue) (ls : List Str)
    (h : ∀ v ∈ vals, noNL v.name = true) :
    parseEnumValueRows ename vals.length (joinLines (vals.map enumValueLine ++ ls)) =
      .ok (vals, joinLines ls) := by
  induction vals with
  | nil => simp [parseEnumValueRows]
  | cons v vals ih =>
    have hline := noNL_enumValueLine (h v (by simp))
    have t1 : readTok (str "enum_value" ++ (' ' :: (intChars v.value ++ (' ' :: quoteStr v.name)))) =
        some (str "enum_value", ' ' :: (intChars v.value ++ (' ' :: quoteStr v.name))) :=
      readTok_append ⟨by decide, by decide⟩ (Or.inr ⟨_, rfl⟩)
    have i1 : readInt (' ' :: (intChars v.value ++ (' ' :: quoteStr v.name))) =
        some (v.value, ' ' :: quoteStr v.name) := by
      rw [readInt_space]
      exact readInt_intChars v.value (Or.inr ⟨_, rfl⟩)
    have q1 : readQuoted (' ' :: quoteStr v.name) = some (v.name, []) := by
      rw [readQuoted_space, show quoteStr v.name = quoteStr v.name ++ [] from by simp]
      exact readQuoted_append _ []
    show parseEnumValueRows ename (vals.length + 1)
      (joinLines (enumValueLine v :: (vals.map enumValueLine ++ ls))) = _
    rw [enumValueLine_eq] at hline
    rw [parseEnumValueRows, getline_joinLines _ (by rw [enumValueLine_eq]; exact hline),
      enumValueLine_eq]
    simp only [t1, i1, q1, eq_self_iff_true, if_true, ih (fun w hw => h w (by simp [hw]))]

theorem parseEnumRows_round (enums : List EnumDef) (ls : List Str)
    (h : ∀ e ∈ enums, enumNoNL e = true) :
    parseEnumRows enums.length (joinLines (enums.flatMap enumLines ++ ls)) =
      .ok (enums, joinLines ls) := by
  induction enums with
  | nil => simp [parseEnumRows]
  | cons e enums ih =>
    have he := h e (by simp)
    simp only [enumNoNL, Bool.and_eq_true] at he
    have hsh : str "enum " ++ quoteStr e.name ++ (' ' :: natChars e.values.length) =
        str "enum" ++ (' ' :: (quoteStr e.name ++ (' ' :: natChars e.values.length))) := by
      rw [show str "enum " = str "enum" ++ [' '] from by decide]
      simp
    have hhead : noNL (str "enum " ++ quoteStr e.name ++ (' ' :: natChars e.values.length)) = true := by
      rw [hsh]
      refine mem_noNL ?_
      intro c hc
      simp only [List.mem_append, List.mem_cons] at hc
      rcases hc with hc | rfl | hc | rfl | hc
      · exact noNL_mem (by decide) c hc
      · decide
      · exact noNL_mem (noNL_quoteStr he.1) c hc
      · decide
      · exact noNL_mem (noNL_natChars _) c hc
    have t1 : readTok (str "enum" ++ (' ' :: (quoteStr e.name ++ (' ' :: natChars e.values.length)))) =
        some (str "enum", ' ' :: (quoteStr e.name ++ (' ' :: natChars e.values.length))) :=
      readTok_append ⟨by decide, by decide⟩ (Or.inr ⟨_, rfl⟩)
    have q1 : readQuoted (' ' :: (quoteStr e.name ++ (' ' :: natChars e.values.length))) =
        some (e.name, ' ' :: natChars e.values.length) := by
      rw [readQuoted_space]
      exact readQuoted_append _ _
    have n1 : readNat (' ' :: natChars e.values.length) = some (e.values.length, []) := by
      rw [readNat_space, show natChars e.values.length = natChars e.values.length ++ [] from by simp]
      exact readNat_natChars _ (Or.inl rfl)
    have hv := parseEnumValueRows_round e.name e.values (enums.flatMap enumLines ++ ls)
      (fun v hvv => by
        have h2 := he.2
        simp only [List.all_eq_true] at h2
        exact h2 v hvv)
    have hflat : (e :: enums).flatMap enumLines ++ ls =
        (str "enum " ++ quoteStr e.name ++ (' ' :: natChars e.values.length)) ::
          (e.values.map enumValueLine ++ (enums.flatMap enumLines ++ ls)) := by
      simp [enumLines, show str " " = [' '] from by decide]
    rw [hflat]
    show parseEnumRows (enums.length + 1) _ = _
    rw [parseEnumRows, getline_joinLines _ hhead, hsh]
    simp only [t1, q1, n1, eq_self_iff_true, if_true, hv,
      ih (fun d hd => h d (by simp [hd]))]

end KS

namespace KS

theorem instanceLine_eq (i : Instance) :
    instanceLine i = str "instance" ++
      (' ' :: (quoteStr i.id ++ (' ' :: quoteStr (SerializeExpr i.value_expr)))) := by
  rw [instanceLine, show str "instance " = str "instance" ++ [' '] from by decide,
    show str " " = [' '] from by decide]
  simp

theorem noNL_instanceLine {i : Instance} (h1 : noNL i.id = true)
    (h2 : exprNoNL i.value_expr = true) : noNL (instanceLine i) = true := by
  rw [instanceLine_eq]
  refine mem_noNL ?_
  intro c hc
  simp only [List.mem_append, List.mem_cons] at hc
  rcases hc with hc | rfl | hc | rfl | hc
  · exact noNL_mem (by decide) c hc
  · decide
  · exact noNL_mem (noNL_quoteStr h1) c hc
  · decide
  · exact noNL_mem (noNL_quoteStr (noNL_SerializeExpr h2)) c hc

theorem parseInstanceRows_round (insts : List Instance) (ls : List Str)
    (h : ∀ i ∈ insts, noNL i.id = true ∧ exprNoNL i.value_expr = true) :
    parseInstanceRows insts.length (joinLines (insts.map instanceLine ++ ls)) =
      .ok (insts, joinLines ls) := by
  induction insts with
  | nil => simp [parseInstanceRows]
  | cons i insts ih =>
    obtain ⟨h1, h2⟩ := h i (by simp)
    have t1 : readTok (str "instance" ++
        (' ' :: (quoteStr i.id ++ (' ' :: quoteStr (SerializeExpr i.value_expr))))) =
        some (str "instance", ' ' :: (quoteStr i.id ++ (' ' :: quoteStr (SerializeExpr i.value_expr)))) :=
      readTok_append ⟨by decide, by decide⟩ (Or.inr ⟨_, rfl⟩)
    have q1 : readQuoted (' ' :: (quoteStr i.id ++ (' ' :: quoteStr (SerializeExpr i.value_expr)))) =
        some (i.id, ' ' :: quoteStr (SerializeExpr i.value_expr)) := by
      rw [readQuoted_space]
      exact readQuoted_append _ _
    have q2 : readQuoted (' ' :: quoteStr (SerializeExpr i.value_expr)) =
        some (SerializeExpr i.value_expr, []) := by
      rw [readQuoted_space, show quoteStr (SerializeExpr i.value_expr) =
        quoteStr (SerializeExpr i.value_expr) ++ [] from by simp]
      exact readQuoted_append _ []
    show parseInstanceRows (insts.length + 1)
      (joinLines (instanceLine i :: (insts.map instanceLine ++ ls))) = _
    rw [parseInstanceRows, getline_joinLines _ (noNL_instanceLine h1 h2), instanceLine_eq]
    simp only [t1, q1, q2, eq_self_iff_true, if_true, ParseExprFull_round,
      ih (fun j hj => h j (by simp [hj]))]

theorem validationLine_eq (v : Validation) :
    validationLine v = str "validation" ++
      (' ' :: (quoteStr v.target ++ (' ' :: (quoteStr (SerializeExpr v.condition_expr) ++
        (' ' :: quoteStr v.message))))) := by
  rw [validationLine, show str "validation " = str "validation" ++ [' '] from by decide,
    show str " " = [' '] from by decide]
  simp

theorem noNL_validationLine {v : Validation} (h1 : noNL v.target = true)
    (h2 : exprNoNL v.condition_expr = true) (h3 : noNL v.message = true) :
    noNL (validationLine v) = true := by
  rw [validationLine_eq]
  refine mem_noNL ?_
  intro c hc
  simp only [List.mem_append, List.mem_cons] at hc
  rcases hc with hc | rfl | hc | rfl | hc | rfl | hc
  · exact noNL_mem (by decide) c hc
  · decide
  · exact noNL_mem (noNL_quoteStr h1) c hc
  · decide
  · exact noNL_mem (noNL_quoteStr (noNL_SerializeExpr h2)) c hc
  · decide
  · exact noNL_mem (noNL_quoteStr h3) c hc

theorem parseValidationRows_round (vals : List Validation) (ls : List Str)
    (h : ∀ v ∈ vals, noNL v.target = true ∧ exprNoNL v.condition_expr = true ∧ noNL v.message = true) :
    parseValidationRows vals.length (joinLines (vals.map validationLine ++ ls)) =
      .ok (vals, joinLines ls) := by
  induction vals with
  | nil => simp [parseValidationRows]
  | cons v vals ih =>
    obtain ⟨h1, h2, h3⟩ := h v (by simp)
    have t1 : readTok (str "validation" ++
        (' ' :: (quoteStr v.target ++ (' ' :: (quoteStr (SerializeExpr v.condition_expr) ++
          (' ' :: quoteStr v.message)))))) =
        some (str "validation", ' ' :: (quoteStr v.target ++
          (' ' :: (quoteStr (SerializeExpr v.condition_expr) ++ (' ' :: quoteStr v.message))))) :=
      readTok_append ⟨by decide, by decide⟩ (Or.inr ⟨_, rfl⟩)
    have q1 : readQuoted (' ' :: (quoteStr v.target ++
        (' ' :: (quoteStr (SerializeExpr v.condition_expr) ++ (' ' :: quoteStr v.message))))) =
        some (v.target, ' ' :: (quoteStr (SerializeExpr v.condition_expr) ++
          (' ' :: quoteStr v.message))) := by
      rw [readQuoted_space]
      exact readQuoted_append _ _
    have q2 : readQuoted (' ' :: (quoteStr (SerializeExpr v.condition_expr) ++
        (' ' :: quoteStr v.message))) =
        some (SerializeExpr v.condition_expr, ' ' :: quoteStr v.message) := by
      rw [readQuoted_space]
      exact readQuoted_append _ _
    have q3 : readQuoted (' ' :: quoteStr v.message) = some (v.message, []) := by
      rw [readQuoted_space, show quoteStr v.message = quoteStr v.message ++ [] from by simp]
      exact readQuoted_append _ []
    show parseValidationRows (vals.length + 1)
      (joinLines (validationLine v :: (vals.map validationLine ++ ls))) = _
    rw [parseValidationRows, getline_joinLines _ (noNL_validationLine h1 h2 h3), validationLine_eq]
    simp only [t1, q1, q2, q3, eq_self_iff_true, if_true, ParseExprFull_round,
      ih (fun w hw => h w (by simp [hw]))]

end KS

namespace KS

theorem Deserialize_Serialize_false (s : Spec) (h : specFieldsNoNL s = true) :
    Deserialize (Serialize s) false = .ok (normalizeSpec s) := by
  simp only [specFieldsNoNL, Bool.and_eq_true] at h
  obtain ⟨⟨⟨⟨⟨⟨hname, himps⟩, htys⟩, hattrs⟩, henums⟩, hinsts⟩, hvals⟩ := h
  have himps' : ∀ i ∈ s.imports, noNL i = true := by
    simpa [List.all_eq_true] using himps
  have htys' : ∀ t ∈ s.types, noNL t.name = true ∧ typeRefNoNL t.type = true := by
    intro t ht
    have := (List.all_eq_true.mp htys) t ht
    simpa [Bool.and_eq_true] using this
  have hattrs' : ∀ a ∈ s.attrs, attrFieldsNoNL a = true := by
    simpa [List.all_eq_true] using hattrs
  have henums' : ∀ e ∈ s.enums, enumNoNL e = true := by
    simpa [List.all_eq_true] using henums
  have hinsts' : ∀ i ∈ s.instances, noNL i.id = true ∧ exprNoNL i.value_expr = true := by
    intro i hi
    have := (List.all_eq_true.mp hinsts) i hi
    simpa [Bool.and_eq_true] using this
  have hvals' : ∀ v ∈ s.validations,
      noNL v.target = true ∧ exprNoNL v.condition_expr = true ∧ noNL v.message = true := by
    intro v hv
    have := (List.all_eq_true.mp hvals) v hv
    simpa [Bool.and_eq_true, and_assoc] using this
  have hhdrNoNL : ∀ (w : Str) (n : Nat), noNL w = true → noNL (w ++ (' ' :: natChars n)) = true := by
    intro w n hw
    refine mem_noNL ?_
    intro c hc
    simp only [List.mem_append, List.mem_cons] at hc
    rcases hc with hc | rfl | hc
    · exact noNL_mem hw c hc
    · decide
    · exact noNL_mem (noNL_natChars n) c hc
  have hhdrNat : ∀ n : Nat, readNat (' ' :: natChars n) = some (n, []) := by
    intro n
    rw [readNat_space, show natChars n = natChars n ++ [] from by simp]
    exact readNat_natChars n (Or.inl rfl)
  set T15 : List Str := [str "end"] with hT15
  set T14 : List Str := s.validations.map validationLine ++ T15 with hT14
  set T13 : List Str := (str "validations" ++ (' ' :: natChars s.validations.length)) :: T14 with hT13
  set T12 : List Str := s.instances.map instanceLine ++ T13 with hT12
  set T11 : List Str := (str "instances" ++ (' ' :: natChars s.instances.length)) :: T12 with hT11
  set T10 : List Str := s.enums.flatMap enumLines ++ T11 with hT10
  set T9 : List Str := (str "enums" ++ (' ' :: natChars s.enums.length)) :: T10 with hT9
  set T8 : List Str := s.attrs.map attrLine ++ T9 with hT8
  set T7 : List Str := (str "attrs" ++ (' ' :: natChars s.attrs.length)) :: T8 with hT7
  set T6 : List Str := s.types.map typeLine ++ T7 with hT6
  set T5 : List Str := (str "types" ++ (' ' :: natChars s.types.length)) :: T6 with hT5
  set T4 : List Str := s.imports.map importLine ++ T5 with hT4
  set T3 : List Str := (str "imports" ++ (' ' :: natChars s.imports.length)) :: T4 with hT3
  set T2 : List Str := (str "default_endian " ++ EndianToString s.default_endian) :: T3 with hT2
  set T1 : List Str := (str "name " ++ quoteStr s.name) :: T2 with hT1
  have hL : SerializeLines s = str "KSIR1" :: T1 := by
    rw [hT1, hT2, hT3, hT4, hT5, hT6, hT7, hT8, hT9, hT10, hT11, hT12, hT13, hT14, hT15]
    simp [SerializeLines,
      show str "imports " = str "imports" ++ [' '] from by decide,
      show str "types " = str "types" ++ [' '] from by decide,
      show str "attrs " = str "attrs" ++ [' '] from by decide,
      show str "enums " = str "enums" ++ [' '] from by decide,
      show str "instances " = str "instances" ++ [' '] from by decide,
      show str "validations " = str "validations" ++ [' '] from by decide]
  have g0 : getline (joinLines (str "KSIR1" :: T1)) = some (str "KSIR1", joinLines T1) :=
    getline_joinLines T1 (by decide)
  have g1 : getline (joinLines T1) =
      some (str "name " ++ quoteStr s.name, joinLines T2) := by
    rw [hT1]
    exact getline_joinLines T2 (by
      simp only [noNL_append, Bool.and_eq_true]
      exact ⟨by decide, noNL_quoteStr hname⟩)
  have g2 : getline (joinLines T2) =
      some (str "default_endian " ++ EndianToString s.default_endian, joinLines T3) := by
    rw [hT2]
    exact getline_joinLines T3 (by cases s.default_endian <;> decide)
  have g3 : getline (joinLines T3) =
      some (str "imports" ++ (' ' :: natChars s.imports.length), joinLines T4) := by
    rw [hT3]
    exact getline_joinLines T4 (hhdrNoNL _ _ (by decide))
  have t3 : readTok (str "imports" ++ (' ' :: natChars s.imports.length)) =
      some (str "imports", ' ' :: natChars s.imports.length) :=
    readTok_append ⟨by decide, by decide⟩ (Or.inr ⟨_, rfl⟩)
  have r4 : parseImportRows s.imports.length (joinLines T4) = .ok (s.imports, joinLines T5) := by
    rw [hT4]
    exact parseImportRows_round s.imports T5 himps'
  have c5 : parseCount (str "types") (joinLines T5) = .ok (s.types.length, joinLines T6) := by
    rw [hT5]
    exact parseCount_round s.types.length T6 ⟨by decide, by decide⟩ (by decide)
  have r6 : parseTypeRows s.types.length (joinLines T6) = .ok (s.types, joinLines T7) := by
    rw [hT6]
    exact parseTypeRows_round s.types T7 htys'
  have c7 : parseCount (str "attrs") (joinLines T7) = .ok (s.attrs.length, joinLines T8) := by
    rw [hT7]
    exact parseCount_round s.attrs.length T8 ⟨by decide, by decide⟩ (by decide)
  have r8 : parseAttrRows s.attrs.length (joinLines T8) =
      .ok (s.attrs.map normalizeAttr, joinLines T9) := by
    rw [hT8]
    exact parseAttrRows_round s.attrs T9 hattrs'
  have c9 : parseCount (str "enums") (joinLines T9) = .ok (s.enums.length, joinLines T10) := by
    rw [hT9]
    exact parseCount_round s.enums.length T10 ⟨by decide, by decide⟩ (by decide)
  have r10 : parseEnumRows s.enums.length (joinLines T10) = .ok (s.enums, joinLines T11) := by
    rw [hT10]
    exact parseEnumRows_round s.enums T11 henums'
  have c11 : parseCount (str "instances") (joinLines T11) =
      .ok (s.instances.length, joinLines T12) := by
    rw [hT11]
    exact parseCount_round s.instances.length T12 ⟨by decide, by decide⟩ (by decide)
  have r12 : parseInstanceRows s.instances.length (joinLines T12) =
      .ok (s.instances, joinLines T13) := by
    rw [hT12]
    exact parseInstanceRows_round s.instances T13 hinsts'
  have c13 : parseCount (str "validations") (joinLines T13) =
      .ok (s.validations.length, joinLines T14) := by
    rw [hT13]
    exact parseCount_round s.validations.length T14 ⟨by decide, by decide⟩ (by decide)
  have r14 : parseValidationRows s.validations.length (joinLines T14) =
      .ok (s.validations, joinLines T15) := by
    rw [hT14]
    exact parseValidationRows_round s.validations T15 hvals'
  have g15 : getline (joinLines T15) = some (str "end", joinLines ([] : List Str)) := by
    rw [hT15]
    exact getline_joinLines [] (by decide)
  rw [Serialize, hL, Deserialize]
  rw [g0]
  simp only [eq_self_iff_true, if_true, g1, parseNameLine_round, g2, parseEndianLine_round,
    g3, t3, hhdrNat s.imports.length, r4, c5, deserializeTail, r6, c7, r8, c9, r10, c11,
    r12, c13, r14, g15, Bool.false_eq_true, if_false]
  simp [normalizeSpec]

end KS

namespace KS

theorem attrLine_normalize (a : Attr) : attrLine (normalizeAttr a) = attrLine a := by
  rw [attrLine, attrLine]
  rcases a with ⟨id, ty, endo, sz, en, enc, ifx, rk, rex, so, scs⟩
  simp only [normalizeAttr]
  congr 1
  · congr 2
    by_cases he : en.getD (str "none") = str "none" <;> simp [he]
  · by_cases he : enc.getD (str "none") = str "none" <;> simp [he]

theorem Serialize_normalizeSpec (s : Spec) : Serialize (normalizeSpec s) = Serialize s := by
  have hmap : List.map attrLine (s.attrs.map normalizeAttr) = List.map attrLine s.attrs := by
    rw [List.map_map]
    exact List.map_congr_left (fun a _ => attrLine_normalize a)
  rw [Serialize, Serialize, SerializeLines, SerializeLines]
  simp only [normalizeSpec, List.length_map, hmap]

theorem checkAttr_normalize {d en : List Str} {a : Attr} (h : checkAttr d en a = .ok ()) :
    checkAttr d en (normalizeAttr a) = .ok () := by
  rw [checkAttr] at h
  by_cases h1 : a.id.isEmpty = true
  · rw [if_pos h1] at h
    cases h
  rw [if_neg h1] at h
  cases hk : requireKnownType d a.type (str "attr") with
  | error e =>
    simp only [hk] at h
    simp at h
  | ok u =>
    cases u
    simp only [hk] at h
    split at h
    · cases h
    next h2 =>
    split at h
    · cases h
    next r1 =>
    split at h
    · cases h
    next r2 =>
    split at h
    · cases h
    next r3 =>
    split at h
    · cases h
    next r4 =>
    split at h
    · cases h
    next r5 =>
    cases hsc : checkSwitchCasesV a.switch_cases false with
    | error e =>
      simp only [hsc] at h
      simp at h
    | ok u2 =>
      cases u2
      simp only [hsc] at h
      rw [checkAttr]
      simp only [normalizeAttr]
      rw [if_neg h1]
      simp only [hk]
      have h2f : (a.encoding.isSome &&
          (match a.type with
           | TypeRef.primitive p => decide (p ≠ PrimitiveType.kStr)
           | TypeRef.user _ => false)) = false := by
        simpa using h2
      by_cases he : a.encoding.getD (str "none") = str "none"
      · rw [if_pos he]
        simp only [Option.isSome_none, Bool.false_and, Bool.false_eq_true, if_false]
        simp only [Option.isNone_none, Option.isSome_none, List.isEmpty_nil, Bool.and_true,
          Bool.and_false, Bool.false_and, Bool.and_self, Bool.not_true, Bool.or_self]
        norm_num
        rw [show checkSwitchCasesV [] false = .ok () from rfl]
        by_cases h3 : a.enum_name.getD (str "none") = str "none"
        · simp [h3]
        · rw [if_neg h3]
          cases heno : a.enum_name with
          | none => simp [heno] at h3
          | some en0 =>
            simp only [heno] at h h3 ⊢
            simp only [Option.getD_some] at h3 ⊢
            rw [if_neg (by decide : ¬ (RepeatKind.kNone = RepeatKind.kExpr)),
              if_neg (by decide : ¬ (RepeatKind.kNone = RepeatKind.kUntil))]
            simp only [Bool.not_eq_true'] at h
            exact h
      · rw [if_neg he]
        cases henco : a.encoding with
        | none => simp [henco] at he
        | some x =>
          rw [henco] at h2f
          simp only [Option.isSome_some, Bool.true_and] at h2f
          split
          next hcnd =>
            simp only [Option.isSome_some, Bool.true_and] at hcnd
            cases ht : a.type with
            | primitive p =>
              rw [ht] at hcnd h2f
              simp at hcnd h2f
              exact absurd h2f hcnd
            | user u =>
              rw [ht] at hcnd
              simp at hcnd
          next hcnd =>
            simp only [Option.isNone_none, Option.isSome_none, List.isEmpty_nil, Bool.and_true,
              Bool.and_false, Bool.false_and, Bool.and_self, Bool.not_true, Bool.or_self]
            norm_num
            rw [show checkSwitchCasesV [] false = .ok () from rfl]
            by_cases h3 : a.enum_name.getD (str "none") = str "none"
            · simp [h3]
            · rw [if_neg h3]
              cases heno : a.enum_name with
              | none => simp [heno] at h3
              | some en0 =>
                simp only [heno] at h h3 ⊢
                simp only [Option.getD_some] at h3 ⊢
                rw [if_neg (by decide : ¬ (RepeatKind.kNone = RepeatKind.kExpr)),
                  if_neg (by decide : ¬ (RepeatKind.kNone = RepeatKind.kUntil))]
                simp only [Bool.not_eq_true'] at h
                exact h

theorem checkAttrs_normalize {d en : List Str} :
    ∀ {attrs : List Attr}, checkAttrs d en attrs = .ok () →
      checkAttrs d en (attrs.map normalizeAttr) = .ok () := by
  intro attrs
  induction attrs with
  | nil => intro _; rfl
  | cons a as_ ih =>
    intro h
    rw [checkAttrs] at h
    cases ha : checkAttr d en a with
    | error e =>
      rw [ha] at h
      cases h
    | ok u =>
      cases u
      rw [ha] at h
      rw [List.map_cons, checkAttrs, checkAttr_normalize ha]
      exact ih h

theorem Validate_normalizeSpec {s : Spec} (h : Validate s = .ok ()) :
    Validate (normalizeSpec s) = .ok () := by
  rw [Validate] at h
  by_cases hn : s.name.isEmpty = true
  · rw [if_pos hn] at h
    cases h
  rw [if_neg hn] at h
  split at h
  · cases h
  next declared edges hc =>
    split at h
    · cases h
    next enumNames he =>
      split at h
      · cases h
      next u ha =>
        split at h
        · cases h
        next u2 hi =>
          split at h
          · cases h
          next u3 hv =>
            rw [Validate]
            simp only [normalizeSpec]
            rw [if_neg hn]
            simp only [hc, he, checkAttrs_normalize ha, hi, hv]
            exact h

theorem deserializeTail_true {nm : Str} {de : Endian} {imports : List Str} {tc : Nat}
    {cs : Str} {sp : Spec}
    (h : deserializeTail nm de imports tc cs false = .ok sp)
    (hv : Validate sp = .ok ()) :
    deserializeTail nm de imports tc cs true = .ok sp := by
  rw [deserializeTail] at h ⊢
  split at h
  · cases h
  next types cs1 h1 =>
  split at h
  · cases h
  next ac cs2 h2 =>
  split at h
  · cases h
  next attrs cs3 h3 =>
  split at h
  · cases h
  next ec cs4 h4 =>
  split at h
  · cases h
  next enums cs5 h5 =>
  split at h
  · cases h
  next ic cs6 h6 =>
  split at h
  · cases h
  next instances cs7 h7 =>
  split at h
  · cases h
  next vc cs8 h8 =>
  split at h
  · cases h
  next validations cs9 h9 =>
  split at h
  · cases h
  next lend rest h10 =>
  split at h
  next hend =>
    simp only [Bool.false_eq_true, if_false] at h
    cases h
    simp only [h1, h2, h3, h4, h5, h6, h7, h8, h9, h10]
    rw [if_pos hend]
    simp [hv]
  next hend =>
    cases h

theorem Deserialize_true_of_false {enc : Str} {sp : Spec}
    (h : Deserialize enc false = .ok sp)
    (hv : Validate sp = .ok ()) :
    Deserialize enc true = .ok sp := by
  rw [Deserialize] at h ⊢
  split at h
  · cases h
  next l0 cs0 g0 =>
  split at h
  swap
  · cases h
  next hks =>
  rw [if_pos hks]
  split at h
  · cases h
  next l1 cs1 g1 =>
  split at h
  · cases h
  next nm g2 =>
  split at h
  · cases h
  next l2 cs2 g3 =>
  split at h
  · cases h
  next de g4 =>
  split at h
  · cases h
  next l3 cs3 g5 =>
  split at h
  · cases h
  next key r g6 =>
  split at h
  · cases h
  next n r2 g7 =>
  split at h
  next hkey =>
    rw [if_pos hkey]
    split at h
    · cases h
    next imports cs4 g8 =>
    split at h
    · cases h
    next tc cs5 g9 =>
    exact deserializeTail_true h hv
  next hkey =>
    rw [if_neg hkey]
    split at h
    next hkey2 =>
      rw [if_pos hkey2]
      exact deserializeTail_true h hv
    next hkey2 =>
      cases h

theorem Deserialize_Serialize_true {s : Spec} (hnl : specFieldsNoNL s = true)
    (hv : Validate s = .ok ()) :
    Deserialize (Serialize s) true = .ok (normalizeSpec s) :=
  Deserialize_true_of_false (Deserialize_Serialize_false s hnl) (Validate_normalizeSpec hv)

end KS


namespace KS

/-! ## Concrete specs used by the claim theorems about ir.cpp -/

/-- A well-formed, newline-free spec exercising every serialized section. -/
def rtSpec : Spec :=
  { name := str "hello_world",
    default_endian := .kLe,
    imports := [str "dep.ksir"],
    types := [{ name := str "alias", type := .primitive .kU1 },
              { name := str "u", type := .user (str "alias") }],
    attrs := [{ id := str "one", type := .primitive .kU1 },
              { id := str "title", type := .primitive .kStr,
                size_expr := some (.Int 5), encoding := some (str "UTF-8"),
                if_expr := some (.Binary (str "==") (.Name (str "one")) (.Int 1)),
                repeatKind := .kExpr, repeat_expr := some (.Int 3) }],
    enums := [{ name := str "animal",
                values := [{ value := 7, name := str "cat" },
                           { value := -13, name := str "dog" }] }],
    instances := [{ id := str "arith",
                    value_expr := .Binary (str "-")
                      (.Binary (str "+") (.Name (str "a"))
                        (.Binary (str "*") (.Name (str "b")) (.Int 3)))
                      (.Int 2) }],
    validations := [{ target := str "one",
                      condition_expr := .Binary (str "==") (.Name (str "one")) (.Int 85),
                      message := str "msg \"quoted\" and \\ backslash" }] }

/-- A spec whose name contains a newline: it validates, but std::quoted
does not escape the newline, so the serialized name line is split in two. -/
def nlNameSpec : Spec := { name := str "a\nb" }

/-- An attr encoding whose text smuggles a complete fake attr row plus
section trailers into the serialized stream. -/
def smuggleEnc : Str :=
  str "x\nattr y primitive u1 none none none none none eos none none 0\nenums 0\ninstances 0\nvalidations 0\nend\n"

/-- A spec abusing the unescaped newlines: on re-parse the smuggled row
materializes as a second attr with repeat=eos. -/
def attrSmuggleSpec : Spec :=
  { name := str "s",
    attrs := [{ id := str "a1", type := .primitive .kStr,
                size_expr := some (.Int 1), encoding := some smuggleEnc },
              { id := str "a2", type := .primitive .kU1 }] }

/-- A typedef alias to u1 carrying an encoding on an attr of that user
type: Validate only tests the syntactic primitive case. -/
def aliasEncSpec : Spec :=
  { name := str "m",
    types := [{ name := str "t", type := .primitive .kU1 }],
    attrs := [{ id := str "a", type := .user (str "t"), encoding := some (str "ASCII") }] }

/-- A str attr with an encoding: the one case Validate's encoding check accepts. -/
def strEncSpec : Spec :=
  { name := str "m",
    attrs := [{ id := str "a", type := .primitive .kStr, encoding := some (str "UTF-8") }] }

/-- Per-member form of a successful attr loop. -/
theorem checkAttrs_mem {d en : List Str} :
    ∀ {l : List Attr}, checkAttrs d en l = .ok () → ∀ a ∈ l, checkAttr d en a = .ok () := by
  intro l
  induction l with
  | nil => intro _ a ha; cases ha
  | cons b bs ih =>
    intro h a ha
    rw [checkAttrs] at h
    cases hb : checkAttr d en b with
    | error e => rw [hb] at h; cases h
    | ok u =>
      cases u
      rw [hb] at h
      cases ha with
      | head => exact hb
      | tail _ hm => exact ih h a hm

/-- A validated attr of syntactically primitive type with an encoding is str. -/
theorem checkAttr_encoding {d en : List Str} {a : Attr} (h : checkAttr d en a = .ok ())
    (henc : a.encoding.isSome = true) {p : PrimitiveType} (ht : a.type = .primitive p) :
    p = .kStr := by
  rw [checkAttr] at h
  split at h
  · cases h
  split at h
  · cases h
  split at h
  next hc => cases h
  next hc =>
    rw [ht] at hc
    simp [henc] at hc
    exact hc

/-- Validate reaches the attr loop. -/
theorem Validate_checkAttrs {s : Spec} (h : Validate s = .ok ()) :
    ∃ d en, checkAttrs d en s.attrs = .ok () := by
  rw [Validate] at h
  by_cases hn : s.name.isEmpty = true
  · rw [if_pos hn] at h
    cases h
  rw [if_neg hn] at h
  split at h
  · cases h
  next declared edges hc =>
  split at h
  · cases h
  next en he =>
  split at h
  · cases h
  next u ha =>
  exact ⟨declared, en, ha⟩

end KS

namespace KS

/-- C1 (counterexample): `nlNameSpec` passes Validate, but re-parsing its
serialization fails outright — std::quoted never escapes the newline in
the name, so the name line is split and the quote left unterminated. -/
theorem C1_newline_breaks_round_trip :
    Validate nlNameSpec = .ok () ∧
    Deserialize (Serialize nlNameSpec) true = .error (str "invalid name line") :=
  ⟨rfl, rfl⟩

/-- C1 (amended): for a validated spec all of whose serialized text fields
are newline-free, Deserialize(Serialize(S)) succeeds and the result
re-serializes byte-for-byte. -/
theorem C1_round_trip (s : Spec) (hv : Validate s = .ok ())
    (hnl : specFieldsNoNL s = true) :
    ∃ s2, Deserialize (Serialize s) true = .ok s2 ∧ Serialize s2 = Serialize s :=
  ⟨normalizeSpec s,
   Deserialize_true_of_false (Deserialize_Serialize_false s hnl) (Validate_normalizeSpec hv),
   Serialize_normalizeSpec s⟩

/-- C1 witness: the round trip at the concrete spec `rtSpec`. -/
theorem C1_round_trip_witness :
    Validate rtSpec = .ok () ∧ specFieldsNoNL rtSpec = true ∧
    ∃ s2, Deserialize (Serialize rtSpec) true = .ok s2 ∧ Serialize s2 = Serialize rtSpec :=
  ⟨rfl, by decide, C1_round_trip rtSpec rfl (by decide)⟩

end KS

namespace KS

/-- C2 (counterexample): deserializing the serialization of
`attrSmuggleSpec` (validate=false) succeeds and yields an attr whose
repeat kind is eos — the newline-laden encoding field smuggles a full
attr row past the serializer, so not every produced attr has the
defaulted extension fields. -/
theorem C2_smuggled_repeat :
    (Deserialize (Serialize attrSmuggleSpec) false).map
        (fun sp => sp.attrs.map (fun a => a.repeatKind))
      = .ok [RepeatKind.kNone, RepeatKind.kEos] :=
  rfl

/-- C2 (amended): the serializer writes only id, type, endian override,
size_expr, enum_name and encoding of an attr — clearing if_expr, repeat,
repeat_expr, switch_on and switch_cases never changes its output row —
and for newline-free specs every attr produced by
Deserialize(Serialize(S), validate=false) carries exactly those defaults. -/
theorem C2_attr_extras_dropped (s : Spec) (hnl : specFieldsNoNL s = true) :
    (∀ a : Attr, attrLine { a with
        if_expr := none, repeatKind := .kNone, repeat_expr := none,
        switch_on := none, switch_cases := [] } = attrLine a) ∧
    ∃ sp, Deserialize (Serialize s) false = .ok sp ∧
      ∀ a ∈ sp.attrs, a.repeatKind = .kNone ∧ a.if_expr = none ∧
        a.repeat_expr = none ∧ a.switch_on = none ∧ a.switch_cases = [] := by
  refine ⟨fun a => rfl, normalizeSpec s, Deserialize_Serialize_false s hnl, ?_⟩
  intro a ha
  simp only [normalizeSpec, List.mem_map] at ha
  obtain ⟨b, _, rfl⟩ := ha
  exact ⟨rfl, rfl, rfl, rfl, rfl⟩

/-- C2 witness: the dropped-extras round trip at the concrete spec `rtSpec`,
whose second attr has if_expr, repeat=expr and a repeat_expr. -/
theorem C2_attr_extras_dropped_witness :
    specFieldsNoNL rtSpec = true ∧
    ((∀ a : Attr, attrLine { a with
        if_expr := none, repeatKind := .kNone, repeat_expr := none,
        switch_on := none, switch_cases := [] } = attrLine a) ∧
     ∃ sp, Deserialize (Serialize rtSpec) false = .ok sp ∧
       ∀ a ∈ sp.attrs, a.repeatKind = .kNone ∧ a.if_expr = none ∧
         a.repeat_expr = none ∧ a.switch_on = none ∧ a.switch_cases = []) :=
  ⟨by decide, C2_attr_extras_dropped rtSpec (by decide)⟩

/-- C9 (counterexample): `aliasEncSpec` has an attr of user type `t`
whose alias chain resolves to the primitive u1 and which carries an
encoding, yet Validate accepts the spec: the encoding check only fires
for a syntactically primitive attr type. -/
theorem C9_alias_encoding_accepted :
    Validate aliasEncSpec = .ok () :=
  rfl

/-- C9 (amended): Validate rejects an encoding only on attrs whose type
is written as a primitive other than str; for a validated spec, every
attr with an encoding and a syntactically primitive type has type str. -/
theorem C9_encoding_only_direct_primitive {s : Spec} (h : Validate s = .ok ()) :
    ∀ a ∈ s.attrs, a.encoding.isSome = true →
      ∀ p, a.type = .primitive p → p = .kStr := by
  obtain ⟨d, en, hattrs⟩ := Validate_checkAttrs h
  intro a ha henc p ht
  exact checkAttr_encoding (checkAttrs_mem hattrs a ha) henc ht

/-- C9 witness: applied to `strEncSpec`, whose single attr is a str
primitive with a UTF-8 encoding. -/
theorem C9_encoding_witness :
    Validate strEncSpec = .ok () ∧ PrimitiveType.kStr = PrimitiveType.kStr :=
  ⟨rfl,
   C9_encoding_only_direct_primitive (s := strEncSpec) rfl
     { id := str "a", type := .primitive .kStr, encoding := some (str "UTF-8") }
     (by decide) (by decide) PrimitiveType.kStr rfl⟩

end KS

namespace KS

/-! ## The import loader (ir.cpp LoadFromFileWithImports)

The filesystem is modelled as an association list from canonical path
keys to file text; std::filesystem::weakly_canonical is modelled as the
identity on those keys (the theorems only use paths that are already in
canonical form), and exists() as presence in the list. -/

/-- Association-list lookup, as unordered_map::find. -/
def lookup {α : Type} : List (Str × α) → Str → Option α
  | [], _ => none
  | (k, v) :: rest, key => if k = key then some v else lookup rest key

/-- ir.cpp NormalizeImportPath: backslashes become slashes. -/
def NormalizeImportPath (s : Str) : Str :=
  s.map (fun c => if c = '\\' then '/' else c)

/-- std::filesystem::path::parent_path for the textual paths used here:
everything before the last slash (empty for a bare file name). -/
def parentPath (p : Str) : Str :=
  (p.reverse.dropWhile (fun c => !(c = '/'))).drop 1 |>.reverse

/-- std::filesystem::path operator/ for the textual paths used here. -/
def pathJoin (d n : Str) : Str :=
  if d.isEmpty then n else d ++ '/' :: n

/-- An absolute POSIX path. -/
def isAbsolutePath (p : Str) : Bool :=
  match p with
  | '/' :: _ => true
  | _ => false

/-- ir.cpp ResolveImportPath over the modelled filesystem. -/
def ResolveImportPath (fs : List (Str × Str)) (imp current : Str)
    (importPaths : List Str) : VRes Str :=
  let normalized := NormalizeImportPath imp
  let candidates :=
    if isAbsolutePath normalized then [normalized]
    else pathJoin (parentPath current) normalized ::
      (importPaths.filter (fun b => !b.isEmpty)).map (fun b => pathJoin b normalized)
  match candidates.find? (fun c => (lookup fs c).isSome) with
  | some c => .ok c
  | none => .error (str "failed to resolve import: " ++ imp ++ str " from " ++ current)

/-- The " -> " chain the cycle diagnostic prints. -/
def chainOf : List Str → Str
  | [] => []
  | [x] => x
  | x :: y :: rest => x ++ str " -> " ++ chainOf (y :: rest)

mutual

/-- The DFS of LoadFromFileWithImports (the dfs lambda): `loadDfs` visits
one file, `loadDfsImports` its import list.  visiting and stack are
restored on every C++ exit path, so they are passed downward only; the
loaded map is threaded through.  The fuel bounds the recursion depth and
is chosen by the callers to never run out. -/
def loadDfs (fs : List (Str × Str)) (importPaths : List Str) :
    Nat → Str → List Str → List Str → List (Str × Spec) → VRes (List (Str × Spec))
  | 0, _, _, _, _ => .error (str "fuel exhausted")
  | fuel + 1, fileKey, visiting, stack, loaded =>
    if (lookup loaded fileKey).isSome then .ok loaded
    else if fileKey ∈ visiting then
      .error (str "import cycle detected: " ++ chainOf (stack ++ [fileKey]))
    else
      match lookup fs fileKey with
      | none => .error (str "failed to open IR file: " ++ fileKey)
      | some text =>
      match Deserialize text false with
      | .error e => .error e
      | .ok current =>
      match loadDfsImports fs importPaths fuel fileKey current.imports
              (fileKey :: visiting) (stack ++ [fileKey]) loaded with
      | .error e => .error e
      | .ok loaded2 => .ok ((fileKey, current) :: loaded2)
termination_by structural fuel => fuel

/-- The loop over a file's imports inside the dfs lambda. -/
def loadDfsImports (fs : List (Str × Str)) (importPaths : List Str) :
    Nat → Str → List Str → List Str → List Str → List (Str × Spec) →
    VRes (List (Str × Spec))
  | _, _, [], _, _, loaded => .ok loaded
  | 0, _, _ :: _, _, _, _ => .error (str "fuel exhausted")
  | fuel + 1, cur, imp :: rest, visiting, stack, loaded =>
    match ResolveImportPath fs imp cur importPaths with
    | .error e => .error e
    | .ok resolved =>
      match loadDfs fs importPaths fuel resolved visiting stack loaded with
      | .error e => .error e
      | .ok loaded2 => loadDfsImports fs importPaths fuel cur rest visiting stack loaded2
termination_by structural fuel => fuel

end

end KS

namespace KS

/-- State of the merge loop: files already merged, type and enum names
seen so far, and the accumulated type and enum lists. -/
structure MergeSt where
  mergedFiles : List Str
  seenTypes : List Str
  seenEnums : List Str
  types : List TypeDef
  enums : List EnumDef
deriving Repr

/-- Appending one dependency's types with the duplicate check. -/
def mergeTypes (st : MergeSt) : List TypeDef → VRes MergeSt
  | [] => .ok st
  | t :: rest =>
    if t.name ∈ st.seenTypes then
      .error (str "duplicate symbol across imports: type " ++ t.name)
    else mergeTypes { st with
      seenTypes := t.name :: st.seenTypes, types := st.types ++ [t] } rest

/-- Appending one dependency's enums with the duplicate check. -/
def mergeEnums (st : MergeSt) : List EnumDef → VRes MergeSt
  | [] => .ok st
  | e :: rest =>
    if e.name ∈ st.seenEnums then
      .error (str "duplicate symbol across imports: enum " ++ e.name)
    else mergeEnums { st with
      seenEnums := e.name :: st.seenEnums, enums := st.enums ++ [e] } rest

mutual

/-- The merge_deps lambda of LoadFromFileWithImports: depth-first over
the resolved imports, skipping files already merged, rejecting duplicate
type/enum symbols, appending each dependency's types and enums. -/
def mergeDeps (fs : List (Str × Str)) (importPaths : List Str)
    (loaded : List (Str × Spec)) :
    Nat → Str → MergeSt → VRes MergeSt
  | 0, _, _ => .error (str "fuel exhausted")
  | fuel + 1, filePath, st =>
    let spec := (lookup loaded filePath).getD { name := [] }
    mergeDepsImports fs importPaths loaded fuel filePath spec.imports st

/-- The loop over one file's imports inside merge_deps. -/
def mergeDepsImports (fs : List (Str × Str)) (importPaths : List Str)
    (loaded : List (Str × Spec)) :
    Nat → Str → List Str → MergeSt → VRes MergeSt
  | _, _, [], st => .ok st
  | 0, _, _ :: _, _ => .error (str "fuel exhausted")
  | fuel + 1, filePath, imp :: rest, st =>
    match ResolveImportPath fs imp filePath importPaths with
    | .error e => .error e
    | .ok depKey =>
      if depKey ∈ st.mergedFiles then
        mergeDepsImports fs importPaths loaded fuel filePath rest st
      else
        match mergeDeps fs importPaths loaded fuel depKey
                { st with mergedFiles := depKey :: st.mergedFiles } with
        | .error e => .error e
        | .ok st2 =>
          let dep := (lookup loaded depKey).getD { name := [] }
          if dep.name ∈ st2.seenTypes then
            .error (str "duplicate symbol across imports: type " ++ dep.name)
          else
            match mergeTypes { st2 with seenTypes := dep.name :: st2.seenTypes }
                    dep.types with
            | .error e => .error e
            | .ok st3 =>
              match mergeEnums st3 dep.enums with
              | .error e => .error e
              | .ok st4 => mergeDepsImports fs importPaths loaded fuel filePath rest st4
termination_by structural fuel => fuel

end

/-- ir.cpp LoadFromFileWithImports over the modelled filesystem: DFS
load with cycle detection, merge of all dependencies' types and enums,
then Validate of the merged spec.  weakly_canonical is the identity
here, and the fuel is one more than the filesystem size, which bounds
every acyclic DFS. -/
def LoadFromFileWithImports (fs : List (Str × Str)) (path : Str)
    (importPaths : List Str) : VRes Spec :=
  let fuel := 2 * fs.length + 2
  match loadDfs fs importPaths fuel path [] [] [] with
  | .error e => .error e
  | .ok loaded =>
    let merged0 := (lookup loaded path).getD { name := [] }
    let st0 : MergeSt :=
      { mergedFiles := [],
        seenTypes := merged0.name :: merged0.types.map (fun t => t.name),
        seenEnums := merged0.enums.map (fun e => e.name),
        types := merged0.types, enums := merged0.enums }
    match mergeDeps fs importPaths loaded fuel path st0 with
    | .error e => .error e
    | .ok st =>
      let merged := { merged0 with types := st.types, enums := st.enums }
      match Validate merged with
      | .error e => .error e
      | .ok _ => .ok merged

end KS

namespace KS

/-- Successful type collection extends the accumulator without repeating
a name. -/
theorem collectDeclaredTypes_nodup :
    ∀ {ts : List TypeDef} {declared : List Str} {edges : List (Str × Str)}
      {out : List Str × List (Str × Str)},
      collectDeclaredTypes ts declared edges = .ok out → declared.Nodup →
      (declared ++ ts.map (fun t => t.name)).Nodup := by
  intro ts
  induction ts with
  | nil => intro _ _ _ h hd; simpa using hd
  | cons t ts ih =>
    intro declared edges out h hd
    rw [collectDeclaredTypes] at h
    split at h
    · cases h
    split at h
    next hmem => cases h
    next hmem =>
      have hnodup2 : (declared ++ [t.name]).Nodup := by
        simp [List.nodup_append, hd]
        intro hmem2
        exact hmem (by simpa using hmem2)
      have key : ((declared ++ [t.name]) ++ ts.map (fun t => t.name)).Nodup := by
        split at h
        next u =>
          split at h
          · cases h
          · exact ih h hnodup2
        next p => exact ih h hnodup2
      simpa [List.append_assoc] using key

/-- Successful enum collection extends the accumulator without repeating
a name. -/
theorem collectEnums_nodup :
    ∀ {es : List EnumDef} {names : List Str} {out : List Str},
      collectEnums es names = .ok out → names.Nodup →
      (names ++ es.map (fun e => e.name)).Nodup := by
  intro es
  induction es with
  | nil => intro _ _ h hd; simpa using hd
  | cons e es ih =>
    intro names out h hd
    rw [collectEnums] at h
    split at h
    · cases h
    split at h
    next hmem => cases h
    next hmem =>
      split at h
      · cases h
      have hnodup2 : (names ++ [e.name]).Nodup := by
        simp [List.nodup_append, hd]
        intro hmem2
        exact hmem (by simpa using hmem2)
      split at h
      · cases h
      next u hcv =>
        have key := ih h hnodup2
        simpa [List.append_assoc] using key

/-- A validated spec has pairwise distinct type names (its own name
included) and pairwise distinct enum names. -/
theorem Validate_nodup {s : Spec} (h : Validate s = .ok ()) :
    (s.name :: s.types.map (fun t => t.name)).Nodup ∧
    (s.enums.map (fun e => e.name)).Nodup := by
  rw [Validate] at h
  by_cases hn : s.name.isEmpty = true
  · rw [if_pos hn] at h
    cases h
  rw [if_neg hn] at h
  split at h
  · cases h
  next declared edges hc =>
  split at h
  · cases h
  next en he =>
  constructor
  · simpa using collectDeclaredTypes_nodup hc (by simp)
  · simpa using collectEnums_nodup he (by simp)

end KS

namespace KS

/-- A successful import load ends by validating exactly the spec it
returns. -/
theorem LoadFromFileWithImports_validates {fs : List (Str × Str)} {path : Str}
    {ips : List Str} {merged : Spec}
    (h : LoadFromFileWithImports fs path ips = .ok merged) :
    Validate merged = .ok () := by
  rw [LoadFromFileWithImports] at h
  split at h
  · cases h
  next loaded hl =>
  dsimp only at h
  split at h
  · cases h
  next st hm =>
  split at h
  · cases h
  next u hv =>
  cases u
  cases h
  exact hv

/-- The two specs of a two-file import cycle. -/
def cycSpecA : Spec := { name := str "a", imports := [str "b.ksir"] }

/-- Partner of cycSpecA, importing it back. -/
def cycSpecB : Spec := { name := str "b", imports := [str "a.ksir"] }

/-- A filesystem with the two-file cycle a.ksir <-> b.ksir. -/
def cycFs : List (Str × Str) :=
  [(str "a.ksir", Serialize cycSpecA), (str "b.ksir", Serialize cycSpecB)]

/-- Dependency declaring type t. -/
def depSpecA : Spec :=
  { name := str "depa", types := [{ name := str "t", type := .primitive .kU1 }] }

/-- Second dependency declaring the same type t. -/
def depSpecB : Spec :=
  { name := str "depb", types := [{ name := str "t", type := .primitive .kU2 }] }

/-- Root importing the two clashing dependencies. -/
def dupRootSpec : Spec :=
  { name := str "root", imports := [str "depa.ksir", str "depb.ksir"] }

/-- Filesystem for the duplicate-symbol scenario. -/
def dupFs : List (Str × Str) :=
  [(str "root.ksir", Serialize dupRootSpec),
   (str "depa.ksir", Serialize depSpecA),
   (str "depb.ksir", Serialize depSpecB)]

/-- C5: reaching a file that is still on the DFS visit stack makes the
loader fail with "import cycle detected" followed by the visited chain;
in the two-file cycle a.ksir <-> b.ksir the chain reads
a.ksir -> b.ksir -> a.ksir. -/
theorem C5_import_cycle_detected :
    (∀ (fs : List (Str × Str)) (ips : List Str) (fuel : Nat) (fileKey : Str)
       (visiting stack : List Str) (loaded : List (Str × Spec)),
       lookup loaded fileKey = none → fileKey ∈ visiting →
       loadDfs fs ips (fuel + 1) fileKey visiting stack loaded =
         .error (str "import cycle detected: " ++ chainOf (stack ++ [fileKey]))) ∧
    LoadFromFileWithImports cycFs (str "a.ksir") [] =
      .error (str "import cycle detected: a.ksir -> b.ksir -> a.ksir") := by
  constructor
  · intro fs ips fuel fileKey visiting stack loaded h1 h2
    rw [loadDfs]
    simp [h1, h2]
  · rfl

/-- C6: a spec returned by a successful import load has pairwise
distinct type names (the root's own name included) and pairwise
distinct enum names; a clash during the merge is rejected as
"duplicate symbol across imports: type <name>". -/
theorem C6_merge_disjointness :
    (∀ (fs : List (Str × Str)) (path : Str) (ips : List Str) (merged : Spec),
       LoadFromFileWithImports fs path ips = .ok merged →
       (merged.name :: merged.types.map (fun t => t.name)).Nodup ∧
       (merged.enums.map (fun e => e.name)).Nodup) ∧
    LoadFromFileWithImports dupFs (str "root.ksir") [] =
      .error (str "duplicate symbol across imports: type t") := by
  constructor
  · intro fs path ips merged h
    exact Validate_nodup (LoadFromFileWithImports_validates h)
  · rfl

end KS

namespace KS

/-! ## codegen.cpp: expression rendering -/

/-- codegen.cpp NormalizeOp: word forms to symbols. -/
def NormalizeOp (op : Str) : Str :=
  if op = str "and" then str "&&"
  else if op = str "or" then str "||"
  else if op = str "xor" then str "^"
  else if op = str "not" then str "!"
  else op

/-- codegen.cpp ExprPrecedence (100 for non-binary, 5 for unknown ops). -/
def ExprPrecedence (e : Expr) : Int :=
  match e with
  | .Binary op _ _ =>
    let o := NormalizeOp op
    if o = str "||" then 10
    else if o = str "&&" then 20
    else if o = str "|" then 30
    else if o = str "^" then 35
    else if o = str "&" then 40
    else if o = str "==" || o = str "!=" then 45
    else if o = str "<" || o = str "<=" || o = str ">" || o = str ">=" then 50
    else if o = str "<<" || o = str ">>" then 55
    else if o = str "+" || o = str "-" then 60
    else if o = str "*" || o = str "/" || o = str "%" then 70
    else 5
  | _ => 100

/-- codegen.cpp ParseSpecialUnary: strips a prefix, requiring a
non-empty payload. -/
def ParseSpecialUnary (op prefixStr : Str) : Option Str :=
  if prefixStr.isPrefixOf op then
    let payload := op.drop prefixStr.length
    if payload.isEmpty then none else some payload
  else none

/-- First index of the "::" separator. -/
def findScopeSep : Str → Option Nat
  | [] => none
  | c :: rest =>
    match rest with
    | [] => none
    | d :: _ =>
      if c = ':' && d = ':' then some 0
      else (findScopeSep rest).map (fun n => n + 1)

/-- Splitting loop of codegen.cpp SplitScopePath (fuel is the length). -/
def splitScopeGo : Nat → Str → List Str
  | 0, s => [s]
  | fuel + 1, s =>
    if s.isEmpty then []
    else
      match findScopeSep s with
      | none => [s]
      | some pos => s.take pos :: splitScopeGo fuel (s.drop (pos + 2))

/-- codegen.cpp SplitScopePath: "a::b::c" to its segments. -/
def SplitScopePath (name : Str) : List Str :=
  if name.isEmpty then [] else splitScopeGo name.length name

/-- codegen.cpp JoinScopePath over the first `upto` segments. -/
def JoinScopePath (parts : List Str) (upto : Nat) : Str :=
  ((parts.take upto).intersperse (str "::")).flatten

/-- codegen.cpp CppUserTypeName: each scope segment suffixed _t. -/
def CppUserTypeName (type_name : Str) : Str :=
  if type_name = str "kaitai::kstruct" || type_name = str "struct" then str "kaitai::kstruct"
  else if type_name.isEmpty then str "kaitai::kstruct"
  else
    match SplitScopePath type_name with
    | [] => str "kaitai::kstruct"
    | p :: rest => p ++ str "_t" ++ rest.flatMap (fun q => str "::" ++ q ++ str "_t")

/-- codegen.cpp RenderExpr: attrs and instances are the sets of names
rendered as accessor calls; repeatItem substitutes for the name `_`
inside repeat-until conditions. -/
def RenderExpr (attrs instances : List Str) : Expr → Int → Str → Str
  | .Int v, _, _ => intChars v
  | .Bool b, _, _ => if b then str "true" else str "false"
  | .Name t, _, repeatItem =>
    if !repeatItem.isEmpty && t = str "_" then repeatItem
    else if t ∈ attrs || t ∈ instances then t ++ str "()"
    else t
  | .Unary op l, _, repeatItem =>
    match ParseSpecialUnary op (str "__cast__:") with
    | some payload =>
      str "static_cast<" ++ CppUserTypeName payload ++ str "*>(" ++
        RenderExpr attrs instances l 90 repeatItem ++ str ")"
    | none =>
    match ParseSpecialUnary op (str "__attr__:") with
    | some payload =>
      RenderExpr attrs instances l 90 repeatItem ++ str "->" ++ payload ++ str "()"
    | none =>
      str "(" ++ NormalizeOp op ++ RenderExpr attrs instances l 90 repeatItem ++ str ")"
  | .Binary op l r, parentPrec, repeatItem =>
    let prec := ExprPrecedence (.Binary op l r)
    let o := NormalizeOp op
    let lhs0 := RenderExpr attrs instances l prec repeatItem
    let rhs0 := RenderExpr attrs instances r (prec + 1) repeatItem
    let lhs := if o = str "&&" || o = str "||" then str "(" ++ lhs0 ++ str ")" else lhs0
    let rhs := if o = str "&&" || o = str "||" then str "(" ++ rhs0 ++ str ")" else rhs0
    let rendered := lhs ++ str " " ++ o ++ str " " ++ rhs
    if o = str "&&" || o = str "||" then str "(" ++ rendered ++ str ")"
    else if prec ≤ parentPrec then str "(" ++ rendered ++ str ")"
    else rendered

end KS

namespace KS

/-- The instance expression a + b*3 - 2. -/
def arithExpr : Expr :=
  .Binary (str "-")
    (.Binary (str "+") (.Name (str "a"))
      (.Binary (str "*") (.Name (str "b")) (.Int 3)))
    (.Int 2)

/-- The instance expression (a>b) and (lit==7). -/
def logicExpr : Expr :=
  .Binary (str "and")
    (.Binary (str ">") (.Name (str "a")) (.Name (str "b")))
    (.Binary (str "==") (.Name (str "lit")) (.Int 7))

/-- C3: a binary node renders its left operand at the node's own
precedence and its right operand at that precedence plus one, is
parenthesized exactly when its precedence is at most the parent's, and
normalized && and || wrap both operands and the whole result; the two
sample expressions render without extra parentheses. -/
theorem C3_binary_rendering :
    (∀ (attrs instances : List Str) (op : Str) (l r : Expr) (parent : Int) (ri : Str),
       RenderExpr attrs instances (.Binary op l r) parent ri =
         (if NormalizeOp op = str "&&" || NormalizeOp op = str "||" then
            str "((" ++ RenderExpr attrs instances l (ExprPrecedence (.Binary op l r)) ri ++
              str ") " ++ NormalizeOp op ++ str " (" ++
              RenderExpr attrs instances r (ExprPrecedence (.Binary op l r) + 1) ri ++ str "))"
          else if ExprPrecedence (.Binary op l r) ≤ parent then
            str "(" ++ RenderExpr attrs instances l (ExprPrecedence (.Binary op l r)) ri ++
              str " " ++ NormalizeOp op ++ str " " ++
              RenderExpr attrs instances r (ExprPrecedence (.Binary op l r) + 1) ri ++ str ")"
          else
            RenderExpr attrs instances l (ExprPrecedence (.Binary op l r)) ri ++
              str " " ++ NormalizeOp op ++ str " " ++
              RenderExpr attrs instances r (ExprPrecedence (.Binary op l r) + 1) ri)) ∧
    RenderExpr [str "a", str "b"] [] arithExpr (-1) [] = str "(a() + b() * 3) - 2" ∧
    RenderExpr [str "a", str "b"] [str "lit"] logicExpr (-1) [] =
      str "((a() > b()) && (lit() == 7))" := by
  refine ⟨?_, rfl, rfl⟩
  intro attrs instances op l r parent ri
  rw [RenderExpr]
  by_cases hlog : (NormalizeOp op = str "&&" || NormalizeOp op = str "||") = true
  · simp only [hlog, if_true, if_pos]
    simp [str, List.append_assoc]
  · simp only [Bool.not_eq_true] at hlog
    simp only [hlog, if_false, Bool.false_eq_true]
    by_cases hp : ExprPrecedence (.Binary op l r) ≤ parent
    · simp [hp, str, List.append_assoc]
    · simp [hp, str, List.append_assoc]

end KS

namespace KS

/-! ## codegen.cpp: base64 and embedded scope decoding -/

/-- Index of a character in the base64 alphabet (the table of
DecodeBase64; none stands for -1). -/
def b64Val (c : Char) : Option Nat :=
  (str "ABCDEFGHIJKLMNOPQRSTUVWXYZabcdefghijklmnopqrstuvwxyz0123456789+/").indexOf? c

/-- Loop of codegen.cpp DecodeBase64. val is kept unbounded: only its
low valb+8 bits ever reach the output, so wrapping would not change it. -/
def decodeB64Go : Str → Nat → Int → Str → Option Str
  | [], _, _, out => some out
  | c :: rest, val, valb, out =>
    if isSpaceC c then decodeB64Go rest val valb out
    else if c = '=' then some out
    else
      match b64Val c with
      | none => none
      | some d =>
        let val2 := val * 64 + d
        let valb2 := valb + 6
        if 0 ≤ valb2 then
          decodeB64Go rest val2 (valb2 - 8)
            (out ++ [Char.ofNat (val2 / 2 ^ valb2.toNat % 256)])
        else decodeB64Go rest val2 valb2 out

/-- codegen.cpp DecodeBase64: none models the false return. -/
def DecodeBase64 (input : Str) : Option Str :=
  decodeB64Go input 0 (-8) []

/-- codegen.cpp IsEmbeddedScopeRef: the payload after the
"__scope_b64__:" marker of a user type, if non-empty. -/
def IsEmbeddedScopeRef (ref : TypeRef) : Option Str :=
  match ref with
  | .primitive _ => none
  | .user u =>
    if (str "__scope_b64__:").isPrefixOf u then
      let payload := u.drop (str "__scope_b64__:").length
      if payload.isEmpty then none else some payload
    else none

/-- Lexicographic order of std::string, for the std::map key order. -/
def strLt : Str → Str → Bool
  | [], [] => false
  | [], _ :: _ => true
  | _ :: _, [] => false
  | a :: as_, b :: bs =>
    if a < b then true else if b < a then false else strLt as_ bs

/-- Ordered-map insertion (std::map operator[] assignment). -/
def insertSorted {α : Type} : List (Str × α) → Str → α → List (Str × α)
  | [], k, v => [(k, v)]
  | (k2, v2) :: rest, k, v =>
    if k = k2 then (k, v) :: rest
    else if strLt k k2 then (k, v) :: (k2, v2) :: rest
    else (k2, v2) :: insertSorted rest k v

/-- One typedef's embedded scope: the marker, base64 decode and KSIR1
parse chain of DecodeEmbeddedScopes; none is the silent skip. -/
def scopeSpecOf (t : TypeDef) : Option Spec :=
  match IsEmbeddedScopeRef t.type with
  | none => none
  | some encoded =>
  match DecodeBase64 encoded with
  | none => none
  | some decoded =>
  match Deserialize decoded false with
  | .error _ => none
  | .ok sp => some sp

/-- Loop of codegen.cpp DecodeEmbeddedScopes. -/
def scopesAdd : List TypeDef → List (Str × Spec) → List (Str × Spec)
  | [], acc => acc
  | t :: ts, acc =>
    match scopeSpecOf t with
    | none => scopesAdd ts acc
    | some sp => scopesAdd ts (insertSorted acc t.name sp)

/-- codegen.cpp DecodeEmbeddedScopes: the scope map of a spec. -/
def DecodeEmbeddedScopes (spec : Spec) : List (Str × Spec) :=
  scopesAdd spec.types []

/-- A spec whose typedefs carry one well-formed embedded scope and three
defective ones: an empty payload, an invalid base64 payload, and a
payload that decodes but is not KSIR1 text. -/
def scopeProbeSpec : Spec :=
  { name := str "outer",
    types := [
      { name := str "empty", type := .user (str "__scope_b64__:") },
      { name := str "notb64", type := .user (str "__scope_b64__:!!!") },
      { name := str "notksir", type := .user (str "__scope_b64__:aGVsbG8=") },
      { name := str "good", type := .user (str "__scope_b64__:S1NJUjEKbmFtZSAiaW5uZXIiCmRlZmF1bHRfZW5kaWFuIGxlCmltcG9ydHMgMAp0eXBlcyAwCmF0dHJzIDAKZW51bXMgMAppbnN0YW5jZXMgMAp2YWxpZGF0aW9ucyAwCmVuZAo=") }] }

set_option maxRecDepth 8000 in
set_option maxHeartbeats 2000000 in
/-- C10: a typedef whose embedded-scope chain fails (empty payload, bad
base64, or unparsable KSIR1) is silently dropped: the scope map is the
one computed without that typedef, and no error is produced (the
function is total into a plain map); in `scopeProbeSpec` only the one
well-formed scope survives. -/
theorem C10_bad_scope_skipped :
    (∀ t : TypeDef, scopeSpecOf t = none →
       ∀ (l1 l2 : List TypeDef) (acc : List (Str × Spec)),
         scopesAdd (l1 ++ t :: l2) acc = scopesAdd (l1 ++ l2) acc) ∧
    DecodeEmbeddedScopes scopeProbeSpec = [(str "good", { name := str "inner" })] := by
  constructor
  · intro t ht l1
    induction l1 with
    | nil =>
      intro l2 acc
      simp only [List.nil_append, scopesAdd, ht]
    | cons x xs ih =>
      intro l2 acc
      rw [List.cons_append, scopesAdd, List.cons_append, scopesAdd]
      cases hx : scopeSpecOf x with
      | none => exact ih l2 acc
      | some sp => exact ih l2 (insertSorted acc x.name sp)
  · rfl

end KS

namespace KS

/-! ## codegen.cpp: C++ type mapping helpers -/

/-- Alias-chain resolution loop of ResolvePrimitiveType; the fuel is one
more than the map size, which the pigeonhole on the seen set makes
unreachable (each step adds a distinct key of the map to seen). -/
def resolvePrimitiveAux (user_types : List (Str × TypeRef)) :
    Nat → List Str → Str → Option PrimitiveType
  | 0, _, _ => none
  | fuel + 1, seen, cur =>
    match lookup user_types cur with
    | none => none
    | some t =>
      if cur ∈ seen then none
      else
        match t with
        | .primitive p => some p
        | .user u => resolvePrimitiveAux user_types fuel (cur :: seen) u

/-- codegen.cpp ResolvePrimitiveType: a TypeRef's primitive through the
typedef alias chain, none for unknown names and cycles. -/
def ResolvePrimitiveType (ref : TypeRef) (user_types : List (Str × TypeRef)) :
    Option PrimitiveType :=
  match ref with
  | .primitive p => some p
  | .user u => resolvePrimitiveAux user_types (user_types.length + 1) [] u

/-- codegen.cpp IsUnresolvedUserType. -/
def IsUnresolvedUserType (ref : TypeRef) (user_types : List (Str × TypeRef)) : Bool :=
  match ref with
  | .user _ => (ResolvePrimitiveType ref user_types).isNone
  | .primitive _ => false

/-- codegen.cpp CppFieldType. -/
def CppFieldType : PrimitiveType → Str
  | .kU1 => str "uint8_t"
  | .kU2 => str "uint16_t"
  | .kU4 => str "uint32_t"
  | .kU8 => str "uint64_t"
  | .kS1 => str "int8_t"
  | .kS2 => str "int16_t"
  | .kS4 => str "int32_t"
  | .kS8 => str "int64_t"
  | .kF4 => str "float"
  | .kF8 => str "double"
  | .kStr => str "std::string"
  | .kBytes => str "std::string"

/-- codegen.cpp ReadMethod. -/
def ReadMethod (p : PrimitiveType) (e : Endian) : Str :=
  let be := e = Endian.kBe
  match p with
  | .kU1 => str "read_u1"
  | .kU2 => if be then str "read_u2be" else str "read_u2le"
  | .kU4 => if be then str "read_u4be" else str "read_u4le"
  | .kU8 => if be then str "read_u8be" else str "read_u8le"
  | .kS1 => str "read_s1"
  | .kS2 => if be then str "read_s2be" else str "read_s2le"
  | .kS4 => if be then str "read_s4be" else str "read_s4le"
  | .kS8 => if be then str "read_s8be" else str "read_s8le"
  | .kF4 => if be then str "read_f4be" else str "read_f4le"
  | .kF8 => if be then str "read_f8be" else str "read_f8le"
  | _ => str "read_u1"

/-- Width rank of the rank lambda in SwitchCaseType. -/
def primitiveRank : PrimitiveType → Int
  | .kU1 | .kS1 => 1
  | .kU2 | .kS2 => 2
  | .kU4 | .kS4 | .kF4 => 4
  | .kU8 | .kS8 | .kF8 => 8
  | .kBytes | .kStr => 100

/-- Selection loop of SwitchCaseType: widest resolved case type wins,
first at equal rank. -/
def switchSelect (user_types : List (Str × TypeRef)) :
    List SwitchCase → PrimitiveType → Int → PrimitiveType
  | [], selected, _ => selected
  | c :: rest, selected, selectedRank =>
    let p := (ResolvePrimitiveType c.type user_types).getD .kU1
    if primitiveRank p > selectedRank then switchSelect user_types rest p (primitiveRank p)
    else switchSelect user_types rest selected selectedRank

/-- codegen.cpp SwitchCaseType. -/
def SwitchCaseType (a : Attr) (user_types : List (Str × TypeRef)) : Str :=
  if a.switch_cases.isEmpty then
    CppFieldType ((ResolvePrimitiveType a.type user_types).getD .kU1)
  else CppFieldType (switchSelect user_types a.switch_cases .kU1 (-1))

/-- codegen.cpp EffectiveAttrPrimitive. -/
def EffectiveAttrPrimitive (a : Attr) (user_types : List (Str × TypeRef)) :
    Option PrimitiveType :=
  if a.switch_on.isSome && !a.switch_cases.isEmpty then
    match a.switch_cases with
    | c :: _ => ResolvePrimitiveType c.type user_types
    | [] => none
  else ResolvePrimitiveType a.type user_types

/-- Index of the last "::" in a name (std::string rfind). -/
def rfindScopeSepGo : Str → Nat → Option Nat → Option Nat
  | [], _, best => best
  | c :: rest, i, best =>
    match rest with
    | [] => best
    | d :: _ =>
      if c = ':' && d = ':' then rfindScopeSepGo rest (i + 1) (some i)
      else rfindScopeSepGo rest (i + 1) best

/-- codegen.cpp EnumShortName: the part after the last "::". -/
def EnumShortName (ename : Str) : Str :=
  match rfindScopeSepGo ename 0 none with
  | none => ename
  | some pos => ename.drop (pos + 2)

/-- ASCII alphanumeric, as std::isalnum sees the identifiers used. -/
def isAlnumC (c : Char) : Bool :=
  ('a' ≤ c && c ≤ 'z') || ('A' ≤ c && c ≤ 'Z') || ('0' ≤ c && c ≤ '9')

/-- The sanitize loop shared by EnumCppTypeName and EnumValueName:
non-alphanumerics become underscores. -/
def identChars (s : Str) : Str :=
  s.map (fun c => if isAlnumC c then c else '_')

/-- The leading-underscore guard of the enum name helpers. -/
def guardLead (s : Str) : Str :=
  if s.isEmpty || (match s with | c :: _ => '0' ≤ c && c ≤ '9' | [] => false) then
    '_' :: s
  else s

/-- codegen.cpp EnumCppTypeName. -/
def EnumCppTypeName (ename : Str) : Str :=
  guardLead (identChars (EnumShortName ename)) ++ str "_e"

/-- codegen.cpp EnumValueName. -/
def EnumValueName (name : Str) : Str :=
  guardLead (identChars name)

/-- codegen.cpp CppAttrType. -/
def CppAttrType (a : Attr) (user_types : List (Str × TypeRef)) : Str :=
  match a.enum_name with
  | some en => EnumCppTypeName en
  | none =>
    if (match a.type with | .user _ => true | .primitive _ => false) &&
       (ResolvePrimitiveType a.type user_types).isNone then
      CppUserTypeName (match a.type with | .user u => u | .primitive _ => []) ++ str "*"
    else CppFieldType ((EffectiveAttrPrimitive a user_types).getD .kU1)

/-- codegen.cpp CppStorageType. -/
def CppStorageType (a : Attr) (user_types : List (Str × TypeRef)) : Str :=
  if IsUnresolvedUserType a.type user_types && a.switch_on.isNone then
    let type_name := CppUserTypeName (match a.type with | .user u => u | .primitive _ => [])
    if !(a.repeatKind = .kNone) then
      str "std::unique_ptr<std::vector<std::unique_ptr<" ++ type_name ++ str ">>>"
    else str "std::unique_ptr<" ++ type_name ++ str ">"
  else
    let base := if a.switch_on.isSome then SwitchCaseType a user_types
                else CppAttrType a user_types
    if !(a.repeatKind = .kNone) then str "std::unique_ptr<std::vector<" ++ base ++ str ">>"
    else base

/-- codegen.cpp CppAccessorType. -/
def CppAccessorType (a : Attr) (user_types : List (Str × TypeRef)) : Str :=
  if IsUnresolvedUserType a.type user_types && a.switch_on.isNone then
    let type_name := CppUserTypeName (match a.type with | .user u => u | .primitive _ => [])
    if !(a.repeatKind = .kNone) then
      str "std::vector<std::unique_ptr<" ++ type_name ++ str ">>*"
    else type_name ++ str "*"
  else if !(a.repeatKind = .kNone) then
    let base := if a.switch_on.isSome then SwitchCaseType a user_types
                else CppAttrType a user_types
    str "std::vector<" ++ base ++ str ">*"
  else CppStorageType a user_types

/-- codegen.cpp CppTypeForTypeRef. -/
def CppTypeForTypeRef (ref : TypeRef) (user_types : List (Str × TypeRef)) : Str :=
  match ResolvePrimitiveType ref user_types with
  | some p => CppFieldType p
  | none =>
    match ref with
    | .user u => CppUserTypeName u ++ str "*"
    | .primitive _ => str "uint8_t"

/-- codegen.cpp BuildUserTypeMap: last writer per name wins. -/
def BuildUserTypeMap (types : List TypeDef) : List (Str × TypeRef) :=
  types.foldl (fun acc t => insertSorted acc t.name t.type) []

end KS

namespace KS

/-! ## The extended codegen IR

codegen.cpp compiles against a richer ir.h than the one in this
repository snapshot: Spec carries params, Attr a process step and user
type arguments, and Instance a value/parse kind with parse fields.  The
extra fields are modelled from the spec here; everything that only uses
the shared core fields stays on the core types. -/

/-- Modelled from the spec: a constructor parameter of a spec (§4.7
"Params become immutable accessors"; the gate counts param ids among
the known expression names). -/
structure Param where
  id : Str
  type : TypeRef
deriving DecidableEq, Repr

/-- Modelled from the spec: the one processing variant, xor with a
constant byte (§3 Attr "process: … kXorConst(uint8_t k)"). -/
inductive ProcessKind
  | kXorConst
deriving DecidableEq, Repr

/-- Modelled from the spec: an attr's optional processing step. -/
structure Process where
  kind : ProcessKind
  key : Nat
deriving DecidableEq, Repr

/-- Modelled from the spec: the instance kind tag (§3 Instance — value
instance or random-access parse instance). -/
inductive InstanceKind
  | kValue
  | kParse
deriving DecidableEq, Repr

/-- Modelled from the spec: the attr of the richer ir.h — the core
fields plus process and user_type_args. -/
structure CAttr where
  id : Str
  type : TypeRef
  endian_override : Option Endian := none
  size_expr : Option Expr := none
  enum_name : Option Str := none
  encoding : Option Str := none
  if_expr : Option Expr := none
  repeatKind : RepeatKind := .kNone
  repeat_expr : Option Expr := none
  switch_on : Option Expr := none
  switch_cases : List SwitchCase := []
  process : Option Process := none
  user_type_args : List Expr := []
deriving DecidableEq, Repr

/-- The core projection of an extended attr (the same object in C++). -/
def CAttr.core (a : CAttr) : Attr :=
  { id := a.id, type := a.type, endian_override := a.endian_override,
    size_expr := a.size_expr, enum_name := a.enum_name, encoding := a.encoding,
    if_expr := a.if_expr, repeatKind := a.repeatKind, repeat_expr := a.repeat_expr,
    switch_on := a.switch_on, switch_cases := a.switch_cases }

/-- Modelled from the spec: the instance of the richer ir.h (§3
Instance: value instances with a value_expr, parse instances with type,
pos/size expressions, endian and encoding overrides and an
explicit-type flag). -/
structure CInstance where
  id : Str
  kind : InstanceKind := .kValue
  value_expr : Expr := .Int 0
  type : TypeRef := .primitive .kU1
  pos_expr : Option Expr := none
  size_expr : Option Expr := none
  endian_override : Option Endian := none
  encoding : Option Str := none
  has_explicit_type : Bool := false
deriving DecidableEq, Repr

/-- Modelled from the spec: the spec of the richer ir.h — core fields
plus params, with the extended attr and instance types. -/
structure CSpec where
  name : Str
  default_endian : Endian := .kLe
  imports : List Str := []
  params : List Param := []
  types : List TypeDef := []
  attrs : List CAttr := []
  enums : List EnumDef := []
  instances : List CInstance := []
  validations : List Validation := []
deriving DecidableEq, Repr

/-- The three-valued expression type of the C++ inference. -/
inductive ExprType
  | kInt8
  | kInt32
  | kBool
deriving DecidableEq, Repr

/-- codegen.cpp ExprResultType. -/
def ExprResultType (e : Expr) (bool_instances : List Str)
    (instance_types : List (Str × ExprType)) : ExprType :=
  match e with
  | .Bool _ => .kBool
  | .Int v => if -128 ≤ v && v ≤ 127 then .kInt8 else .kInt32
  | .Name t =>
    match lookup instance_types t with
    | some ty => ty
    | none => if t ∈ bool_instances then .kBool else .kInt32
  | .Unary op _ => if NormalizeOp op = str "!" then .kBool else .kInt32
  | .Binary op _ _ =>
    let o := NormalizeOp op
    if o = str "&&" || o = str "||" || o = str "==" || o = str "!=" || o = str "<" ||
       o = str "<=" || o = str ">" || o = str ">=" then .kBool
    else .kInt32

/-- codegen.cpp CppExprType. -/
def CppExprType : ExprType → Str
  | .kBool => str "bool"
  | .kInt8 => str "int8_t"
  | .kInt32 => str "int32_t"

/-- codegen.cpp ComputeInstanceTypes: types of the value instances in
declaration order. -/
def computeInstanceTypesGo : List CInstance → List Str → List (Str × ExprType) →
    List (Str × ExprType)
  | [], _, out => out
  | inst :: rest, bool_instances, out =>
    if inst.kind = .kValue then
      let ty := ExprResultType inst.value_expr bool_instances out
      computeInstanceTypesGo rest
        (if ty = .kBool then bool_instances ++ [inst.id] else bool_instances)
        (insertSorted out inst.id ty)
    else computeInstanceTypesGo rest bool_instances out

/-- codegen.cpp ComputeInstanceTypes. -/
def ComputeInstanceTypes (spec : CSpec) : List (Str × ExprType) :=
  computeInstanceTypesGo spec.instances [] []

/-- codegen.cpp CppInstanceType. -/
def CppInstanceType (inst : CInstance) (instance_types : List (Str × ExprType))
    (user_types : List (Str × TypeRef)) : Str :=
  if inst.kind = .kParse then CppTypeForTypeRef inst.type user_types
  else if inst.has_explicit_type then CppTypeForTypeRef inst.type user_types
  else
    match lookup instance_types inst.id with
    | none => str "int32_t"
    | some ty => CppExprType ty

end KS

namespace KS

/-! ## codegen.cpp: ValidateSupportedSubset -/

/-- Whether a TypeRef is a user reference (the kind test of the C++). -/
def TypeRef.isUser : TypeRef → Bool
  | .user _ => true
  | .primitive _ => false

/-- codegen.cpp EnumNameMatches: exact or ::-suffix match. -/
def EnumNameMatches (declared ref : Str) : Bool :=
  declared = ref ||
  (decide (declared.length > ref.length) &&
   declared.drop (declared.length - ref.length) = ref &&
   (declared.drop (declared.length - ref.length - 1)).head? = some ':')

/-- First attr loop of the gate: unresolved types, user-type extras and
encodings on non-str primitives. -/
def gateAttrTypes (user_types : List (Str × TypeRef)) : List CAttr → VRes Unit
  | [] => .ok ()
  | attr :: rest =>
    let resolved := ResolvePrimitiveType attr.type user_types
    let unresolvedUser := resolved.isNone && attr.type.isUser
    if resolved.isNone && !unresolvedUser then
      .error (str "not yet supported: attr type must resolve to primitive type")
    else if unresolvedUser then
      if attr.encoding.isSome || attr.process.isSome || attr.enum_name.isSome then
        .error (str "not yet supported: complex user-type attrs in this migration slice")
      else gateAttrTypes user_types rest
    else if attr.encoding.isSome && !((resolved.getD .kU1) = .kStr) then
      .error (str "not yet supported: encoding outside str attrs")
    else gateAttrTypes user_types rest

/-- Enum loop of the gate, accumulating the declared enum names. -/
def gateEnums : List EnumDef → List Str → VRes (List Str)
  | [], acc => .ok acc
  | e :: rest, acc =>
    if e.name.isEmpty then .error (str "not yet supported: empty enum name")
    else gateEnums rest (acc ++ [e.name])

/-- Switch-case loop of the gate's second attr pass. -/
def gateSwitchCases (user_types : List (Str × TypeRef)) :
    List SwitchCase → Option PrimitiveType → Bool → VRes Unit
  | [], _, _ => .ok ()
  | c :: rest, caseTy, hasElse =>
    match ResolvePrimitiveType c.type user_types with
    | none => .error (str "not yet supported: switch-on case type must resolve to primitive type")
    | some rc =>
      let ct := caseTy.getD rc
      if !(ct = rc) then
        .error (str "not yet supported: switch-on cases must share one primitive type")
      else if c.matchExpr.isNone then
        if hasElse then .error (str "not yet supported: malformed switch cases (duplicate else)")
        else gateSwitchCases user_types rest (some ct) true
      else gateSwitchCases user_types rest (some ct) hasElse

/-- Integer-backed primitives, as the gate's enum check lists them. -/
def isIntBackedPrim : PrimitiveType → Bool
  | .kU1 | .kU2 | .kU4 | .kU8 | .kS1 | .kS2 | .kS4 | .kS8 => true
  | _ => false

/-- Second attr loop of the gate: switch-case shape and enum references. -/
def gateAttrsEnum (user_types : List (Str × TypeRef)) (declared_enums : List Str) :
    List CAttr → VRes Unit
  | [] => .ok ()
  | attr :: rest =>
    let resolved := ResolvePrimitiveType attr.type user_types
    let unresolvedUser := resolved.isNone && attr.type.isUser
    if resolved.isNone && !unresolvedUser then
      .error (str "not yet supported: attr type must resolve to primitive type")
    else if unresolvedUser then gateAttrsEnum user_types declared_enums rest
    else
      match (if attr.switch_on.isSome then
               gateSwitchCases user_types attr.switch_cases none false
             else .ok ()) with
      | .error e => .error e
      | .ok _ =>
        match attr.enum_name with
        | none => gateAttrsEnum user_types declared_enums rest
        | some en =>
          if !declared_enums.any (fun e => EnumNameMatches e en) then
            .error (str "not yet supported: attr.enum_name references unknown enum")
          else if !isIntBackedPrim (resolved.getD .kU1) then
            .error (str "not yet supported: enum attrs must be integer-backed")
          else gateAttrsEnum user_types declared_enums rest

/-- The supported binary operators of validate_expr. -/
def supportedOps : List Str :=
  [str "+", str "-", str "*", str "/", str "%", str "==", str "!=", str ">", str ">=",
   str "<", str "<=", str "&&", str "||", str "and", str "or", str "&", str "|",
   str "^", str "xor", str "<<", str ">>"]

/-- The validate_expr lambda of the gate: names must be `_` or known. -/
def validateExpr (known : List Str) : Expr → VRes Unit
  | .Int _ => .ok ()
  | .Bool _ => .ok ()
  | .Name t =>
    if !(t = str "_") && t ∉ known then
      .error (str "not yet supported: expression name reference outside attrs/instances: " ++ t)
    else .ok ()
  | .Unary op l =>
    if !(op = str "-" || op = str "!" || op = str "not" || op = str "~" ||
         (str "__cast__:").isPrefixOf op || (str "__attr__:").isPrefixOf op) then
      .error (str "not yet supported: unary operator \x22" ++ op ++ str "\x22")
    else validateExpr known l
  | .Binary op l r =>
    if op ∉ supportedOps then
      .error (str "not yet supported: binary operator \x22" ++ op ++ str "\x22")
    else
      match validateExpr known l with
      | .error e => .error e
      | .ok _ => validateExpr known r

/-- Optional-expression check. -/
def validateExprOpt (known : List Str) : Option Expr → VRes Unit
  | none => .ok ()
  | some e => validateExpr known e

/-- Instance loop of the gate; the returned list is known_names after
all instance ids were inserted. -/
def gateInstances (user_types : List (Str × TypeRef)) :
    List CInstance → List Str → VRes (List Str)
  | [], known => .ok known
  | inst :: rest, known =>
    if inst.kind = .kValue then
      match validateExpr known inst.value_expr with
      | .error e => .error e
      | .ok _ => gateInstances user_types rest (known ++ [inst.id])
    else
      let resolved := ResolvePrimitiveType inst.type user_types
      let unresolvedUser := resolved.isNone && inst.type.isUser
      if resolved.isNone && !unresolvedUser then
        .error (str "not yet supported: parse instance type must resolve to primitive type")
      else if unresolvedUser && inst.encoding.isSome then
        .error (str "not yet supported: encoding on user-type parse instances")
      else
        match validateExprOpt known inst.pos_expr with
        | .error e => .error e
        | .ok _ =>
          match validateExprOpt known inst.size_expr with
          | .error e => .error e
          | .ok _ => gateInstances user_types rest (known ++ [inst.id])

/-- Validation loop of the gate. -/
def gateValidations (known : List Str) : List Validation → VRes Unit
  | [] => .ok ()
  | v :: rest =>
    if v.target ∉ known then
      .error (str "not yet supported: validation target outside attrs/instances: " ++ v.target)
    else
      match validateExpr known v.condition_expr with
      | .error e => .error e
      | .ok _ => gateValidations known rest

/-- Expression checks over one attr's switch cases. -/
def validateCaseExprs (known : List Str) : List SwitchCase → VRes Unit
  | [] => .ok ()
  | c :: rest =>
    match c.matchExpr with
    | none => validateCaseExprs known rest
    | some e =>
      match validateExpr known e with
      | .error e2 => .error e2
      | .ok _ => validateCaseExprs known rest

/-- Expression checks over a list (user_type_args). -/
def validateExprList (known : List Str) : List Expr → VRes Unit
  | [] => .ok ()
  | e :: rest =>
    match validateExpr known e with
    | .error e2 => .error e2
    | .ok _ => validateExprList known rest

/-- Final attr loop of the gate: every attr-attached expression. -/
def gateAttrExprs (known : List Str) : List CAttr → VRes Unit
  | [] => .ok ()
  | attr :: rest =>
    match validateExprOpt known attr.if_expr with
    | .error e => .error e
    | .ok _ =>
    match validateExprOpt known attr.size_expr with
    | .error e => .error e
    | .ok _ =>
    match validateExprOpt known attr.repeat_expr with
    | .error e => .error e
    | .ok _ =>
    match validateExprOpt known attr.switch_on with
    | .error e => .error e
    | .ok _ =>
    match validateCaseExprs known attr.switch_cases with
    | .error e => .error e
    | .ok _ =>
    match validateExprList known attr.user_type_args with
    | .error e => .error e
    | .ok _ => gateAttrExprs known rest

/-- codegen.cpp ValidateSupportedSubset: the supportability gate. -/
def ValidateSupportedSubset (spec : CSpec) : VRes Unit :=
  let user_types := BuildUserTypeMap spec.types
  match gateAttrTypes user_types spec.attrs with
  | .error e => .error e
  | .ok _ =>
  match gateEnums spec.enums [] with
  | .error e => .error e
  | .ok declared_enums =>
  match gateAttrsEnum user_types declared_enums spec.attrs with
  | .error e => .error e
  | .ok _ =>
  match gateInstances user_types spec.instances
          (spec.params.map (fun p => p.id) ++ spec.attrs.map (fun a => a.id)) with
  | .error e => .error e
  | .ok known =>
  match gateValidations known spec.validations with
  | .error e => .error e
  | .ok _ => gateAttrExprs known spec.attrs

end KS

namespace KS

/-- The name references of an expression, in rendering order (the unary
node of the C++ expression tree has a single operand). -/
def exprNames : Expr → List Str
  | .Int _ => []
  | .Bool _ => []
  | .Name t => [t]
  | .Unary _ l => exprNames l
  | .Binary _ l r => exprNames l ++ exprNames r

/-- validate_expr admits exactly the underscore and the known names. -/
theorem validateExpr_names {known : List Str} :
    ∀ {e : Expr}, validateExpr known e = .ok () →
      ∀ n ∈ exprNames e, n = str "_" ∨ n ∈ known := by
  intro e
  induction e with
  | Int v => intro _ n hn; cases hn
  | Bool b => intro _ n hn; cases hn
  | Name t =>
    intro h n hn
    rw [validateExpr] at h
    split at h
    · cases h
    next hc =>
      simp only [Bool.not_eq_true, Bool.and_eq_false_iff] at hc
      rcases List.mem_singleton.mp hn with rfl
      rcases hc with hc | hc
      · left
        simpa using hc
      · right
        simpa using hc
  | Unary op l ih =>
    intro h n hn
    rw [validateExpr] at h
    split at h
    · cases h
    · exact ih h n hn
  | Binary op l r ihl ihr =>
    intro h n hn
    rw [validateExpr] at h
    split at h
    · cases h
    next =>
      split at h
      · cases h
      next u hl =>
        cases u
        rcases List.mem_append.mp hn with hn | hn
        · exact ihl hl n hn
        · exact ihr h n hn

/-- The gate's final attr loop checks every member's if_expr. -/
theorem gateAttrExprs_if_expr {known : List Str} :
    ∀ {l : List CAttr}, gateAttrExprs known l = .ok () →
      ∀ a ∈ l, validateExprOpt known a.if_expr = .ok () := by
  intro l
  induction l with
  | nil => intro _ a ha; cases ha
  | cons b bs ih =>
    intro h a ha
    rw [gateAttrExprs] at h
    split at h
    · cases h
    next u h1 =>
    cases u
    split at h
    · cases h
    split at h
    · cases h
    split at h
    · cases h
    split at h
    · cases h
    split at h
    · cases h
    cases ha with
    | head => exact h1
    | tail _ hm => exact ih h a hm

/-- The instance loop returns the incoming names plus every instance id. -/
theorem gateInstances_known {ut : List (Str × TypeRef)} :
    ∀ {l : List CInstance} {known k : List Str},
      gateInstances ut l known = .ok k → k = known ++ l.map (fun i => i.id) := by
  intro l
  induction l with
  | nil =>
    intro known k h
    rw [gateInstances] at h
    cases h
    simp
  | cons i is ih =>
    intro known k h
    rw [gateInstances] at h
    by_cases hk : i.kind = InstanceKind.kValue
    · rw [if_pos hk] at h
      split at h
      · cases h
      · have := ih h
        simp [this]
    · rw [if_neg hk] at h
      by_cases hc1 : ((ResolvePrimitiveType i.type ut).isNone &&
          !((ResolvePrimitiveType i.type ut).isNone && i.type.isUser)) = true
      · rw [if_pos hc1] at h
        cases h
      · rw [if_neg hc1] at h
        by_cases hc2 : ((ResolvePrimitiveType i.type ut).isNone && i.type.isUser &&
            i.encoding.isSome) = true
        · rw [if_pos hc2] at h
          cases h
        · rw [if_neg hc2] at h
          split at h
          · cases h
          split at h
          · cases h
          have := ih h
          simp [this]

/-- A gate success reaches the final attr loop with the full name set. -/
theorem gate_reaches_attrExprs {s : CSpec} (h : ValidateSupportedSubset s = .ok ()) :
    gateAttrExprs
      (s.params.map (fun p => p.id) ++ s.attrs.map (fun a => a.id) ++
        s.instances.map (fun i => i.id)) s.attrs = .ok () := by
  rw [ValidateSupportedSubset] at h
  split at h
  · cases h
  next u1 h1 =>
  split at h
  · cases h
  next de h2 =>
  split at h
  · cases h
  next u2 h3 =>
  split at h
  · cases h
  next known h4 =>
  split at h
  · cases h
  next u3 h5 =>
  have hk := gateInstances_known h4
  subst hk
  simpa [List.append_assoc] using h

/-- The gate's full known-name list after the instance loop: the
declared params, attrs and instances, in that order. -/
def gateNames (s : CSpec) : List Str :=
  (s.params.map (fun p => p.id) ++ s.attrs.map (fun a => a.id)) ++
    s.instances.map (fun i => i.id)

/-- An optional expression accepted by the gate has only underscore or
known names. -/
theorem validateExprOpt_names {known : List Str} {o : Option Expr}
    (h : validateExprOpt known o = .ok ()) :
    ∀ e, o = some e → ∀ n ∈ exprNames e, n = str "_" ∨ n ∈ known := by
  intro e he n hn
  subst he
  simp only [validateExprOpt] at h
  exact validateExpr_names h n hn

/-- A passing switch-case walk accepts every case's match expression. -/
theorem validateCaseExprs_mem {known : List Str} :
    ∀ {l : List SwitchCase}, validateCaseExprs known l = .ok () →
      ∀ c ∈ l, ∀ e, c.matchExpr = some e → validateExpr known e = .ok () := by
  intro l
  induction l with
  | nil => intro _ c hc; cases hc
  | cons b bs ih =>
    intro h c hc e he
    rw [validateCaseExprs] at h
    split at h
    next hm =>
      cases hc with
      | head => rw [he] at hm; cases hm
      | tail _ ht => exact ih h c ht e he
    next e2 hm =>
      split at h
      · cases h
      next u h2 =>
      cases u
      cases hc with
      | head =>
        rw [hm] at he
        cases he
        exact h2
      | tail _ ht => exact ih h c ht e he

/-- A passing expression-list walk accepts every member expression. -/
theorem validateExprList_mem {known : List Str} :
    ∀ {l : List Expr}, validateExprList known l = .ok () →
      ∀ e ∈ l, validateExpr known e = .ok () := by
  intro l
  induction l with
  | nil => intro _ e he; cases he
  | cons b bs ih =>
    intro h e he
    rw [validateExprList] at h
    split at h
    · cases h
    next u h2 =>
    cases u
    cases he with
    | head => exact h2
    | tail _ ht => exact ih h e ht

/-- A passing validation walk accepts every condition expression. -/
theorem gateValidations_mem {known : List Str} :
    ∀ {l : List Validation}, gateValidations known l = .ok () →
      ∀ v ∈ l, validateExpr known v.condition_expr = .ok () := by
  intro l
  induction l with
  | nil => intro _ v hv; cases hv
  | cons b bs ih =>
    intro h v hv
    rw [gateValidations] at h
    split at h
    · cases h
    split at h
    · cases h
    next u h2 =>
    cases u
    cases hv with
    | head => exact h2
    | tail _ ht => exact ih h v ht

/-- A passing final attr loop accepts every attr-attached expression:
if_expr, size_expr, repeat_expr, switch_on, every switch-case match
expression and every user-type argument. -/
theorem gateAttrExprs_mem {known : List Str} :
    ∀ {l : List CAttr}, gateAttrExprs known l = .ok () →
      ∀ a ∈ l,
        validateExprOpt known a.if_expr = .ok () ∧
        validateExprOpt known a.size_expr = .ok () ∧
        validateExprOpt known a.repeat_expr = .ok () ∧
        validateExprOpt known a.switch_on = .ok () ∧
        validateCaseExprs known a.switch_cases = .ok () ∧
        validateExprList known a.user_type_args = .ok () := by
  intro l
  induction l with
  | nil => intro _ a ha; cases ha
  | cons b bs ih =>
    intro h a ha
    rw [gateAttrExprs] at h
    split at h
    · cases h
    next u1 h1 =>
    cases u1
    split at h
    · cases h
    next u2 h2 =>
    cases u2
    split at h
    · cases h
    next u3 h3 =>
    cases u3
    split at h
    · cases h
    next u4 h4 =>
    cases u4
    split at h
    · cases h
    next u5 h5 =>
    cases u5
    split at h
    · cases h
    next u6 h6 =>
    cases u6
    cases ha with
    | head => exact ⟨h1, h2, h3, h4, h5, h6⟩
    | tail _ hm => exact ih h a hm

/-- A passing instance loop accepts each value instance's value
expression and each parse instance's pos and size expressions, with all
names underscore or in the final known list. -/
theorem gateInstances_exprs {ut : List (Str × TypeRef)} :
    ∀ {l : List CInstance} {known k : List Str},
      gateInstances ut l known = .ok k →
      ∀ i ∈ l,
        (i.kind = InstanceKind.kValue →
          ∀ n ∈ exprNames i.value_expr, n = str "_" ∨ n ∈ k) ∧
        (¬ i.kind = InstanceKind.kValue →
          (∀ e, i.pos_expr = some e → ∀ n ∈ exprNames e, n = str "_" ∨ n ∈ k) ∧
          (∀ e, i.size_expr = some e → ∀ n ∈ exprNames e, n = str "_" ∨ n ∈ k)) := by
  intro l
  induction l with
  | nil => intro known k h i hi; cases hi
  | cons b bs ih =>
    intro known k h i hi
    rw [gateInstances] at h
    by_cases hk : b.kind = InstanceKind.kValue
    · rw [if_pos hk] at h
      split at h
      · cases h
      next u hv =>
      cases u
      have hsub : ∀ n, n ∈ known → n ∈ k := by
        have hkk := gateInstances_known h
        subst hkk
        intro n hn
        exact List.mem_append_left _ (List.mem_append_left _ hn)
      cases hi with
      | head =>
        constructor
        · intro _ n hn
          rcases validateExpr_names hv n hn with h1 | h1
          · exact Or.inl h1
          · exact Or.inr (hsub n h1)
        · intro hne
          exact absurd hk hne
      | tail _ hm => exact ih h i hm
    · rw [if_neg hk] at h
      by_cases hc1 : ((ResolvePrimitiveType b.type ut).isNone &&
          !((ResolvePrimitiveType b.type ut).isNone && b.type.isUser)) = true
      · rw [if_pos hc1] at h
        cases h
      · rw [if_neg hc1] at h
        by_cases hc2 : ((ResolvePrimitiveType b.type ut).isNone && b.type.isUser &&
            b.encoding.isSome) = true
        · rw [if_pos hc2] at h
          cases h
        · rw [if_neg hc2] at h
          split at h
          · cases h
          next u1 hp =>
          cases u1
          split at h
          · cases h
          next u2 hs =>
          cases u2
          have hsub : ∀ n, n ∈ known → n ∈ k := by
            have hkk := gateInstances_known h
            subst hkk
            intro n hn
            exact List.mem_append_left _ (List.mem_append_left _ hn)
          cases hi with
          | head =>
            refine ⟨fun hkv => absurd hkv hk, fun _ => ⟨?_, ?_⟩⟩
            · intro e he n hn
              rcases validateExprOpt_names hp e he n hn with h1 | h1
              · exact Or.inl h1
              · exact Or.inr (hsub n h1)
            · intro e he n hn
              rcases validateExprOpt_names hs e he n hn with h1 | h1
              · exact Or.inl h1
              · exact Or.inr (hsub n h1)
          | tail _ hm => exact ih h i hm

/-- A gate success implies the instance loop, the validation loop and
the final attr loop all succeeded over the full known-name list. -/
theorem ValidateSupportedSubset_walk {s : CSpec}
    (h : ValidateSupportedSubset s = .ok ()) :
    gateInstances (BuildUserTypeMap s.types) s.instances
        (s.params.map (fun p => p.id) ++ s.attrs.map (fun a => a.id)) =
      .ok (gateNames s) ∧
    gateValidations (gateNames s) s.validations = .ok () ∧
    gateAttrExprs (gateNames s) s.attrs = .ok () := by
  rw [ValidateSupportedSubset] at h
  split at h
  · cases h
  next u1 h1 =>
  split at h
  · cases h
  next de h2 =>
  split at h
  · cases h
  next u2 h3 =>
  split at h
  · cases h
  next known h4 =>
  split at h
  · cases h
  next u3 h5 =>
  have hk := gateInstances_known h4
  subst hk
  exact ⟨h4, h5, h⟩

end KS

namespace KS

/-- A gate-passing spec whose second attr uses `_` inside its if_expr,
far from any repeat-until context. -/
def underscoreIfSpec : CSpec :=
  { name := str "u",
    attrs := [{ id := str "one", type := .primitive .kU1 },
              { id := str "two", type := .primitive .kU1,
                if_expr := some (.Binary (str "==") (.Name (str "_")) (.Int 1)) }] }

/-- A gate-passing spec whose second attr's if_expr references the
first attr by name. -/
def condIfSpec : CSpec :=
  { name := str "c",
    attrs := [{ id := str "a", type := .primitive .kU1 },
              { id := str "b", type := .primitive .kU1,
                if_expr := some (.Binary (str "==") (.Name (str "a")) (.Int 1)) }] }

/-- C8 (counterexample): `_` inside an if_expr — not a repeat-until
termination expression — passes the gate, so it is not rejected like
other undeclared names. -/
theorem C8_underscore_in_if_accepted :
    ValidateSupportedSubset underscoreIfSpec = .ok () :=
  rfl

/-- A gate-passing spec exercising several expression contexts: a
conditional and sized attr, a value instance and a validation whose
condition references the instance. -/
def gateProbeSpec : CSpec :=
  { name := str "g",
    attrs := [{ id := str "a", type := .primitive .kU1 },
              { id := str "b", type := .primitive .kU1,
                if_expr := some (.Binary (str "==") (.Name (str "a")) (.Int 1)),
                size_expr := some (.Name (str "a")) }],
    instances := [{ id := str "v", kind := .kValue,
                    value_expr := .Binary (str "+") (.Name (str "a")) (.Int 2) }],
    validations := [{ target := str "a",
                      condition_expr := .Binary (str "==") (.Name (str "v")) (.Int 3),
                      message := str "m" }] }

/-- C8 (amended): the gate's expression walk accepts exactly the name
`_` plus the declared params, attrs and instances, in every expression
context: for a gate-passing spec, every name inside an attr's if_expr,
size_expr, repeat_expr, switch_on, switch-case match expressions or
user-type arguments, inside a value instance's value expression, inside
a parse instance's pos or size expression, or inside a validation's
condition expression, is `_` or a declared param, attr or instance
id. -/
theorem C8_gate_name_policy {s : CSpec} (h : ValidateSupportedSubset s = .ok ()) :
    (∀ a ∈ s.attrs, ∀ e,
        (a.if_expr = some e ∨ a.size_expr = some e ∨ a.repeat_expr = some e ∨
         a.switch_on = some e ∨ (∃ c ∈ a.switch_cases, c.matchExpr = some e) ∨
         e ∈ a.user_type_args) →
        ∀ n ∈ exprNames e, n = str "_" ∨ n ∈ gateNames s) ∧
    (∀ i ∈ s.instances, i.kind = InstanceKind.kValue →
        ∀ n ∈ exprNames i.value_expr, n = str "_" ∨ n ∈ gateNames s) ∧
    (∀ i ∈ s.instances, ¬ i.kind = InstanceKind.kValue →
        ∀ e, (i.pos_expr = some e ∨ i.size_expr = some e) →
          ∀ n ∈ exprNames e, n = str "_" ∨ n ∈ gateNames s) ∧
    (∀ v ∈ s.validations,
        ∀ n ∈ exprNames v.condition_expr, n = str "_" ∨ n ∈ gateNames s) := by
  obtain ⟨hinst, hval, hattr⟩ := ValidateSupportedSubset_walk h
  refine ⟨?_, ?_, ?_, ?_⟩
  · intro a ha e hctx n hn
    obtain ⟨h1, h2, h3, h4, h5, h6⟩ := gateAttrExprs_mem hattr a ha
    rcases hctx with he | he | he | he | ⟨c, hc, he⟩ | he
    · exact validateExprOpt_names h1 e he n hn
    · exact validateExprOpt_names h2 e he n hn
    · exact validateExprOpt_names h3 e he n hn
    · exact validateExprOpt_names h4 e he n hn
    · exact validateExpr_names (validateCaseExprs_mem h5 c hc e he) n hn
    · exact validateExpr_names (validateExprList_mem h6 e he) n hn
  · intro i hi hk n hn
    exact (gateInstances_exprs hinst i hi).1 hk n hn
  · intro i hi hk e hctx n hn
    rcases hctx with he | he
    · exact ((gateInstances_exprs hinst i hi).2 hk).1 e he n hn
    · exact ((gateInstances_exprs hinst i hi).2 hk).2 e he n hn
  · intro v hv n hn
    exact validateExpr_names (gateValidations_mem hval v hv) n hn

/-- C8 witness: the name policy applied to `gateProbeSpec` at three
concrete contexts — the name `a` in the second attr's if_expr, the name
`a` in the value instance's expression and the name `v` in the
validation's condition. -/
theorem C8_gate_name_policy_witness :
    ValidateSupportedSubset gateProbeSpec = .ok () ∧
    (str "a" = str "_" ∨ str "a" ∈ gateNames gateProbeSpec) ∧
    (str "v" = str "_" ∨ str "v" ∈ gateNames gateProbeSpec) :=
  ⟨rfl,
   (C8_gate_name_policy (s := gateProbeSpec) rfl).1
     { id := str "b", type := .primitive .kU1,
       if_expr := some (.Binary (str "==") (.Name (str "a")) (.Int 1)),
       size_expr := some (.Name (str "a")) }
     (by decide) (.Binary (str "==") (.Name (str "a")) (.Int 1))
     (Or.inl rfl) (str "a") (by decide),
   (C8_gate_name_policy (s := gateProbeSpec) rfl).2.2.2
     { target := str "a",
       condition_expr := .Binary (str "==") (.Name (str "v")) (.Int 3),
       message := str "m" }
     (by decide) (str "v") (by decide)⟩

end KS

namespace KS

/-! ## codegen.cpp: RenderSource's validation emission -/

/-- codegen.cpp ValidationValueExpr. -/
def ValidationValueExpr (target : Str) (attrs instances : List Str) : Str :=
  if target ∈ attrs || target ∈ instances then target ++ str "()" else target

/-- codegen.cpp ValidationValueType: storage type of the named attr,
else the instance's type, else int32_t. -/
def ValidationValueType (target : Str) (spec : CSpec)
    (instance_types : List (Str × ExprType)) (user_types : List (Str × TypeRef)) : Str :=
  match spec.attrs.find? (fun a => a.id = target) with
  | some a => CppStorageType a.core user_types
  | none =>
    match spec.instances.find? (fun i => i.id = target) with
    | some i => CppInstanceType i instance_types user_types
    | none => str "int32_t"

/-- Loop of attr_index_by_id: map[attrs[i].id] = i in order. -/
def attrIndexGo : List CAttr → Nat → List (Str × Nat) → List (Str × Nat)
  | [], _, acc => acc
  | a :: rest, i, acc => attrIndexGo rest (i + 1) (insertSorted acc a.id i)

/-- attr_index_by_id of RenderSource: the map from attr id to index
(later entries overwrite earlier ones, as the std::map assignment). -/
def attrIndexById (attrs : List CAttr) : List (Str × Nat) :=
  attrIndexGo attrs 0 []

/-- The is_target_name lambda. -/
def isTargetName (target : Str) : Expr → Bool
  | .Name t => t = target
  | _ => false

/-- The is_int_lit lambda. -/
def isIntLit : Expr → Bool
  | .Int _ => true
  | _ => false

/-- The int payload of a literal (only read after isIntLit). -/
def intLitVal : Expr → Int
  | .Int v => v
  | _ => 0

/-- The generic validation emission (validation_expr_error branch). -/
def renderValidationGeneric (v : Validation) (spec : CSpec)
    (attr_names all_instance_names : List Str)
    (instance_types : List (Str × ExprType)) (user_types : List (Str × TypeRef)) : Str :=
  let cond := RenderExpr attr_names all_instance_names v.condition_expr (-1) []
  let val_expr := ValidationValueExpr v.target attr_names all_instance_names
  let val_type := ValidationValueType v.target spec instance_types user_types
  str "    if (!(" ++ cond ++ str ")) \x7b\n        throw kaitai::validation_expr_error<" ++
    val_type ++ str ">(" ++ val_expr ++ str ", m__io, \x22/valid/" ++ v.target ++
    str "\x22);\n    \x7d\n"

/-- One iteration of RenderSource's validation loop (codegen.cpp lines
1638-1669): the specialized equals-check against an integer literal, or
the generic expression check. -/
def renderValidationRow (v : Validation) (spec : CSpec)
    (attr_names all_instance_names : List Str)
    (instance_types : List (Str × ExprType)) (user_types : List (Str × TypeRef)) : Str :=
  match v.condition_expr with
  | .Binary op l r =>
    if op = str "==" then
      match lookup (attrIndexById spec.attrs) v.target with
      | some attr_index =>
        let lhsTargetRhsInt := isTargetName v.target l && isIntLit r
        let rhsTargetLhsInt := isTargetName v.target r && isIntLit l
        if lhsTargetRhsInt || rhsTargetLhsInt then
          let expected := if lhsTargetRhsInt then intLitVal r else intLitVal l
          let val_type := ValidationValueType v.target spec instance_types user_types
          str "    if (!(m_" ++ v.target ++ str " == " ++ intChars expected ++
            str ")) \x7b\n        throw kaitai::validation_not_equal_error<" ++ val_type ++
            str ">(" ++ intChars expected ++ str ", m_" ++ v.target ++
            str ", m__io, std::string(\x22/seq/" ++ natChars attr_index ++
            str "\x22));\n    \x7d\n"
        else renderValidationGeneric v spec attr_names all_instance_names instance_types user_types
      | none => renderValidationGeneric v spec attr_names all_instance_names instance_types user_types
    else renderValidationGeneric v spec attr_names all_instance_names instance_types user_types
  | _ => renderValidationGeneric v spec attr_names all_instance_names instance_types user_types

/-- RenderSource's whole validation section, with the sets as they
stand when the loop runs: attr_names holds the attr and param ids,
all_instance_names every instance id. -/
def renderValidations (spec : CSpec) : Str :=
  let instance_types := ComputeInstanceTypes spec
  let user_types := BuildUserTypeMap spec.types
  let attr_names := spec.attrs.map (fun a => a.id) ++ spec.params.map (fun p => p.id)
  let all_instance_names := spec.instances.map (fun i => i.id)
  (spec.validations.map (fun v =>
    renderValidationRow v spec attr_names all_instance_names instance_types user_types)).flatten

end KS

namespace KS

/-- Looking up the key just inserted. -/
theorem lookup_insertSorted_self {α : Type} :
    ∀ (acc : List (Str × α)) (k : Str) (v : α),
      lookup (insertSorted acc k v) k = some v := by
  intro acc
  induction acc with
  | nil => intro k v; simp [insertSorted, lookup]
  | cons p rest ih =>
    intro k v
    obtain ⟨k2, v2⟩ := p
    rw [insertSorted]
    by_cases h1 : k = k2
    · rw [if_pos h1]
      simp [lookup]
    · rw [if_neg h1]
      by_cases h2 : strLt k k2 = true
      · rw [if_pos h2]
        simp [lookup]
      · rw [if_neg h2]
        rw [lookup]
        rw [if_neg (fun hx => h1 hx.symm)]
        exact ih k v

/-- Inserting a different key leaves a lookup unchanged. -/
theorem lookup_insertSorted_other {α : Type} :
    ∀ (acc : List (Str × α)) (k k2 : Str) (v : α), ¬ k2 = k →
      lookup (insertSorted acc k2 v) k = lookup acc k := by
  intro acc
  induction acc with
  | nil =>
    intro k k2 v h
    simp [insertSorted, lookup, h]
  | cons p rest ih =>
    intro k k2 v h
    obtain ⟨k3, v3⟩ := p
    rw [insertSorted]
    by_cases h1 : k2 = k3
    · rw [if_pos h1]
      rw [lookup, lookup]
      rw [if_neg h, if_neg (fun hx => h (h1.trans hx))]
    · rw [if_neg h1]
      by_cases h2 : strLt k2 k3 = true
      · rw [if_pos h2]
        rw [lookup, if_neg h]
      · rw [if_neg h2]
        rw [lookup, lookup]
        by_cases h3 : k3 = k
        · rw [if_pos h3, if_pos h3]
        · rw [if_neg h3, if_neg h3]
          exact ih k k2 v h

/-- The index loop ignores attrs with other ids. -/
theorem attrIndexGo_skip {t : Str} :
    ∀ (l : List CAttr) (i : Nat) (acc : List (Str × Nat)),
      (∀ a ∈ l, ¬ a.id = t) →
      lookup (attrIndexGo l i acc) t = lookup acc t := by
  intro l
  induction l with
  | nil => intro i acc _; rfl
  | cons a rest ih =>
    intro i acc hall
    rw [attrIndexGo]
    rw [ih (i + 1) _ (fun b hb => hall b (List.mem_cons_of_mem a hb))]
    exact lookup_insertSorted_other acc t a.id i (hall a (List.mem_cons_self a rest))

/-- The index the loop assigns to an attr none after it shares an id
with. -/
theorem attrIndexGo_found {t : Str} :
    ∀ (pre : List CAttr) (a : CAttr) (post : List CAttr) (i : Nat)
      (acc : List (Str × Nat)), a.id = t → (∀ b ∈ post, ¬ b.id = t) →
      lookup (attrIndexGo (pre ++ a :: post) i acc) t = some (i + pre.length) := by
  intro pre
  induction pre with
  | nil =>
    intro a post i acc ha hpost
    rw [List.nil_append, attrIndexGo, attrIndexGo_skip post (i + 1) _ hpost, ha]
    simp [lookup_insertSorted_self]
  | cons b bs ih =>
    intro a post i acc ha hpost
    rw [List.cons_append, attrIndexGo, ih a post (i + 1) _ ha hpost]
    simp
    omega

end KS

namespace KS

/-- With pairwise distinct ids, the first find of the target attr is
the split one. -/
theorem find_attr_split {pre post : List CAttr} {a : CAttr} {t : Str}
    (ha : a.id = t)
    (hpre : ∀ b ∈ pre, ¬ b.id = t) :
    (pre ++ a :: post).find? (fun x => x.id = t) = some a := by
  induction pre with
  | nil =>
    rw [List.nil_append, List.find?_cons_of_pos]
    simp [ha]
  | cons b bs ih =>
    rw [List.cons_append, List.find?_cons_of_neg]
    · exact ih (fun c hc => hpre c (List.mem_cons_of_mem b hc))
    · simp [hpre b (List.mem_cons_self b bs)]

/-- C4: a validation whose condition is target == K (or K == target) on
an attr renders as the specialized validation_not_equal_error check at
the attr's index, typed with the attr's C++ storage type. -/
theorem C4_specialized_validation (spec : CSpec) (v : Validation)
    (attr_names all_instance_names : List Str) (instance_types : List (Str × ExprType))
    (pre post : List CAttr) (a : CAttr) (k : Int)
    (hsplit : spec.attrs = pre ++ a :: post)
    (hid : a.id = v.target)
    (hnodup : ∀ b ∈ pre ++ post, ¬ b.id = v.target)
    (hcond : v.condition_expr = .Binary (str "==") (.Name v.target) (.Int k) ∨
             v.condition_expr = .Binary (str "==") (.Int k) (.Name v.target)) :
    renderValidationRow v spec attr_names all_instance_names instance_types
        (BuildUserTypeMap spec.types) =
      str "    if (!(m_" ++ v.target ++ str " == " ++ intChars k ++
        str ")) \x7b\n        throw kaitai::validation_not_equal_error<" ++
        CppStorageType a.core (BuildUserTypeMap spec.types) ++ str ">(" ++
        intChars k ++ str ", m_" ++ v.target ++
        str ", m__io, std::string(\x22/seq/" ++ natChars pre.length ++
        str "\x22));\n    \x7d\n" := by
  have hpre : ∀ b ∈ pre, ¬ b.id = v.target := fun b hb =>
    hnodup b (List.mem_append.mpr (Or.inl hb))
  have hpost : ∀ b ∈ post, ¬ b.id = v.target := fun b hb =>
    hnodup b (List.mem_append.mpr (Or.inr hb))
  have hidx : lookup (attrIndexById spec.attrs) v.target = some pre.length := by
    rw [hsplit, attrIndexById]
    have := attrIndexGo_found pre a post 0 [] hid hpost
    simpa using this
  have hfind : spec.attrs.find? (fun x => x.id = v.target) = some a := by
    rw [hsplit]
    exact find_attr_split hid hpre
  have hvt : ValidationValueType v.target spec instance_types (BuildUserTypeMap spec.types) =
      CppStorageType a.core (BuildUserTypeMap spec.types) := by
    rw [ValidationValueType, hfind]
  rcases hcond with hc | hc
  · rw [renderValidationRow]
    simp only [hc]
    rw [if_pos trivial]
    simp only [hidx]
    simp [isTargetName, isIntLit, intLitVal, hvt, str, List.append_assoc]
  · rw [renderValidationRow]
    simp only [hc]
    rw [if_pos trivial]
    simp only [hidx]
    simp [isTargetName, isIntLit, intLitVal, hvt, str, List.append_assoc]

end KS

namespace KS

/-- The concrete one:u1 spec with the one == 0x55 validation. -/
def oneValSpec : CSpec :=
  { name := str "v",
    attrs := [{ id := str "one", type := .primitive .kU1 }],
    validations := [{ target := str "one",
                      condition_expr := .Binary (str "==") (.Name (str "one")) (.Int 85),
                      message := str "must be 85" }] }

/-- C4 witness: the specialized check for one:u1 with one == 0x55 is
validation_not_equal_error<uint8_t> with expected value 85 at /seq/0. -/
theorem C4_specialized_validation_witness :
    renderValidationRow
        { target := str "one",
          condition_expr := .Binary (str "==") (.Name (str "one")) (.Int 85),
          message := str "must be 85" }
        oneValSpec [str "one"] [] [] (BuildUserTypeMap oneValSpec.types) =
      str "    if (!(m_one == 85)) \x7b\n        throw kaitai::validation_not_equal_error<uint8_t>(85, m_one, m__io, std::string(\x22/seq/0\x22));\n    \x7d\n" :=
  (C4_specialized_validation oneValSpec
      { target := str "one",
        condition_expr := .Binary (str "==") (.Name (str "one")) (.Int 85),
        message := str "must be 85" }
      [str "one"] [] [] [] []
      { id := str "one", type := .primitive .kU1 } 85
      rfl rfl (by simp) (Or.inl rfl)).trans (by decide)

end KS

namespace KS

/-! ## codegen.cpp: scope helpers and the header emitters -/

/-- codegen.cpp Indent: four spaces per level. -/
def Indent (level : Nat) : Str := List.replicate (level * 4) ' '

/-- codegen.cpp LastScopeSegment. -/
def LastScopeSegment (scope_name : Str) : Str :=
  match (SplitScopePath scope_name).getLast? with
  | none => scope_name
  | some p => p

/-- codegen.cpp ParentScopeName. -/
def ParentScopeName (scope_name : Str) : Str :=
  let parts := SplitScopePath scope_name
  if parts.length ≤ 1 then []
  else JoinScopePath parts (parts.length - 1)

/-- codegen.cpp CppScopeTypeQualified. -/
def CppScopeTypeQualified (root_name scope_name : Str) : Str :=
  root_name ++ str "_t" ++
    (SplitScopePath scope_name).flatMap (fun p => str "::" ++ p ++ str "_t")

/-- Insertion sort by the std::string order (std::sort of DirectChildScopes). -/
def insertStr (x : Str) : List Str → List Str
  | [] => [x]
  | y :: rest => if strLt x y then x :: y :: rest else y :: insertStr x rest

/-- Sorted list of strings. -/
def sortStrs (l : List Str) : List Str := l.foldr insertStr []

/-- codegen.cpp DirectChildScopes. -/
def DirectChildScopes (scopes : List (Str × Spec)) (parent_scope : Str) : List Str :=
  sortStrs ((scopes.map (fun kv => kv.1)).filter
    (fun scope_name => ParentScopeName scope_name = parent_scope))

/-- codegen.cpp ResolveScopeRef. -/
def ResolveScopeRef (ref root_name : Str) (scopes : List (Str × Spec)) : Option Str :=
  if (lookup scopes ref).isSome then some ref
  else
    let rooted := root_name ++ str "::"
    let rel := ref.drop rooted.length
    if rooted.isPrefixOf ref && (lookup scopes rel).isSome then some rel
    else
      (scopes.map (fun kv => kv.1)).find? (fun scope_name =>
        scope_name = ref ||
        (decide (scope_name.length > ref.length) &&
         scope_name.drop (scope_name.length - ref.length) = ref &&
         (scope_name.drop (scope_name.length - ref.length - 1)).head? = some ':'))

/-- codegen.cpp UpperSnake. -/
def UpperSnake (value : Str) : Str :=
  guardLead (value.map (fun c => if isAlnumC c then c.toUpper else '_'))

/-- codegen.cpp NestedEnumTypeName. -/
def NestedEnumTypeName (ename : Str) : Str := EnumShortName ename ++ str "_t"

/-- codegen.cpp NestedEnumValueName. -/
def NestedEnumValueName (ename value_name : Str) : Str :=
  UpperSnake (EnumShortName ename) ++ str "_" ++ UpperSnake value_name

/-- codegen.cpp ScopeParentCppPtrType. -/
def ScopeParentCppPtrType (root_name scope_name : Str) : Str :=
  let parent := ParentScopeName scope_name
  if parent.isEmpty then root_name ++ str "_t*"
  else CppScopeTypeQualified root_name parent ++ str "*"

/-- codegen.cpp ScopeLocalTypeToken. -/
def ScopeLocalTypeToken (root_name current_scope target_scope : Str) : Str :=
  let target_parent := ParentScopeName target_scope
  if target_parent = current_scope || target_scope = current_scope then
    LastScopeSegment target_scope ++ str "_t"
  else CppScopeTypeQualified root_name target_scope

/-- codegen.cpp HasSwitchElseCase. -/
def HasSwitchElseCase (a : Attr) : Bool :=
  a.switch_cases.any (fun c => c.matchExpr.isNone)

/-- The unresolved-user type expression shared by the NestedAttr*Type
helpers. -/
def nestedUnresolvedTypeExpr (a : Attr) (current_scope root_name : Str)
    (scopes : List (Str × Spec)) : Str :=
  match ResolveScopeRef (match a.type with | .user u => u | .primitive _ => [])
          root_name scopes with
  | some resolved => ScopeLocalTypeToken root_name current_scope resolved
  | none => CppUserTypeName (match a.type with | .user u => u | .primitive _ => [])

/-- codegen.cpp NestedAttrBaseType. -/
def NestedAttrBaseType (a : Attr) (current_scope root_name : Str)
    (scopes : List (Str × Spec)) (user_types : List (Str × TypeRef)) : Str :=
  match a.enum_name with
  | some en => NestedEnumTypeName en
  | none =>
    if IsUnresolvedUserType a.type user_types && a.switch_on.isNone then
      nestedUnresolvedTypeExpr a current_scope root_name scopes ++ str "*"
    else if a.switch_on.isSome then SwitchCaseType a user_types
    else CppFieldType ((ResolvePrimitiveType a.type user_types).getD .kU1)

/-- codegen.cpp NestedAttrStorageType. -/
def NestedAttrStorageType (a : Attr) (current_scope root_name : Str)
    (scopes : List (Str × Spec)) (user_types : List (Str × TypeRef)) : Str :=
  if !(a.repeatKind = .kNone) then
    if IsUnresolvedUserType a.type user_types && a.switch_on.isNone then
      str "std::unique_ptr<std::vector<std::unique_ptr<" ++
        nestedUnresolvedTypeExpr a current_scope root_name scopes ++ str ">>>"
    else
      str "std::unique_ptr<std::vector<" ++
        NestedAttrBaseType a current_scope root_name scopes user_types ++ str ">>"
  else if IsUnresolvedUserType a.type user_types && a.switch_on.isNone then
    str "std::unique_ptr<" ++ nestedUnresolvedTypeExpr a current_scope root_name scopes ++
      str ">"
  else NestedAttrBaseType a current_scope root_name scopes user_types

/-- codegen.cpp NestedAttrAccessorType. -/
def NestedAttrAccessorType (a : Attr) (current_scope root_name : Str)
    (scopes : List (Str × Spec)) (user_types : List (Str × TypeRef)) : Str :=
  if !(a.repeatKind = .kNone) then
    if IsUnresolvedUserType a.type user_types && a.switch_on.isNone then
      str "std::vector<std::unique_ptr<" ++
        nestedUnresolvedTypeExpr a current_scope root_name scopes ++ str ">>*"
    else
      str "std::vector<" ++
        NestedAttrBaseType a current_scope root_name scopes user_types ++ str ">*"
  else if IsUnresolvedUserType a.type user_types && a.switch_on.isNone then
    nestedUnresolvedTypeExpr a current_scope root_name scopes ++ str "*"
  else NestedAttrBaseType a current_scope root_name scopes user_types

end KS

namespace KS

/-- Enum value rows of the nested enum emission (trailing comma on all
but the last). -/
def nestedEnumValueRows (ind2 ename : Str) : List EnumValue → Str
  | [] => []
  | [v] => ind2 ++ NestedEnumValueName ename v.name ++ str " = " ++ intChars v.value ++ str "\n"
  | v :: rest =>
    ind2 ++ NestedEnumValueName ename v.name ++ str " = " ++ intChars v.value ++ str ",\n" ++
      nestedEnumValueRows ind2 ename rest

/-- codegen.cpp EmitNestedClassHeader, as the text it appends.  The
fuel bounds the recursion into child scopes and is chosen above the
scope count by the callers; an exhausted fuel or unknown scope name
contributes nothing, as the C++ early return. -/
def EmitNestedClassHeader (root_name : Str) (scopes : List (Str × Spec))
    (user_types : List (Str × TypeRef)) : Nat → Str → Nat → Str
  | 0, _, _ => []
  | fuel + 1, scope_name, indent =>
    match lookup scopes scope_name with
    | none => []
    | some scope_spec =>
      let class_name := LastScopeSegment scope_name ++ str "_t"
      let parent_ptr_type := ScopeParentCppPtrType root_name scope_name
      let children := DirectChildScopes scopes scope_name
      let has_enums := !scope_spec.enums.isEmpty
      let ind := Indent indent
      let ind1 := Indent (indent + 1)
      ind ++ str "class " ++ class_name ++ str " : public kaitai::kstruct \x7b\n\n" ++
      ind ++ str "public:\n" ++
      children.flatMap (fun child =>
        ind1 ++ str "class " ++ LastScopeSegment child ++ str "_t;\n") ++
      (if !children.isEmpty then str "\n" else []) ++
      scope_spec.enums.flatMap (fun e =>
        let enum_ty := NestedEnumTypeName e.name
        ind1 ++ str "enum " ++ enum_ty ++ str " \x7b\n" ++
        nestedEnumValueRows (Indent (indent + 2)) e.name e.values ++
        ind1 ++ str "\x7d;\n" ++
        ind1 ++ str "static bool _is_defined_" ++ enum_ty ++ str "(" ++ enum_ty ++
          str " v);\n\n" ++
        ind ++ str "private:\n" ++
        ind1 ++ str "static const std::set<" ++ enum_ty ++ str "> _values_" ++ enum_ty ++
          str ";\n\n" ++
        ind ++ str "public:\n" ++ str "\n") ++
      (if children.isEmpty && !has_enums then str "\n" else []) ++
      ind1 ++ class_name ++ str "(kaitai::kstream* p__io, " ++ parent_ptr_type ++
        str " p__parent = nullptr, " ++ root_name ++ str "_t* p__root = nullptr);\n\n" ++
      ind ++ str "private:\n" ++
      ind1 ++ str "void _read();\n" ++
      ind1 ++ str "void _clean_up();\n\n" ++
      ind ++ str "public:\n" ++
      ind1 ++ str "~" ++ class_name ++ str "();\n" ++
      children.flatMap (fun child =>
        str "\n" ++ EmitNestedClassHeader root_name scopes user_types fuel child (indent + 1)) ++
      (if !children.isEmpty then str "\n" ++ ind ++ str "public:\n" else []) ++
      scope_spec.attrs.flatMap (fun attr =>
        let access_type := NestedAttrAccessorType attr scope_name root_name scopes user_types
        if !(attr.repeatKind = .kNone) ||
           (IsUnresolvedUserType attr.type user_types && attr.switch_on.isNone) then
          ind1 ++ access_type ++ str " " ++ attr.id ++ str "() const \x7b return m_" ++
            attr.id ++ str ".get(); \x7d\n"
        else
          ind1 ++ access_type ++ str " " ++ attr.id ++ str "() const \x7b return m_" ++
            attr.id ++ str "; \x7d\n") ++
      ind1 ++ root_name ++ str "_t* _root() const \x7b return m__root; \x7d\n" ++
      ind1 ++ parent_ptr_type ++ str " _parent() const \x7b return m__parent; \x7d\n" ++
      str "\n" ++
      ind ++ str "private:\n" ++
      scope_spec.attrs.flatMap (fun attr =>
        ind1 ++ NestedAttrStorageType attr scope_name root_name scopes user_types ++
          str " m_" ++ attr.id ++ str ";\n" ++
        (if attr.switch_on.isSome && !HasSwitchElseCase attr then
          ind1 ++ str "bool n_" ++ attr.id ++ str ";\n"
        else [])) ++
      (if scope_spec.attrs.any (fun attr => attr.switch_on.isSome && !HasSwitchElseCase attr) then
        str "\n" ++ ind ++ str "public:\n" ++
        scope_spec.attrs.flatMap (fun attr =>
          if attr.switch_on.isSome && !HasSwitchElseCase attr then
            ind1 ++ str "bool _is_null_" ++ attr.id ++ str "() \x7b " ++ attr.id ++
              str "(); return n_" ++ attr.id ++ str "; \x7d;\n"
          else []) ++
        str "\n" ++ ind ++ str "private:\n"
      else []) ++
      ind1 ++ root_name ++ str "_t* m__root;\n" ++
      ind1 ++ parent_ptr_type ++ str " m__parent;\n" ++
      ind ++ str "\x7d;\n"

end KS

namespace KS

/-- Index of the last '.' (std::string find_last_of('.')). -/
def rfindDotGo : Str → Nat → Option Nat → Option Nat
  | [], _, best => best
  | c :: rest, i, best =>
    if c = '.' then rfindDotGo rest (i + 1) (some i)
    else rfindDotGo rest (i + 1) best

/-- codegen.cpp ImportStem: basename without directory or extension. -/
def ImportStem (import_name : Str) : Str :=
  let afterSlash :=
    ((import_name.reverse.takeWhile (fun c => !(c = '/' || c = '\\'))).reverse)
  match rfindDotGo afterSlash 0 none with
  | none => afterSlash
  | some pos => afterSlash.take pos

/-- codegen.cpp UserTypeMatchesImport. -/
def UserTypeMatchesImport (type_name import_stem : Str) : Bool :=
  type_name = import_stem ||
  (decide (type_name.length > import_stem.length) &&
   type_name.drop (type_name.length - import_stem.length) = import_stem &&
   type_name.get? (type_name.length - import_stem.length - 1) = some ':')

/-- codegen.cpp NeedsStringInclude (constantly false in this slice). -/
def NeedsStringInclude : Bool := false

/-- codegen.cpp NeedsVectorInclude. -/
def NeedsVectorInclude (attrs : List CAttr) : Bool :=
  attrs.any (fun a => !(a.repeatKind = .kNone))

/-- Set insertion by membership (std::set<std::string>::insert, where
only membership is observed). -/
def insertStrSet (req : List Str) (stem : Str) : List Str :=
  if stem ∈ req then req else req ++ [stem]

/-- The maybe_add_import lambda of RenderHeader. -/
def maybeAddImport (imports : List Str) (user_types : List (Str × TypeRef))
    (req : List Str) (ref : TypeRef) : List Str :=
  if !(IsUnresolvedUserType ref user_types) then req
  else
    let u := match ref with | .user u2 => u2 | .primitive _ => []
    if u = str "kaitai::kstruct" || u = str "struct" then req
    else
      imports.foldl (fun r imp =>
        let stem := ImportStem imp
        if UserTypeMatchesImport u stem then insertStrSet r stem else r) req

/-- Root enum value rows. -/
def enumRootValueRows : List EnumValue → Str
  | [] => []
  | [v] => str "    " ++ EnumValueName v.name ++ str " = " ++ intChars v.value ++ str "\n"
  | v :: rest =>
    str "    " ++ EnumValueName v.name ++ str " = " ++ intChars v.value ++ str ",\n" ++
      enumRootValueRows rest

/-- The ctor_param_decl lambda of RenderHeader. -/
def ctorParamDecl (spec : CSpec) (user_types : List (Str × TypeRef)) : Str :=
  spec.params.flatMap (fun p =>
    CppTypeForTypeRef p.type user_types ++ str " p_" ++ p.id ++ str ", ") ++
  str "kaitai::kstream* p__io, kaitai::kstruct* p__parent = nullptr, " ++ spec.name ++
    str "_t* p__root = nullptr"

/-- The raw-bytes shadow condition of RenderHeader's attr loop. -/
def rawShadowAttr (a : CAttr) (user_types : List (Str × TypeRef)) : Bool :=
  ((ResolvePrimitiveType a.type user_types).getD .kU1) = .kBytes &&
  (match a.process with | some p => p.kind = .kXorConst | none => false) &&
  a.repeatKind = .kNone

/-- codegen.cpp RenderHeader: the complete generated header text. -/
def RenderHeader (spec : CSpec) : Str :=
  let instance_types := ComputeInstanceTypes spec
  let user_types := BuildUserTypeMap spec.types
  let local_scopes := scopesAdd spec.types []
  let req0 := spec.params.foldl (fun r p => maybeAddImport spec.imports user_types r p.type) []
  let req1 := spec.attrs.foldl (fun r a =>
    a.switch_cases.foldl (fun r2 c => maybeAddImport spec.imports user_types r2 c.type)
      (maybeAddImport spec.imports user_types r a.type)) req0
  let required := spec.instances.foldl (fun r i =>
    if i.kind = .kParse || i.has_explicit_type then
      maybeAddImport spec.imports user_types r i.type
    else r) req1
  let importIncludes := (spec.imports.foldl (fun (st : List Str × Str) imp =>
    let stem := ImportStem imp
    if !(stem ∈ required) then st
    else if stem ∈ st.1 then st
    else (st.1 ++ [stem], st.2 ++ str "#include \x22" ++ stem ++ str ".h\x22\n")) ([], [])).2
  let needs_set := !spec.enums.isEmpty || local_scopes.any (fun kv => !kv.2.enums.isEmpty)
  let raw_accessors := spec.attrs.flatMap (fun a =>
    if rawShadowAttr a user_types then
      str "    std::string _raw_" ++ a.id ++ str "() const \x7b return m__raw_" ++ a.id ++
        str "; \x7d\n"
    else [])
  let raw_fields := spec.attrs.flatMap (fun a =>
    if rawShadowAttr a user_types then
      str "    std::string m__raw_" ++ a.id ++ str ";\n"
    else [])
  let root_children := DirectChildScopes local_scopes []
  str "#pragma once\n\n" ++
  str "// This is a generated file! Please edit source .ksy file and use kaitai-struct-compiler to rebuild\n\n" ++
  str "class " ++ spec.name ++ str "_t;\n\n" ++
  str "#include \x22kaitai/kaitaistruct.h\x22\n" ++
  str "#include <kaitai/exceptions.h>\n" ++
  str "#include <stdint.h>\n" ++
  str "#include <memory>\n" ++
  (if NeedsStringInclude then str "#include <string>\n" else []) ++
  (if NeedsVectorInclude spec.attrs then str "#include <vector>\n" else []) ++
  (if needs_set then str "#include <set>\n" else []) ++
  importIncludes ++
  str "\n" ++
  str "#if KAITAI_STRUCT_VERSION < 11000L\n" ++
  str "#error \x22Incompatible Kaitai Struct C++/STL API: version 0.11 or later is required\x22\n" ++
  str "#endif\n\n" ++
  spec.enums.flatMap (fun e =>
    str "enum class " ++ EnumCppTypeName e.name ++ str " \x7b\n" ++
      enumRootValueRows e.values ++ str "\x7d;\n\n") ++
  str "class " ++ spec.name ++ str "_t : public kaitai::kstruct \x7b\n\n" ++
  str "public:\n" ++
  (if root_children.isEmpty then str "\n" else []) ++
  root_children.flatMap (fun child =>
    str "    class " ++ LastScopeSegment child ++ str "_t;\n") ++
  (if !root_children.isEmpty then str "\n" else []) ++
  str "    " ++ spec.name ++ str "_t(" ++ ctorParamDecl spec user_types ++ str ");\n\n" ++
  str "private:\n" ++
  str "    void _read();\n" ++
  str "    void _clean_up();\n\n" ++
  str "public:\n" ++
  str "    ~" ++ spec.name ++ str "_t();\n" ++
  root_children.flatMap (fun child =>
    str "\n" ++
      EmitNestedClassHeader spec.name local_scopes user_types (local_scopes.length + 1) child 1) ++
  (if !local_scopes.isEmpty then str "\npublic:\n" else []) ++
  spec.instances.flatMap (fun inst =>
    str "    " ++ CppInstanceType inst instance_types user_types ++ str " " ++ inst.id ++
      str "();\n") ++
  spec.params.flatMap (fun p =>
    str "    " ++ CppTypeForTypeRef p.type user_types ++ str " " ++ p.id ++
      str "() const \x7b return m_" ++ p.id ++ str "; \x7d\n") ++
  spec.attrs.flatMap (fun a =>
    let unresolved_user := IsUnresolvedUserType a.type user_types && a.switch_on.isNone
    if !(a.repeatKind = .kNone) then
      str "    " ++ CppAccessorType a.core user_types ++ str " " ++ a.id ++
        str "() const \x7b return m_" ++ a.id ++ str ".get(); \x7d\n"
    else if unresolved_user then
      str "    " ++ CppAccessorType a.core user_types ++ str " " ++ a.id ++
        str "() const \x7b return m_" ++ a.id ++ str ".get(); \x7d\n"
    else
      str "    " ++ CppAccessorType a.core user_types ++ str " " ++ a.id ++
        str "() const \x7b return m_" ++ a.id ++ str "; \x7d\n") ++
  str "    " ++ spec.name ++ str "_t* _root() const \x7b return m__root; \x7d\n" ++
  str "    kaitai::kstruct* _parent() const \x7b return m__parent; \x7d\n" ++
  raw_accessors ++
  str "\n" ++
  str "private:\n" ++
  spec.instances.flatMap (fun inst =>
    str "    bool f_" ++ inst.id ++ str ";\n" ++
    str "    " ++ CppInstanceType inst instance_types user_types ++ str " m_" ++ inst.id ++
      str ";\n") ++
  spec.params.flatMap (fun p =>
    str "    " ++ CppTypeForTypeRef p.type user_types ++ str " m_" ++ p.id ++ str ";\n") ++
  spec.attrs.flatMap (fun a =>
    str "    " ++ CppStorageType a.core user_types ++ str " m_" ++ a.id ++ str ";\n") ++
  str "    " ++ spec.name ++ str "_t* m__root;\n" ++
  str "    kaitai::kstruct* m__parent;\n" ++
  raw_fields ++
  str "\x7d;\n"

end KS

namespace KS

/-- Extending an infix on the right. -/
theorem isInfix_appL {s m : Str} (r : Str) (h : List.IsInfix s m) :
    List.IsInfix s (m ++ r) := by
  obtain ⟨a, b, hab⟩ := h
  exact ⟨a, b ++ r, by rw [← hab]; simp [List.append_assoc]⟩

/-- Extending an infix on the left. -/
theorem isInfix_appR {s m : Str} (l : Str) (h : List.IsInfix s m) :
    List.IsInfix s (l ++ m) := by
  obtain ⟨a, b, hab⟩ := h
  exact ⟨l ++ a, b, by rw [← hab]; simp [List.append_assoc]⟩

/-- A member's image is an infix of the flatMap. -/
theorem isInfix_flatMap {α : Type} (f : α → Str) {l : List α} {a : α} (ha : a ∈ l) :
    List.IsInfix (f a) (l.flatMap f) := by
  induction l with
  | nil => cases ha
  | cons x xs ih =>
    rw [List.flatMap_cons]
    cases ha with
    | head => exact isInfix_appL _ (List.infix_refl _)
    | tail _ hm => exact isInfix_appR _ (ih hm)

set_option maxHeartbeats 2000000 in
/-- C7 (amended, nested classes): for every attr of an embedded scope
with switch_on set and no else case, the nested class header declares
the private bool n_<id> flag and the public _is_null_<id>() predicate
that materializes the attr and returns the flag. -/
theorem C7_nested_nullable_switch
    (root_name : Str) (scopes : List (Str × Spec)) (user_types : List (Str × TypeRef))
    (fuel indent : Nat) (scope_name : Str) (scope_spec : Spec) (a : Attr)
    (hs : lookup scopes scope_name = some scope_spec)
    (ha : a ∈ scope_spec.attrs)
    (hsw : a.switch_on.isSome = true)
    (hne : HasSwitchElseCase a = false) :
    List.IsInfix (Indent (indent + 1) ++ str "bool n_" ++ a.id ++ str ";\n")
      (EmitNestedClassHeader root_name scopes user_types (fuel + 1) scope_name indent) ∧
    List.IsInfix (Indent (indent + 1) ++ str "bool _is_null_" ++ a.id ++ str "() \x7b " ++
        a.id ++ str "(); return n_" ++ a.id ++ str "; \x7d;\n")
      (EmitNestedClassHeader root_name scopes user_types (fuel + 1) scope_name indent) := by
  have hcond : (a.switch_on.isSome && !HasSwitchElseCase a) = true := by
    rw [hsw, hne]
    rfl
  have hany : scope_spec.attrs.any
      (fun attr => attr.switch_on.isSome && !HasSwitchElseCase attr) = true :=
    List.any_eq_true.mpr ⟨a, ha, hcond⟩
  rw [EmitNestedClassHeader]
  simp only [hs, hany, if_true]
  constructor
  · have hfa : List.IsInfix (Indent (indent + 1) ++ str "bool n_" ++ a.id ++ str ";\n")
        ((fun attr =>
          Indent (indent + 1) ++
            NestedAttrStorageType attr scope_name root_name scopes user_types ++
            str " m_" ++ attr.id ++ str ";\n" ++
            (if attr.switch_on.isSome && !HasSwitchElseCase attr then
              Indent (indent + 1) ++ str "bool n_" ++ attr.id ++ str ";\n"
            else [])) a) := by
      simp only [hcond, if_true]
      exact isInfix_appR _ (List.infix_refl _)
    have hstep := hfa.trans (isInfix_flatMap
      (fun attr =>
        Indent (indent + 1) ++
          NestedAttrStorageType attr scope_name root_name scopes user_types ++
          str " m_" ++ attr.id ++ str ";\n" ++
          (if attr.switch_on.isSome && !HasSwitchElseCase attr then
            Indent (indent + 1) ++ str "bool n_" ++ attr.id ++ str ";\n"
          else [])) ha)
    iterate 9 (apply isInfix_appL)
    apply isInfix_appR
    exact hstep
  · have hfa : List.IsInfix (Indent (indent + 1) ++ str "bool _is_null_" ++ a.id ++
        str "() \x7b " ++ a.id ++ str "(); return n_" ++ a.id ++ str "; \x7d;\n")
        ((fun attr =>
          if attr.switch_on.isSome && !HasSwitchElseCase attr then
            Indent (indent + 1) ++ str "bool _is_null_" ++ attr.id ++ str "() \x7b " ++
              attr.id ++ str "(); return n_" ++ attr.id ++ str "; \x7d;\n"
          else []) a) := by
      simp only [hcond, if_true]
      exact List.infix_refl _
    have hstep := hfa.trans (isInfix_flatMap
      (fun attr =>
        if attr.switch_on.isSome && !HasSwitchElseCase attr then
          Indent (indent + 1) ++ str "bool _is_null_" ++ attr.id ++ str "() \x7b " ++
            attr.id ++ str "(); return n_" ++ attr.id ++ str "; \x7d;\n"
        else []) ha)
    iterate 8 (apply isInfix_appL)
    apply isInfix_appR
    iterate 3 (apply isInfix_appL)
    apply isInfix_appR
    exact hstep

end KS

namespace KS

/-- A root spec whose second attr switches on the first with no else
case. -/
def rootSwitchSpec : CSpec :=
  { name := str "r",
    attrs := [{ id := str "sel", type := .primitive .kU1 },
              { id := str "body", type := .primitive .kU1,
                switch_on := some (.Name (str "sel")),
                switch_cases := [{ matchExpr := some (.Int 1), type := .primitive .kU1 },
                                 { matchExpr := some (.Int 2), type := .primitive .kU2 }] }] }

/-- Executable infix test (substring search). -/
def hasInfixB (pat : Str) : Str → Bool
  | [] => pat.isEmpty
  | c :: rest => pat.isPrefixOf (c :: rest) || hasInfixB pat rest

/-- An infix is found by the executable search. -/
theorem infix_hasInfixB {p : Str} : ∀ {s : Str}, List.IsInfix p s → hasInfixB p s = true := by
  intro s
  induction s with
  | nil =>
    intro h
    rw [List.infix_nil] at h
    subst h
    rfl
  | cons c rest ih =>
    intro h
    obtain ⟨a, b, hab⟩ := h
    rw [hasInfixB]
    cases a with
    | nil =>
      have hp : List.IsPrefix p (c :: rest) := ⟨b, by simpa using hab⟩
      simp [List.isPrefixOf_iff_prefix.mpr hp]
    | cons d a2 =>
      have h3 : a2 ++ (p ++ b) = rest := by
        simpa using congrArg List.tail hab
      rw [ih ⟨a2, b, by simpa [List.append_assoc] using h3⟩]
      simp

set_option maxRecDepth 100000 in
set_option maxHeartbeats 4000000 in
/-- C7 (counterexample): the root spec `rootSwitchSpec` has an attr
with switch_on and no else case, yet its RenderHeader output contains
neither a `_is_null_` predicate nor a `bool n_` flag anywhere — the
nullable machinery exists only in nested class headers. -/
theorem C7_root_header_lacks_nullable :
    rootSwitchSpec.attrs.any
        (fun a => a.switch_on.isSome && !HasSwitchElseCase a.core) = true ∧
    ¬ List.IsInfix (str "_is_null_") (RenderHeader rootSwitchSpec) ∧
    ¬ List.IsInfix (str "bool n_") (RenderHeader rootSwitchSpec) := by
  have h1 : hasInfixB (str "_is_null_") (RenderHeader rootSwitchSpec) = false := rfl
  have h2 : hasInfixB (str "bool n_") (RenderHeader rootSwitchSpec) = false := rfl
  refine ⟨rfl, fun h => ?_, fun h => ?_⟩
  · rw [infix_hasInfixB h] at h1
    exact Bool.noConfusion h1
  · rw [infix_hasInfixB h] at h2
    exact Bool.noConfusion h2

/-- A nested scope with a switch-on attr lacking an else case. -/
def nestedSwitchScope : Spec :=
  { name := str "inner",
    attrs := [{ id := str "sel", type := .primitive .kU1 },
              { id := str "body", type := .primitive .kU1,
                switch_on := some (.Name (str "sel")),
                switch_cases := [{ matchExpr := some (.Int 1), type := .primitive .kU1 }] }] }

/-- C7 witness: the nested class header for `nestedSwitchScope` carries
both the flag and the predicate for attr body. -/
theorem C7_nested_nullable_switch_witness :
    List.IsInfix (Indent 2 ++ str "bool n_" ++ str "body" ++ str ";\n")
      (EmitNestedClassHeader (str "r") [(str "inner", nestedSwitchScope)] [] 2 (str "inner") 1) ∧
    List.IsInfix (Indent 2 ++ str "bool _is_null_" ++ str "body" ++ str "() \x7b " ++
        str "body" ++ str "(); return n_" ++ str "body" ++ str "; \x7d;\n")
      (EmitNestedClassHeader (str "r") [(str "inner", nestedSwitchScope)] [] 2 (str "inner") 1) :=
  C7_nested_nullable_switch (str "r") [(str "inner", nestedSwitchScope)] [] 1 1
    (str "inner") nestedSwitchScope
    { id := str "body", type := .primitive .kU1,
      switch_on := some (.Name (str "sel")),
      switch_cases := [{ matchExpr := some (.Int 1), type := .primitive .kU1 }] }
    rfl (by decide) rfl rfl

end KS
